import Mathlib

/-!
# Dali: synchronized host/device memory and the memory bank

A shallow embedding of `dali/math/memory_bank/MemoryBank.cpp` and
`dali/math/SynchronizedMemory.cu.cpp`, as compiled with `DALI_USE_CUDA`
defined (the build in which a memory has a host side and a device side).

* A buffer is named by its address (`Ptr`); the host and the device are two
  address spaces (`Heap`), each mapping an address and an element index to
  the element stored there.
* The static members of `memory_bank<R>` are the fields of `memory_bank`;
  the mutable members of a `SynchronizedMemory<R>` are the fields of
  `SynchronizedMemory`. Member functions take the state and return the new
  state (the C++ `const` member functions write `mutable` members).
* A null pointer is `none`. A member function that would read or write
  through a null pointer, divide by zero, fail an `assert` or fail an
  mshadow shape check returns `none`.
* `int` sizes are natural numbers in `SynchronizedMemory` (a buffer has a
  non-negative number of elements) and integers in `memory_bank`, whose map
  key is the `int` amount converted to `unsigned long long`, a conversion
  that sends distinct amounts to distinct keys. The two `long long`
  counters are unbounded integers: they count buffers and elements held by
  the process, which stay far below `2^63`.

Further sections embed the strided evaluation plan of `mshadow_wrapper.h`,
row plucking (`TensorAccessor.h`), the views and accessors of
`TensorInternal.cu.cpp`, the reading of character sequences in
`character_prediction.cpp`, the means of `reducers.cu.cpp` and the cached
allocator of `MemoryBank.cpp`. `Array`, `Slice` and the layers, whose sources
are not among the files, are modelled from the specification; every such
definition says so.
-/

namespace Dali

/-- Address of a buffer (a non-null `R*`). -/
abbrev Ptr := Nat

/-- One address space: `h p i` is element `i` of the buffer at address `p`. -/
abbrev Heap (R : Type) := Ptr → Nat → R

/-! ## memory_operations (the runtime allocator) -/

/-- Modelled from the spec: `memory_operations<R>` is not among the sources;
the bank calls it to "request from the OS/runtime" a buffer it cannot serve
from a bucket. The runtime hands out, per address space, an address it has
not handed out before; the contents of the new buffer are whatever the heap
holds there. -/
structure memory_operations where
  cpu_next : Ptr
  gpu_next : Ptr
deriving DecidableEq, Repr

/-- Modelled from the spec: `memory_operations<R>::allocate_cpu_memory`, the
request to the runtime for a new host buffer. -/
def memory_operations.allocate_cpu_memory (rt : memory_operations)
    (_amount _inner_dimension : Int) : Ptr × memory_operations :=
  (rt.cpu_next, { rt with cpu_next := rt.cpu_next + 1 })

/-- Modelled from the spec: `memory_operations<R>::allocate_gpu_memory`, the
request to the runtime for a new device buffer. -/
def memory_operations.allocate_gpu_memory (rt : memory_operations)
    (_amount _inner_dimension : Int) : Ptr × memory_operations :=
  (rt.gpu_next, { rt with gpu_next := rt.gpu_next + 1 })

/-! ## memory_bank -/

/-- Static members of `memory_bank<R>`. A bucket (`std::vector<R*>`) is a
list whose last element is `back()`; an amount without an entry in the
`unordered_map` maps to `none`. -/
structure memory_bank where
  cpu_memory_bank : Int → Option (List Ptr)
  num_cpu_allocations : Int
  total_cpu_memory : Int
  gpu_memory_bank : Int → Option (List Ptr)
  num_gpu_allocations : Int
  total_gpu_memory : Int

/-- The bank at program start: empty maps, counters at 0. -/
def memory_bank.empty : memory_bank :=
  { cpu_memory_bank := fun _ => none
    num_cpu_allocations := 0
    total_cpu_memory := 0
    gpu_memory_bank := fun _ => none
    num_gpu_allocations := 0
    total_gpu_memory := 0 }

/-- Member function `memory_bank<R>::deposit_cpu`: `cpu_memory_bank[amount].emplace_back(ptr)`;
`operator[]` creates an empty bucket when the amount has none. -/
def memory_bank.deposit_cpu (b : memory_bank) (amount _inner_dimension : Int)
    (ptr : Ptr) : memory_bank :=
  { b with
    cpu_memory_bank :=
      Function.update b.cpu_memory_bank amount
        (some ((b.cpu_memory_bank amount).getD [] ++ [ptr])) }

/-- Member function `memory_bank<R>::allocate_cpu`: the path taken when no buffer can be
popped (lines 32-34). -/
def memory_bank.allocate_cpu_new (b : memory_bank) (rt : memory_operations)
    (amount inner_dimension : Int) : Ptr × memory_bank × memory_operations :=
  let r := rt.allocate_cpu_memory amount inner_dimension
  (r.1,
   { b with
     num_cpu_allocations := b.num_cpu_allocations + 1
     total_cpu_memory := b.total_cpu_memory + amount },
   r.2)

/-- Member function `memory_bank<R>::allocate_cpu`. -/
def memory_bank.allocate_cpu (b : memory_bank) (rt : memory_operations)
    (amount inner_dimension : Int) : Ptr × memory_bank × memory_operations :=
  match b.cpu_memory_bank amount with
  | some deposit_box =>
    match deposit_box.getLast? with
    | some preallocated_memory =>
      (preallocated_memory,
       { b with
         cpu_memory_bank :=
           Function.update b.cpu_memory_bank amount (some deposit_box.dropLast) },
       rt)
    | none => b.allocate_cpu_new rt amount inner_dimension
  | none => b.allocate_cpu_new rt amount inner_dimension

/-- Member function `memory_bank<R>::deposit_gpu`. -/
def memory_bank.deposit_gpu (b : memory_bank) (amount _inner_dimension : Int)
    (ptr : Ptr) : memory_bank :=
  { b with
    gpu_memory_bank :=
      Function.update b.gpu_memory_bank amount
        (some ((b.gpu_memory_bank amount).getD [] ++ [ptr])) }

/-- Member function `memory_bank<R>::allocate_gpu`: the path taken when no buffer can be
popped (lines 73-75). -/
def memory_bank.allocate_gpu_new (b : memory_bank) (rt : memory_operations)
    (amount inner_dimension : Int) : Ptr × memory_bank × memory_operations :=
  let r := rt.allocate_gpu_memory amount inner_dimension
  (r.1,
   { b with
     num_gpu_allocations := b.num_gpu_allocations + 1
     total_gpu_memory := b.total_gpu_memory + amount },
   r.2)

/-- Member function `memory_bank<R>::allocate_gpu`. -/
def memory_bank.allocate_gpu (b : memory_bank) (rt : memory_operations)
    (amount inner_dimension : Int) : Ptr × memory_bank × memory_operations :=
  match b.gpu_memory_bank amount with
  | some deposit_box =>
    match deposit_box.getLast? with
    | some preallocated_memory =>
      (preallocated_memory,
       { b with
         gpu_memory_bank :=
           Function.update b.gpu_memory_bank amount (some deposit_box.dropLast) },
       rt)
    | none => b.allocate_gpu_new rt amount inner_dimension
  | none => b.allocate_gpu_new rt amount inner_dimension

/-! ## The world a SynchronizedMemory lives in -/

/-- Everything outside a `SynchronizedMemory` object that its member
functions read or write: the bank, the runtime allocator and the contents
of the two address spaces. -/
structure World (R : Type) where
  bank : memory_bank
  runtime : memory_operations
  cpu : Heap R
  gpu : Heap R

/-! ## mshadow tensors over a raw pointer -/

/-- An `mshadow::Tensor<dev, 2, R>` built from a pointer and a `Shape2`: the
rows are contiguous (`stride_ = shape[1]`), so the tensor covers the elements
`0 .. shape[0]*shape[1] - 1` of its buffer. -/
structure Tensor where
  dptr_ : Option Ptr
  shape : Nat × Nat
deriving DecidableEq, Repr

/-- Number of elements of a tensor (`shape_.Size()`). -/
def Tensor.Size (t : Tensor) : Nat := t.shape.1 * t.shape.2

/-- The assignment `tensor = (R)0.0`: every element the tensor covers becomes
`v`. Writing through a null pointer is a failure. -/
def Tensor.fill {R : Type} (t : Tensor) (h : Heap R) (v : R) : Option (Heap R) :=
  match t.dptr_ with
  | none => none
  | some p => some (fun q i => if q = p ∧ i < t.Size then v else h q i)

/-- The call `mshadow::Copy(dst, src)`: the shapes must agree; every element
`dst` covers receives the element of `src` at the same index. `hd` is the
address space of `dst`, `hs` that of `src`; the result is the new `hd`. -/
def Copy {R : Type} (hd hs : Heap R) (dst src : Tensor) : Option (Heap R) :=
  if dst.shape ≠ src.shape then none
  else
    match dst.dptr_, src.dptr_ with
    | some p, some s => some (fun q i => if q = p ∧ i < dst.Size then hs s i else hd q i)
    | _, _ => none

/-! ## SynchronizedMemory -/

/-- The `Device` enumeration of `SynchronizedMemory.h` (not among the
sources): the two enumerators the code uses. -/
inductive Device where
  | DEVICE_GPU
  | DEVICE_CPU
deriving DecidableEq, Repr

open Device

/-- Data members of `SynchronizedMemory<R>`, in the order of the constructor's
initialiser list. -/
structure SynchronizedMemory where
  gpu_fresh : Bool
  allocated_gpu : Bool
  gpu_ptr : Option Ptr
  clear_on_allocation : Bool
  cpu_fresh : Bool
  allocated_cpu : Bool
  cpu_ptr : Option Ptr
  total_memory : Nat
  inner_dimension : Nat
  preferred_device : Device
deriving DecidableEq, Repr

namespace SynchronizedMemory

variable {R : Type}

/-- Member function `SynchronizedMemory<R>::prefers_cpu`. -/
def prefers_cpu (m : SynchronizedMemory) : Bool :=
  m.preferred_device == DEVICE_CPU

/-- Member function `SynchronizedMemory<R>::prefers_gpu`. -/
def prefers_gpu (m : SynchronizedMemory) : Bool :=
  m.preferred_device == DEVICE_GPU

/-- The static member `SynchronizedMemory<R>::tie_breaker_device` as
initialised at line 91. -/
def tie_breaker_device_default : Device := DEVICE_GPU

/-- The constructor `SynchronizedMemory(int, int, Device, bool)`. The
`assert(total_memory % inner_dimension == 0)` divides by
`inner_dimension`: a zero divisor or a failed assertion gives `none`. -/
def construct (_total_memory _inner_dimension : Nat) (_preferred_device : Device)
    (_clear_on_allocation : Bool) : Option SynchronizedMemory :=
  if _inner_dimension = 0 then none
  else if _total_memory % _inner_dimension ≠ 0 then none
  else
    some
      { gpu_fresh := false
        allocated_gpu := false
        gpu_ptr := none
        clear_on_allocation := _clear_on_allocation
        cpu_fresh := false
        allocated_cpu := false
        cpu_ptr := none
        total_memory := _total_memory
        inner_dimension := _inner_dimension
        preferred_device := _preferred_device }

/-- Member function `SynchronizedMemory<R>::dummy_gpu`: `total_memory / inner_dimension`
divides by `inner_dimension`. -/
def dummy_gpu (m : SynchronizedMemory) : Option Tensor :=
  if m.inner_dimension = 0 then none
  else some { dptr_ := m.gpu_ptr, shape := (m.total_memory / m.inner_dimension, m.inner_dimension) }

/-- Member function `SynchronizedMemory<R>::dummy_cpu`. -/
def dummy_cpu (m : SynchronizedMemory) : Option Tensor :=
  if m.inner_dimension = 0 then none
  else some { dptr_ := m.cpu_ptr, shape := (m.total_memory / m.inner_dimension, m.inner_dimension) }

/-- Member function `SynchronizedMemory<R>::free_cpu`. The bank holds non-null addresses, so
an object flagged allocated whose pointer is null deposits nothing. -/
def free_cpu (m : SynchronizedMemory) (w : World R) : World R × SynchronizedMemory :=
  match m.allocated_cpu, m.cpu_ptr with
  | true, some p =>
    ({ w with bank := w.bank.deposit_cpu m.total_memory m.inner_dimension p },
     { m with cpu_ptr := none, allocated_cpu := false })
  | _, _ => (w, { m with allocated_cpu := false })

/-- Member function `SynchronizedMemory<R>::free_gpu`. -/
def free_gpu (m : SynchronizedMemory) (w : World R) : World R × SynchronizedMemory :=
  match m.allocated_gpu, m.gpu_ptr with
  | true, some p =>
    ({ w with bank := w.bank.deposit_gpu m.total_memory m.inner_dimension p },
     { m with gpu_ptr := none, allocated_gpu := false })
  | _, _ => (w, { m with allocated_gpu := false })

/-- Member function `SynchronizedMemory<R>::allocate_gpu`; the first component is the
returned flag (true when the buffer was allocated by this call). -/
def allocate_gpu (m : SynchronizedMemory) (w : World R) :
    Bool × World R × SynchronizedMemory :=
  if m.allocated_gpu then (false, w, m)
  else
    let r := w.bank.allocate_gpu w.runtime m.total_memory m.inner_dimension
    (true, { w with bank := r.2.1, runtime := r.2.2 },
     { m with gpu_ptr := some r.1, allocated_gpu := true })

/-- Member function `SynchronizedMemory<R>::allocate_cpu`. -/
def allocate_cpu (m : SynchronizedMemory) (w : World R) :
    Bool × World R × SynchronizedMemory :=
  if m.allocated_cpu then (false, w, m)
  else
    let r := w.bank.allocate_cpu w.runtime m.total_memory m.inner_dimension
    (true, { w with bank := r.2.1, runtime := r.2.2 },
     { m with cpu_ptr := some r.1, allocated_cpu := true })

variable [Zero R]

/-- Member function `SynchronizedMemory<R>::to_gpu`. -/
def to_gpu (m : SynchronizedMemory) (w : World R) : Option (World R × SynchronizedMemory) :=
  if !m.gpu_fresh then
    let a := m.allocate_gpu w
    let just_allocated_gpu := a.1
    let w1 := a.2.1
    let m1 := a.2.2
    if m1.cpu_fresh then
      match m1.dummy_gpu, m1.dummy_cpu with
      | some mem_gpu, some mem_cpu =>
        match Copy w1.gpu w1.cpu mem_gpu mem_cpu with
        | some g => some ({ w1 with gpu := g }, { m1 with gpu_fresh := true })
        | none => none
      | _, _ => none
    else if just_allocated_gpu && m1.clear_on_allocation then
      match m1.dummy_gpu with
      | some t =>
        match t.fill w1.gpu 0 with
        | some g => some ({ w1 with gpu := g }, { m1 with gpu_fresh := true })
        | none => none
      | none => none
    else some (w1, { m1 with gpu_fresh := true })
  else some (w, m)

/-- Member function `SynchronizedMemory<R>::to_cpu`. -/
def to_cpu (m : SynchronizedMemory) (w : World R) : Option (World R × SynchronizedMemory) :=
  if !m.cpu_fresh then
    let a := m.allocate_cpu w
    let just_allocated_cpu := a.1
    let w1 := a.2.1
    let m1 := a.2.2
    if m1.gpu_fresh then
      match m1.dummy_gpu, m1.dummy_cpu with
      | some mem_gpu, some mem_cpu =>
        match Copy w1.cpu w1.gpu mem_cpu mem_gpu with
        | some c => some ({ w1 with cpu := c }, { m1 with cpu_fresh := true })
        | none => none
      | _, _ => none
    else if just_allocated_cpu && m1.clear_on_allocation then
      match m1.dummy_cpu with
      | some t =>
        match t.fill w1.cpu 0 with
        | some c => some ({ w1 with cpu := c }, { m1 with cpu_fresh := true })
        | none => none
      | none => none
    else some (w1, { m1 with cpu_fresh := true })
  else some (w, m)

/-- Member function `SynchronizedMemory<R>::cpu_data`; the first component is the returned
pointer. -/
def cpu_data (m : SynchronizedMemory) (w : World R) :
    Option (Option Ptr × World R × SynchronizedMemory) :=
  match m.to_cpu w with
  | some (w1, m1) => some (m1.cpu_ptr, w1, m1)
  | none => none

/-- Member function `SynchronizedMemory<R>::mutable_cpu_data`. -/
def mutable_cpu_data (m : SynchronizedMemory) (w : World R) :
    Option (Option Ptr × World R × SynchronizedMemory) :=
  match m.to_cpu w with
  | some (w1, m1) => some (m1.cpu_ptr, w1, { m1 with gpu_fresh := false })
  | none => none

/-- Member function `SynchronizedMemory<R>::gpu_data`. -/
def gpu_data (m : SynchronizedMemory) (w : World R) :
    Option (Option Ptr × World R × SynchronizedMemory) :=
  match m.to_gpu w with
  | some (w1, m1) => some (m1.gpu_ptr, w1, m1)
  | none => none

/-- Member function `SynchronizedMemory<R>::mutable_gpu_data`. -/
def mutable_gpu_data (m : SynchronizedMemory) (w : World R) :
    Option (Option Ptr × World R × SynchronizedMemory) :=
  match m.to_gpu w with
  | some (w1, m1) => some (m1.gpu_ptr, w1, { m1 with cpu_fresh := false })
  | none => none

/-- Member function `SynchronizedMemory<R>::clear`. -/
def clear (m : SynchronizedMemory) (w : World R) : Option (World R × SynchronizedMemory) :=
  let m0 := { m with clear_on_allocation := true }
  if m0.preferred_device = DEVICE_GPU then
    let a := m0.allocate_gpu w
    match a.2.2.dummy_gpu with
    | some t =>
      match t.fill a.2.1.gpu 0 with
      | some g =>
        some ({ a.2.1 with gpu := g }, { a.2.2 with cpu_fresh := false, gpu_fresh := true })
      | none => none
    | none => none
  else if m0.preferred_device = DEVICE_CPU then
    let a := m0.allocate_cpu w
    match a.2.2.dummy_cpu with
    | some t =>
      match t.fill a.2.1.cpu 0 with
      | some c =>
        some ({ a.2.1 with cpu := c }, { a.2.2 with cpu_fresh := true, gpu_fresh := false })
      | none => none
    | none => none
  else some (w, m0)

/-- Member function `SynchronizedMemory<R>::lazy_clear`; the test at line 206 reads
`!allocated_cpu && !allocated_cpu`. -/
def lazy_clear (m : SynchronizedMemory) (w : World R) :
    Option (World R × SynchronizedMemory) :=
  let m0 := { m with clear_on_allocation := true }
  if !m0.allocated_cpu && !m0.allocated_cpu then some (w, m0)
  else m0.clear w

/-- Member function `SynchronizedMemory<R>::copy_data_from`; `src_on_gpu` tells in which
address space the source tensor lives (the template parameter
`SourceType`). -/
def copy_data_from (m : SynchronizedMemory) (w : World R) (data_source : Tensor)
    (src_on_gpu : Bool) : Option (World R × SynchronizedMemory) :=
  if m.prefers_cpu then
    let a := m.allocate_cpu w
    let hs := if src_on_gpu then a.2.1.gpu else a.2.1.cpu
    match a.2.2.dummy_cpu with
    | some t =>
      match Copy a.2.1.cpu hs t data_source with
      | some c => some ({ a.2.1 with cpu := c }, { a.2.2 with cpu_fresh := true })
      | none => none
    | none => none
  else
    let a := m.allocate_gpu w
    let hs := if src_on_gpu then a.2.1.gpu else a.2.1.cpu
    match a.2.2.dummy_gpu with
    | some t =>
      match Copy a.2.1.gpu hs t data_source with
      | some g => some ({ a.2.1 with gpu := g }, { a.2.2 with gpu_fresh := true })
      | none => none
    | none => none

/-- The copy constructor `SynchronizedMemory(const SynchronizedMemory&)`. -/
def copy_construct (other : SynchronizedMemory) (w : World R) :
    Option (World R × SynchronizedMemory) :=
  match construct other.total_memory other.inner_dimension other.preferred_device
      other.clear_on_allocation with
  | none => none
  | some m =>
    if other.cpu_fresh then
      match other.dummy_cpu with
      | some data_source => m.copy_data_from w data_source false
      | none => none
    else if other.gpu_fresh then
      match other.dummy_gpu with
      | some data_source => m.copy_data_from w data_source true
      | none => none
    else some (w, m)

end SynchronizedMemory

/-- Function `should_compute_on_gpu`, with the static `tie_breaker_device` passed in. -/
def should_compute_on_gpu (tie_breaker_device : Device) (sts : List SynchronizedMemory) : Bool :=
  match sts with
  | [mover] =>
    mover.prefers_gpu && (mover.gpu_fresh || (!mover.cpu_fresh && !mover.gpu_fresh))
  | _ =>
    let everybody_gpu := sts.foldl (fun acc st => acc && st.prefers_gpu) true
    let everybody_cpu := sts.foldl (fun acc st => acc && st.prefers_cpu) true
    if everybody_cpu then false
    else if everybody_gpu then true
    else tie_breaker_device == DEVICE_GPU


/-! ## Writes by the caller, the class invariant and the reachable states -/

namespace World

variable {R : Type}

/-- Writes through the pointer a `mutable_cpu_data()` call returned: each of
the first `n` elements of the host buffer at `p` takes the value `f i`
(`f` is arbitrary, so any subset of the elements may change). A null pointer
admits no write. -/
def write_cpu (w : World R) (p : Option Ptr) (n : Nat) (f : Nat → R) : World R :=
  match p with
  | none => w
  | some a => { w with cpu := fun q i => if q = a ∧ i < n then f i else w.cpu q i }

/-- Writes through the pointer a `mutable_gpu_data()` call returned. -/
def write_gpu (w : World R) (p : Option Ptr) (n : Nat) (f : Nat → R) : World R :=
  match p with
  | none => w
  | some a => { w with gpu := fun q i => if q = a ∧ i < n then f i else w.gpu q i }

/-- The host buffer at `c` is held by some object: the runtime has handed
it out and the bank does not hold it. -/
def cpu_in_use (w : World R) (c : Ptr) : Prop :=
  c < w.runtime.cpu_next ∧ ∀ k box, w.bank.cpu_memory_bank k = some box → c ∉ box

/-- The device buffer at `g` is held by some object. -/
def gpu_in_use (w : World R) (g : Ptr) : Prop :=
  g < w.runtime.gpu_next ∧ ∀ k box, w.bank.gpu_memory_bank k = some box → g ∉ box

end World

namespace SynchronizedMemory

variable {R : Type} [Zero R]

/-- The class invariant of `SynchronizedMemory`: the divisibility the
constructor asserts, a non-null pointer on every side flagged allocated, and
no side fresh without being allocated. -/
def Consistent (m : SynchronizedMemory) : Prop :=
  m.inner_dimension ≠ 0 ∧ m.total_memory % m.inner_dimension = 0 ∧
  (m.allocated_cpu = true → m.cpu_ptr.isSome = true) ∧
  (m.cpu_fresh = true → m.allocated_cpu = true) ∧
  (m.allocated_gpu = true → m.gpu_ptr.isSome = true) ∧
  (m.gpu_fresh = true → m.allocated_gpu = true)

instance : DecidablePred Consistent := fun m => by
  unfold Consistent; infer_instance

/-- The two sides agree: when both are fresh, the host buffer and the device
buffer exist and hold equal elements at every index below `total_memory`. -/
def Synced (w : World R) (m : SynchronizedMemory) : Prop :=
  m.cpu_fresh = true → m.gpu_fresh = true →
    ∃ c g, m.cpu_ptr = some c ∧ m.gpu_ptr = some g ∧
      ∀ i, i < m.total_memory → w.cpu c i = w.gpu g i

/-- States of one memory object and its world reachable from construction
(plain or by copy) through the public member functions; a mutable access is
followed by arbitrary writes to the buffer whose pointer it returned. -/
inductive Reachable : World R → SynchronizedMemory → Prop
  | construct (w : World R) (total inner : Nat) (dev : Device) (clr : Bool)
      (m : SynchronizedMemory) :
      construct total inner dev clr = some m → Reachable w m
  | copy {w w' : World R} {other m : SynchronizedMemory} :
      Reachable w other → other.copy_construct w = some (w', m) → Reachable w' m
  | cpu_data {w w' : World R} {m m' : SynchronizedMemory} {p : Option Ptr} :
      Reachable w m → m.cpu_data w = some (p, w', m') → Reachable w' m'
  | gpu_data {w w' : World R} {m m' : SynchronizedMemory} {p : Option Ptr} :
      Reachable w m → m.gpu_data w = some (p, w', m') → Reachable w' m'
  | mutable_cpu_data {w w' : World R} {m m' : SynchronizedMemory} {p : Option Ptr}
      (f : Nat → R) :
      Reachable w m → m.mutable_cpu_data w = some (p, w', m') →
      Reachable (w'.write_cpu p m'.total_memory f) m'
  | mutable_gpu_data {w w' : World R} {m m' : SynchronizedMemory} {p : Option Ptr}
      (f : Nat → R) :
      Reachable w m → m.mutable_gpu_data w = some (p, w', m') →
      Reachable (w'.write_gpu p m'.total_memory f) m'
  | clear {w w' : World R} {m m' : SynchronizedMemory} :
      Reachable w m → m.clear w = some (w', m') → Reachable w' m'
  | lazy_clear {w w' : World R} {m m' : SynchronizedMemory} :
      Reachable w m → m.lazy_clear w = some (w', m') → Reachable w' m'

end SynchronizedMemory

/-! ## Concrete states used to exercise the theorems -/

/-- A host-preferring memory whose device side alone is fresh, the input on
which the single-input selection departs from "the side that is fresh". -/
def host_preferring_device_fresh : SynchronizedMemory :=
  { gpu_fresh := true
    allocated_gpu := true
    gpu_ptr := some 0
    clear_on_allocation := false
    cpu_fresh := false
    allocated_cpu := false
    cpu_ptr := none
    total_memory := 4
    inner_dimension := 2
    preferred_device := DEVICE_CPU }

/-- A bank holding one recycled host buffer (address 5) and one recycled
device buffer (address 6) in the buckets for 4 elements. -/
def bank0 : memory_bank :=
  { cpu_memory_bank := fun k => if k = 4 then some [5] else none
    num_cpu_allocations := 1
    total_cpu_memory := 4
    gpu_memory_bank := fun k => if k = 4 then some [6] else none
    num_gpu_allocations := 1
    total_gpu_memory := 4 }

/-- A world over `Int` elements in which every buffer holds old, non-zero
data: element `i` of the host buffer at `p` is `p + i + 1`, element `i` of
the device buffer at `p` is `-(p + i + 1)`. -/
def world0 : World Int :=
  { bank := bank0
    runtime := { cpu_next := 10, gpu_next := 10 }
    cpu := fun p i => (p : Int) + i + 1
    gpu := fun p i => -((p : Int) + i + 1) }

/-- The memory `SynchronizedMemory(4, 2, DEVICE_GPU, false)`. -/
def mem_gpu0 : SynchronizedMemory :=
  { gpu_fresh := false, allocated_gpu := false, gpu_ptr := none,
    clear_on_allocation := false, cpu_fresh := false, allocated_cpu := false,
    cpu_ptr := none, total_memory := 4, inner_dimension := 2,
    preferred_device := DEVICE_GPU }

/-- The memory `SynchronizedMemory(4, 2, DEVICE_CPU, true)`. -/
def mem_cpu0 : SynchronizedMemory :=
  { gpu_fresh := false, allocated_gpu := false, gpu_ptr := none,
    clear_on_allocation := true, cpu_fresh := false, allocated_cpu := false,
    cpu_ptr := none, total_memory := 4, inner_dimension := 2,
    preferred_device := DEVICE_CPU }

/-- The state after `mem_gpu0.gpu_data()` in `world0`: only the device side
is allocated (at address 6) and fresh. -/
def device_only : World Int × SynchronizedMemory :=
  match mem_gpu0.gpu_data world0 with
  | some (_, w, m) => (w, m)
  | none => (world0, mem_gpu0)

/-- The result of `mem_cpu0.mutable_cpu_data()` in `world0`. -/
def host_mutable : Option Ptr × World Int × SynchronizedMemory :=
  (mem_cpu0.mutable_cpu_data world0).getD (none, world0, mem_cpu0)

/-- The state after `mem_cpu0.mutable_cpu_data()` in `world0` followed by
writing `10, 11, 12, 13` to the returned buffer. -/
def host_written : World Int × SynchronizedMemory :=
  (host_mutable.2.1.write_cpu host_mutable.1 host_mutable.2.2.total_memory
     (fun i => (i : Int) + 10),
   host_mutable.2.2)

/-- The result of a further `gpu_data()`: both sides fresh. -/
def both_fresh : Option Ptr × World Int × SynchronizedMemory :=
  (host_written.2.gpu_data host_written.1).getD (none, host_written)

/-- A memory whose host side alone is fresh, at address 3 (held by the
memory, not by the bank). -/
def host_fresh : SynchronizedMemory :=
  { gpu_fresh := false, allocated_gpu := false, gpu_ptr := none,
    clear_on_allocation := false, cpu_fresh := true, allocated_cpu := true,
    cpu_ptr := some 3, total_memory := 4, inner_dimension := 2,
    preferred_device := DEVICE_GPU }

/-! ## Allocate/deposit cycles -/

/-- One allocate/deposit cycle on the bank: `allocate_cpu(amount, d)` followed
by `deposit_cpu(amount, d, p)` of the pointer `p` just returned. The result
is that pointer, the bank and the runtime after the cycle. -/
def memory_bank.cycle (b : memory_bank) (rt : memory_operations) (amount d : Int) :
    Ptr × memory_bank × memory_operations :=
  let r := b.allocate_cpu rt amount d
  (r.1, r.2.1.deposit_cpu amount d r.1, r.2.2)

/-- Sequential cycles of the same amount, `n` of them: the pointers the
successive `allocate_cpu` calls returned, in order, and the final bank and
runtime. -/
def memory_bank.cycles (b : memory_bank) (rt : memory_operations) (amount d : Int) :
    Nat → List Ptr × memory_bank × memory_operations
  | 0 => ([], b, rt)
  | n + 1 =>
    let c := b.cycle rt amount d
    let r := memory_bank.cycles c.2.1 c.2.2 amount d n
    (c.1 :: r.1, r.2)

/-- The destructor `~SynchronizedMemory()`: `free_cpu()` then `free_gpu()`. -/
def SynchronizedMemory.destroy {R : Type} (m : SynchronizedMemory) (w : World R) :
    World R × SynchronizedMemory :=
  let a := m.free_cpu w
  a.2.free_gpu a.1

/-! ## The strided evaluation plan (`mshadow_wrapper.h`) -/

/-- Conversion of an `int` to mshadow's `index_t` (`typedef unsigned index_t`,
32 bits): the residue modulo `2^32`. -/
def to_index_t (x : Int) : Nat := (x % (2 ^ 32 : Int)).toNat

/-- Data members of `Plan<DaliWrapperExp<Device, srcdim, DType>, DType>`:
`ndim`, the `int` arrays `shape` and `strides`, `has_strides`, and of the
wrapped tensor plan `src_` its row stride `stride_`. -/
structure Plan where
  ndim : Nat
  shape : List Int
  strides : List Int
  has_strides : Bool
  stride_ : Nat
deriving DecidableEq, Repr

namespace Plan

/-- The `for` loop of `map_indices_using_stride` (lines 102-105), entered
with `dim_idx = k - 1`; the state is `(i_derived_offset, i)`. All arithmetic
is in `index_t`: the `int` operands are converted, sums and products wrap
modulo `2^32`, and a zero divisor is a failure. -/
def stride_loop (p : Plan) : Nat → Nat × Nat → Option (Nat × Nat)
  | 0, s => some s
  | k + 1, s =>
    if to_index_t (p.shape.getD k 0) = 0 then none
    else
      p.stride_loop k
        ((s.1 + (s.2 % to_index_t (p.shape.getD k 0)) * to_index_t (p.strides.getD k 0))
            % 2 ^ 32,
         s.2 / to_index_t (p.shape.getD k 0))

/-- Member function `map_indices_using_stride`; the result is
`(new_i, new_j)`. -/
def map_indices_using_stride (p : Plan) (i j : Nat) : Option (Nat × Nat) :=
  if p.ndim = 0 then none
  else
    match p.stride_loop (p.ndim - 1) (0, i) with
    | none => none
    | some s =>
      let i_derived_offset := s.1
      let last := to_index_t (p.shape.getD (p.ndim - 1) 0)
      if last = 0 then none
      else
        some (i_derived_offset / last,
          (i_derived_offset % last + j * to_index_t (p.strides.getD (p.ndim - 1) 0)) % 2 ^ 32)

/-- Member functions `Eval` and `REval`: the index, within the wrapped tensor,
of the element they return a reference to; the wrapped plan's `Eval(y, x)` is
mshadow's `dptr_[y * stride_ + x]`, in `index_t` arithmetic. -/
def Eval (p : Plan) (i j : Nat) : Option Nat :=
  if !p.has_strides then some ((i * p.stride_ + j) % 2 ^ 32)
  else
    match p.map_indices_using_stride i j with
    | none => none
    | some r => some ((r.1 * p.stride_ + r.2) % 2 ^ 32)

end Plan

/-- The row-major decomposition of a position `i` over the sizes `shape`: the
index on axis `k` is `(i / (product of the sizes after k)) % shape[k]`. -/
def unravel : List Nat → Nat → List Nat
  | [], _ => []
  | s :: ss, i => (i / ss.prod) % s :: unravel ss i

/-- The row-major position of an index tuple: `Σ idx_k · (product of the
sizes after k)`. -/
def ravel : List Nat → List Nat → Nat
  | _ :: ss, x :: xs => x * ss.prod + ravel ss xs
  | _, _ => 0

/-- The sum `Σ idx_k · st_k` of indices times strides. -/
def dot (idx : List Nat) (strides : List Int) : Int :=
  (List.zipWith (fun (x : Nat) (st : Int) => (x : Int) * st) idx strides).sum

/-- The plan built for an `Array` of shape `shape` with recorded strides
`strides` (constructor of `Plan`, lines 88-97), over a wrapped tensor whose
row stride is the last size. -/
def strided_plan (shape : List Nat) (strides : List Int) : Plan :=
  { ndim := shape.length
    shape := List.map (fun (s : Nat) => (s : Int)) shape
    strides := strides
    has_strides := true
    stride_ := shape.getLastD 0 }

/-! ## Row plucking on host tensors (`TensorAccessor.h`) -/

/-- An `mshadow::Tensor<cpu, 2, R>` as `TensorInternal::cpu_data()` builds it:
the buffer it points into, the element position of `dptr_` within that buffer
(the `offset` of the `TensorInternal`), `shape_` and `stride_`. -/
structure Tensor2 where
  buf : Ptr
  dptr_ : Nat
  shape_ : Nat × Nat
  stride_ : Nat
deriving DecidableEq, Repr

/-- Position within the buffer of the element `t[y][x]`, that is
`dptr_[y * stride_ + x]`. -/
def Tensor2.addr (t : Tensor2) (y x : Nat) : Nat := t.dptr_ + y * t.stride_ + x

/-- The store `*(buffer p + n) = v`. -/
def heap_write {R : Type} (h : Heap R) (p : Ptr) (n : Nat) (v : R) : Heap R :=
  fun q m => if q = p ∧ m = n then v else h q m

/-- The inner loop of the host `rows_pluck` (lines 101-103) for one `idx`,
`row` being `indices(idx)`, run for `col_idx = 0 .. cols - 1`. -/
def rows_pluck_inner {R : Type} (dest source : Tensor2) (row idx : Nat) (h : Heap R)
    (cols : Nat) : Heap R :=
  (List.range cols).foldl
    (fun h col_idx =>
      heap_write h dest.buf (dest.addr col_idx idx) (h source.buf (source.addr row col_idx)))
    h

/-- The outer loop of the host `rows_pluck` (lines 100-104), run for
`idx = 0 .. n - 1`. -/
def rows_pluck_outer {R : Type} (dest source : Tensor2) (indices : List Int) (h : Heap R)
    (n : Nat) : Heap R :=
  (List.range n).foldl
    (fun h idx => rows_pluck_inner dest source (indices.getD idx 0).toNat idx h dest.shape_.1)
    h

/-- The host overload of `TensorOps::rows_pluck` (lines 96-105). `indices`
holds the elements of the `TensorInternal<int,1>`. A row index outside
`[0, source.shape_[0])` makes `source[indices(idx)]` leave the tensor: that
is a failure. -/
def rows_pluck {R : Type} (h : Heap R) (dest source : Tensor2) (indices : List Int) :
    Option (Heap R) :=
  if indices.all fun r => decide (0 ≤ r) && decide (r < (source.shape_.1 : Int)) then
    some (rows_pluck_outer dest source indices h indices.length)
  else none

/-- The inner loop of the host `rows_pluck_backprop` (lines 156-158) for one
`idx`, `row` being `indices(idx)`, run for `col_idx = 0 .. cols - 1`. -/
def rows_pluck_backprop_inner {R : Type} [Add R] (dest source : Tensor2) (row idx : Nat)
    (h : Heap R) (cols : Nat) : Heap R :=
  (List.range cols).foldl
    (fun h col_idx =>
      heap_write h dest.buf (dest.addr row col_idx)
        (h dest.buf (dest.addr row col_idx) + h source.buf (source.addr col_idx idx)))
    h

/-- The outer loop of the host `rows_pluck_backprop` (lines 155-159), run for
`idx = 0 .. n - 1`. -/
def rows_pluck_backprop_outer {R : Type} [Add R] (dest source : Tensor2)
    (indices : List Int) (h : Heap R) (n : Nat) : Heap R :=
  (List.range n).foldl
    (fun h idx =>
      rows_pluck_backprop_inner dest source (indices.getD idx 0).toNat idx h dest.shape_.2)
    h

/-- The host overload of `TensorOps::rows_pluck_backprop` (lines 151-160). A
row index outside `[0, dest.shape_[0])` makes `dest[indices(idx)]` leave the
tensor: that is a failure. -/
def rows_pluck_backprop {R : Type} [Add R] (h : Heap R) (dest source : Tensor2)
    (indices : List Int) : Option (Heap R) :=
  if indices.all fun r => decide (0 ≤ r) && decide (r < (dest.shape_.1 : Int)) then
    some (rows_pluck_backprop_outer dest source indices h indices.length)
  else none

/-- A `[3, 2]` host tensor over buffer 3 and a `[2, 3]` host tensor over
buffer 5, both contiguous, with the index vector `2, 0, 2` (index 2 repeats,
index 1 does not occur). -/
def tensor_3x2_buf3 : Tensor2 := { buf := 3, dptr_ := 0, shape_ := (3, 2), stride_ := 2 }

/-- See `tensor_3x2_buf3`. -/
def tensor_2x3_buf5 : Tensor2 := { buf := 5, dptr_ := 0, shape_ := (2, 3), stride_ := 3 }

/-- A `[3, 2]` host tensor over buffer 5 (a gradient `dE`). -/
def tensor_3x2_buf5 : Tensor2 := { buf := 5, dptr_ := 0, shape_ := (3, 2), stride_ := 2 }

/-- A `[2, 3]` host tensor over buffer 3 (an upstream gradient `G`). -/
def tensor_2x3_buf3 : Tensor2 := { buf := 3, dptr_ := 0, shape_ := (2, 3), stride_ := 3 }

/-! ## Slice and the strided Array view

The sources of `Slice` and `Array` are not among the files; only their tests
(`dali/array/tests.cpp`) and callers are. Both are modelled from the
specification (sections 3 and 4.2) and from what the tests pin down. -/

/-- Error kinds of section 7 of the specification; each is raised as a
`std::runtime_error`. -/
inductive Error where
  | ShapeMismatch
  | OutOfRange
  | InvalidBroadcast
  | InvalidSlice
deriving DecidableEq, Repr

deriving instance DecidableEq for Except

/-- Modelled from the spec: the class `Slice(begin, end, step)`, whose source
is missing. -/
structure Slice where
  start : Int
  end_ : Int
  step : Int
deriving DecidableEq, Repr

namespace Slice

/-- Modelled from the spec: the constructor of `Slice`, whose source is
missing; "Step 0 is an error". -/
def make (start end_ step : Int) : Except Error Slice :=
  if step = 0 then .error .InvalidSlice
  else .ok { start := start, end_ := end_, step := step }

/-- Modelled from the spec: the member `Slice::size`, whose source is missing;
`size = ceil((end-begin)/|step|)`, computed in integers. -/
def size (s : Slice) : Int :=
  (s.end_ - s.start + |s.step| - 1) / |s.step|

/-- Modelled from the spec: the member `Slice::contains`, whose source is
missing. A slice with positive step holds `begin, begin+step, ...` below
`end`; a slice with negative step holds `end-1, end-1-|step|, ...` down to
`begin` (test `slice_contains`: `Slice(0,12,-2)` holds 1 and not 0). -/
def contains (s : Slice) (i : Int) : Bool :=
  decide (s.start ≤ i) && decide (i < s.end_) &&
    (if 0 < s.step then (i - s.start) % s.step == 0
     else (s.end_ - 1 - i) % |s.step| == 0)

/-- Modelled from the spec: a negative bound of a slice counts from the end of
the axis it is applied to (scenario 3 of section 8 applies `Slice(0, -1)` to
an axis of size 2 and keeps index 0 only). -/
def normalize (s : Slice) (dim : Int) : Slice :=
  { start := if s.start < 0 then s.start + dim else s.start
    end_ := if s.end_ < 0 then s.end_ + dim else s.end_
    step := s.step }

/-- Modelled from the spec: the index of the axis at which the first element
of a sliced view sits, part of `slice`, whose source is missing: `begin` for a
positive step, `end - 1` for a negative one. -/
def first (s : Slice) : Int :=
  if 0 < s.step then s.start else s.end_ - 1

end Slice

/-- Modelled from the spec: the data members of `Array` (section 3), whose
source is missing: `shape`, `strides` (empty = contiguous), `offset`,
`broadcast_mask` and the shared handle of its memory. -/
structure Array where
  shape : List Nat
  strides : List Int
  offset : Int
  broadcast_mask : List Bool
  memory : Ptr
deriving DecidableEq, Repr

/-- Modelled from the spec: the row-major default strides of a shape ("with no
strides recorded, uses row-major defaults"): the stride of an axis is the
product of the sizes of the axes after it. -/
def row_major_strides : List Nat → List Int
  | [] => []
  | _ :: ns => ((ns.prod : Nat) : Int) :: row_major_strides ns

/-- All index tuples of a shape, in row-major order. -/
def all_indices : List Nat → List (List Nat)
  | [] => [[]]
  | n :: ns => (List.range n).flatMap fun i => (all_indices ns).map fun idx => i :: idx

namespace Array

/-- Modelled from the spec: the effective strides of an `Array`: the recorded
strides, or the row-major defaults when none are recorded, and 0 on an axis
marked in `broadcast_mask`. -/
def effective_strides (a : Array) : List Int :=
  let base := if a.strides = [] then row_major_strides a.shape else a.strides
  (List.range a.shape.length).map fun k =>
    if a.broadcast_mask.getD k false then 0 else base.getD k 0

/-- Modelled from the spec: element access `at(idx...)`, the position
`offset + Σ idx_i·stride_i` with the effective strides. -/
def «at» (a : Array) (idx : List Nat) : Int :=
  a.offset + (List.zipWith (fun (i : Nat) (st : Int) => (i : Int) * st) idx
    a.effective_strides).sum

/-- Modelled from the spec: `pluck_axis(axis, index)`, whose source is
missing. The view shares the memory and loses the axis; "if `axis==0` and the
array is contiguous, the result has empty strides and
`offset += product(shape[1:])·index`; otherwise it records the parent's
strides minus the plucked axis and adds `index·stride[axis]` to `offset`".
An axis or index out of range is an error. -/
def pluck_axis (a : Array) (axis : Nat) (index : Int) : Except Error Array :=
  if a.shape.length ≤ axis then .error .OutOfRange
  else if index < 0 ∨ (a.shape.getD axis 0 : Int) ≤ index then .error .OutOfRange
  else if axis = 0 ∧ a.strides = [] then
    .ok { shape := a.shape.drop 1
          strides := []
          offset := a.offset + ((a.shape.drop 1).prod : Nat) * index
          broadcast_mask := a.broadcast_mask.drop 1
          memory := a.memory }
  else
    .ok { shape := a.shape.eraseIdx axis
          strides := a.effective_strides.eraseIdx axis
          offset := a.offset + index * a.effective_strides.getD axis 0
          broadcast_mask := a.broadcast_mask.eraseIdx axis
          memory := a.memory }

/-- Modelled from the spec: `slice(axis, begin, end, step)`, whose source is
missing: "step may be negative; `size = ceil((end-begin)/|step|)`; step 0 is
an error; a negative step is recorded as a negative stride". The view starts
at `begin` for a positive step and at `end - 1` for a negative one (scenario
3 of section 8). The bounds must satisfy `0 <= begin < end <= dim` after
normalisation. -/
def slice (a : Array) (axis : Nat) (s : Slice) : Except Error Array :=
  if s.step = 0 then .error .InvalidSlice
  else if a.shape.length ≤ axis then .error .OutOfRange
  else
    let dim : Int := (a.shape.getD axis 0 : Nat)
    let n := s.normalize dim
    if n.start < 0 ∨ n.end_ ≤ n.start ∨ dim < n.end_ then .error .OutOfRange
    else
      let st := a.effective_strides.getD axis 0
      .ok { shape := a.shape.set axis n.size.toNat
            strides := a.effective_strides.set axis (st * n.step)
            offset := a.offset + n.first * st
            broadcast_mask := a.broadcast_mask
            memory := a.memory }

/-- Modelled from the spec: `reshape_broadcasted(new_shape)`, whose source is
missing: "for each axis, requires either (a) current size == new size, or (b)
current size == 1 AND that axis is broadcastable; errors otherwise". The
result keeps the effective strides (0 on the axes that were broadcast); an
axis stays marked broadcastable only while its size is 1. -/
def reshape_broadcasted (a : Array) (new_shape : List Nat) : Except Error Array :=
  if new_shape.length ≠ a.shape.length then .error .ShapeMismatch
  else if (List.range a.shape.length).all fun k =>
      a.shape.getD k 0 == new_shape.getD k 0 ||
        (a.shape.getD k 0 == 1 && a.broadcast_mask.getD k false) then
    .ok { shape := new_shape
          strides := a.effective_strides
          offset := a.offset
          broadcast_mask := (List.range a.shape.length).map fun k =>
            a.broadcast_mask.getD k false && new_shape.getD k 0 == 1
          memory := a.memory }
  else .error .InvalidBroadcast

/-- Modelled from the spec: `sum()` of a view over the contents `mem` of its
memory: the sum of the elements at `at(idx)` over all index tuples of the
shape. -/
def sum (a : Array) (mem : Nat → Int) : Int :=
  ((all_indices a.shape).map fun idx => mem (a.at idx).toNat).sum

end Array

/-- Function `build_234_arange` of `dali/array/tests.cpp`: a contiguous
`Array` of shape `{2,3,4}` at offset 0. -/
def build_234_arange : Array :=
  { shape := [2, 3, 4], strides := [], offset := 0,
    broadcast_mask := [false, false, false], memory := 0 }

/-- The contents `initializer::arange()` gives the memory of
`build_234_arange`: element `i` is `i`. -/
def arange_mem : Nat → Int := fun i => i

/-- The array `B` of the tests `reshape_broadcasted` and
`reshape_broadcasted2`: `Array::ones({3})[Broadcast()][Slice(0,3)][Broadcast()]`,
of broadcast shape `[bcast, 3, bcast]`. -/
def broadcast_b : Array :=
  { shape := [1, 3, 1], strides := [], offset := 0,
    broadcast_mask := [true, false, true], memory := 0 }

/-- Modelled from the spec: `internal::canonical_reshape<K>`, whose source is
missing: "rank 1 flattens all dims; rank 2 splits as (product(shape[:-1]),
shape[-1]); rank 3 as (shape[0], product(shape[1:-1]), shape[-1]); rank 4
pads a leading 1". A shape without the dimensions a formula names, or with
more than 4 dimensions for rank 4, has no result. -/
def canonical_reshape (K : Nat) (shape : List Nat) : Option (List Nat) :=
  match K, shape with
  | 1, _ => some [shape.prod]
  | 2, s :: ss => some [(s :: ss).dropLast.prod, (s :: ss).getLast (List.cons_ne_nil s ss)]
  | 3, s :: ss =>
    some [s, ((s :: ss).drop 1).dropLast.prod, (s :: ss).getLast (List.cons_ne_nil s ss)]
  | 4, _ => if shape.length ≤ 4 then some (List.replicate (4 - shape.length) 1 ++ shape) else none
  | _, _ => none

/-- Data members of `TensorInternal<R, dimension>`: `shape`, the shared
`memory_` and `offset`. -/
structure TensorInternal where
  shape : List Nat
  memory_ : Ptr
  offset : Int
deriving DecidableEq, Repr

/-- Conversion of an integer to `int` (signed, 32 bits, two's complement). -/
def to_int (x : Int) : Int := (x + 2 ^ 31) % 2 ^ 32 - 2 ^ 31

/-- Member function `TensorInternal<R,dimension>::operator[]` (lines 297-303):
the sub-tensor `idx` of the leading axis; `shape.SubShape()` drops the first
size. `offset + subshape.Size() * idx` is computed in `index_t` (unsigned, 32
bits) and stored in the `int` member `offset`. -/
def TensorInternal.subscript (t : TensorInternal) (idx : Nat) : TensorInternal :=
  { shape := t.shape.drop 1
    memory_ := t.memory_
    offset := to_int (to_index_t (t.offset + ((t.shape.drop 1).prod : Nat) * (idx : Int))) }

/-- Functions of `dali/array/tests.cpp` (`double_striding`): the expected sum
over the positions `(i, j, k)` of a `{2,3,4}` array selected by three
predicates, reading element `i*12 + j*4 + k`. -/
def expected_sum (mem : Nat → Int) (c0 c1 c2 : Nat → Bool) : Int :=
  ((List.range 2).map fun i =>
    ((List.range 3).map fun j =>
      ((List.range 4).map fun k =>
        if c0 i && c1 j && c2 k then mem (i * 12 + j * 4 + k) else 0).sum).sum).sum

namespace Array

/-- Modelled from the spec: `x[s0][s1][s2]` for three slices, whose source
(`Array::operator[]` and the slicing it starts) is missing: the slices apply
to the axes 0, 1 and 2 in turn. -/
def slice3 (x : Array) (s0 s1 s2 : Slice) : Except Error Array :=
  (x.slice 0 s0).bind fun y => (y.slice 1 s1).bind fun z => z.slice 2 s2

end Array

/-- Modelled from the spec: the view `x[Slice(0,-1)][2][Slice(0,4,-2)]` of the
test `proper_slicing` on `build_234_arange` (scenario 3 of section 8): slice
of axis 0, index 2 on the next axis, slice of the last axis, which is axis 1
of the plucked view. -/
def proper_slicing_view : Except Error Array :=
  (build_234_arange.slice 0 { start := 0, end_ := -1, step := 1 }).bind fun y =>
    (y.pluck_axis 1 2).bind fun z => z.slice 1 { start := 0, end_ := 4, step := -2 }

/-- The element of a `{2,3,4}` array at the position `(i, j, k)`, read as the
test `double_striding` reads it: `x(i*12 + j*4 + k)`. -/
def element_234 (mem : Nat → Int) (i j k : Int) : Int :=
  mem (i * 12 + j * 4 + k).toNat

/-! ## The character-prediction driver (`character_prediction.cpp`) -/

/-- Conversion of the `int` that `file.get()` returns to `char`, which is
signed and 8 bits wide on the reference platform: the bytes `0x80..0xFF` become
`-128..-1`. -/
def to_char (x : Int) : Int := (x + 128) % 256 - 128

/-- The value of the macro `EOF` of `<cstdio>`. -/
def EOF : Int := -1

/-- The local `char linebreak = '\n'` of `get_character_sequences`. -/
def linebreak : Int := 10

/-- The `while(file)` loop of `get_character_sequences` (lines 39-53) over the
bytes that are still to be read. The state is the vector `lines` split at the
element `line` points to, which is always its last: `(lines without the last,
*line)`. `lines.emplace_back(2)` appends a `vector<int>` of size 2, that is
`{0, 0}`. At the end of the file `file.get()` returns `EOF`, which `ch`, being
a `char`, holds as `-1`, so that `ch == EOF` leaves the loop; a byte `0xFF`
does the same. -/
def get_character_sequences_loop (prepad postpad vocab_size : Int) :
    List Nat → List (List Int) × List Int → List (List Int) × List Int
  | [], s => s
  | b :: rest, s =>
    let ch := to_char b
    if ch = linebreak then
      get_character_sequences_loop prepad postpad vocab_size rest
        (s.1 ++ [s.2 ++ [postpad]], [0, 0, prepad])
    else if ch = EOF then s
    else
      get_character_sequences_loop prepad postpad vocab_size rest
        (s.1, s.2 ++ [min (vocab_size - 1) ch])

/-- Function `get_character_sequences` (lines 31-55) on a file given by its
bytes (`none`: the file could not be opened, and `while(file)` fails at
once). Before the loop `lines` holds one vector, `{0, 0}`, to which `prepad`
is pushed. -/
def get_character_sequences (file : Option (List Nat)) (prepad postpad vocab_size : Int) :
    List (List Int) :=
  let s :=
    match file with
    | none => ([], [0, 0, prepad])
    | some bytes =>
      get_character_sequences_loop prepad postpad vocab_size bytes ([], [0, 0, prepad])
  s.1 ++ [s.2]

/-- The bytes of a text file made of newline-terminated lines, each line given
by its bytes. -/
def text_file (lines : List (List Nat)) : List Nat :=
  lines.flatMap fun l => l ++ [10]

namespace SynchronizedMemory

/-- One call of a public member function on a memory object that exists:
`cpu_data`, `gpu_data`, `mutable_cpu_data`, `mutable_gpu_data` (each mutable
access followed by arbitrary writes to the buffer whose pointer it returned),
`clear` or `lazy_clear`; it takes the world and the object to the world and the
object after the call. -/
inductive Step {R : Type} [Zero R] :
    World R × SynchronizedMemory → World R × SynchronizedMemory → Prop
  | cpu_data {w w' : World R} {m m' : SynchronizedMemory} {p : Option Ptr} :
      m.cpu_data w = some (p, w', m') → Step (w, m) (w', m')
  | gpu_data {w w' : World R} {m m' : SynchronizedMemory} {p : Option Ptr} :
      m.gpu_data w = some (p, w', m') → Step (w, m) (w', m')
  | mutable_cpu_data {w w' : World R} {m m' : SynchronizedMemory} {p : Option Ptr}
      (f : Nat → R) :
      m.mutable_cpu_data w = some (p, w', m') →
      Step (w, m) (w'.write_cpu p m'.total_memory f, m')
  | mutable_gpu_data {w w' : World R} {m m' : SynchronizedMemory} {p : Option Ptr}
      (f : Nat → R) :
      m.mutable_gpu_data w = some (p, w', m') →
      Step (w, m) (w'.write_gpu p m'.total_memory f, m')
  | clear {w w' : World R} {m m' : SynchronizedMemory} :
      m.clear w = some (w', m') → Step (w, m) (w', m')
  | lazy_clear {w w' : World R} {m m' : SynchronizedMemory} :
      m.lazy_clear w = some (w', m') → Step (w, m) (w', m')

end SynchronizedMemory

/-! ## TensorInternal: views and element access (`TensorInternal.cu.cpp`) -/

/-- The element an accessor of `TensorInternal` returns (a reference to): the
`SynchronizedMemory` behind `memory_` and the index within its host buffer.
`cpu_data()` builds its tensor at `memory_->cpu_data() + offset`. -/
structure ElementRef where
  memory_ : Ptr
  index : Int
deriving DecidableEq, Repr

namespace TensorInternal

/-- Member function `TensorInternal<R,dimension>::ravel` (lines 305-309);
`number_of_elements()` is `shape.Size()`, a product in `index_t`. -/
def ravel (t : TensorInternal) : TensorInternal :=
  { shape := [t.shape.prod % 2 ^ 32], memory_ := t.memory_, offset := t.offset }

/-- Member function `TensorInternal<R,dimension>::Slice` (lines 311-319);
`end - begin` and `offset + shape.SubShape().Size() * begin` are computed in
`index_t`. -/
def Slice (t : TensorInternal) (begin_ end_ : Nat) : TensorInternal :=
  { shape := t.shape.set 0 (to_index_t ((end_ : Int) - (begin_ : Int)))
    memory_ := t.memory_
    offset := to_int (to_index_t (t.offset + ((t.shape.drop 1).prod : Nat) * (begin_ : Int))) }

/-- Member function `operator()(int i, int j)` (lines 188-199):
`int offset = cpu_data().stride_ * i + j`, computed in `index_t`, added to
`cpu_data().dptr_`; the row stride of the tensor `cpu_data()` builds from the
shape is the last size. -/
def call2 (t : TensorInternal) (i j : Int) : ElementRef :=
  { memory_ := t.memory_
    index := t.offset + to_int (to_index_t (((t.shape.getLastD 0 : Nat) : Int) * i + j)) }

/-- Member function `operator()(int i)` (lines 201-209): the element at
`cpu_data().dptr_ + i`. -/
def call1 (t : TensorInternal) (i : Int) : ElementRef :=
  { memory_ := t.memory_, index := t.offset + i }

end TensorInternal

/-- Reading the element a const accessor returns, `m` being the memory behind
`memory_`: `memory_->cpu_data()` brings the host side up to date and the
element at `index` of the host buffer is read. An index outside the buffer
is a failure. -/
def ElementRef.read {R : Type} [Zero R] (e : ElementRef) (m : SynchronizedMemory)
    (w : World R) : Option (R × World R × SynchronizedMemory) :=
  match m.cpu_data w with
  | some (some p, w1, m1) =>
    if 0 ≤ e.index ∧ e.index < (m1.total_memory : Int) then
      some (w1.cpu p e.index.toNat, w1, m1)
    else none
  | _ => none

/-- A `3 x 4` tensor at offset 5 of the memory with handle 0. -/
def tensor_3x4_at5 : TensorInternal := { shape := [3, 4], memory_ := 0, offset := 5 }

namespace TensorInternal

/-- The constructor `TensorInternal(mshadow::Shape<dimension>)` (lines 9-16):
`memory_` becomes a new `SynchronizedMemory(shape.Size(), shape[dimension - 1])`
under the handle `handle`. The last two arguments of that constructor take
their defaults, which `SynchronizedMemory.h` (not among the sources) declares:
they are parameters here. A shape is taken to have a size within `int`. -/
def construct (shape : List Nat) (handle : Ptr) (preferred_device : Device)
    (clear_on_allocation : Bool) : Option (TensorInternal × SynchronizedMemory) :=
  match SynchronizedMemory.construct shape.prod (shape.getLastD 0) preferred_device
      clear_on_allocation with
  | none => none
  | some m => some ({ shape := shape, memory_ := handle, offset := 0 }, m)

end TensorInternal

/-- The object the initialiser list of `SynchronizedMemory(0, 0, device, clear)`
builds, which a build without assertions (`NDEBUG`) leaves as the result of
the constructor. -/
def empty_matrix_memory (preferred_device : Device) (clear_on_allocation : Bool) :
    SynchronizedMemory :=
  { gpu_fresh := false
    allocated_gpu := false
    gpu_ptr := none
    clear_on_allocation := clear_on_allocation
    cpu_fresh := false
    allocated_cpu := false
    cpu_ptr := none
    total_memory := 0
    inner_dimension := 0
    preferred_device := preferred_device }

/-! ## Reductions of a rank-1 `int32` Array (`reducers.cu.cpp`) -/

namespace lazy

/-- Modelled from the spec: `lazy::sum(x)` and, for a rank-1 array,
`lazy::sum(x, 0)`, whose sources are missing: the sum of the elements, kept
in the element type `int32`. -/
def sum (x : List Int) : Int := to_int x.sum

/-- Modelled from the spec: the elementwise quotient `x / n` of an `int32`
array by an `int`, whose source is missing: the integer division of C++, which
truncates; a zero divisor is a failure. -/
def eltdiv (x : List Int) (n : Int) : Option (List Int) :=
  if n = 0 then none else some (x.map fun v => Int.tdiv v n)

end lazy

namespace op

/-- Function `op::mean(const Array&)` (lines 12-14) on a rank-1 `int32` array
given by its elements: `lazy::sum(x / x.number_of_elements())`. -/
def mean (x : List Int) : Option Int :=
  (lazy.eltdiv x (x.length : Int)).map lazy.sum

/-- Function `op::mean(const Array&, const int&)` (lines 44-47) on a rank-1
`int32` array: `lazy::sum(x, axis) / x.shape()[axis]`; an axis other than 0 is
out of range for rank 1. -/
def mean_axis (x : List Int) (axis : Int) : Option Int :=
  if axis ≠ 0 then none
  else
    let reduced := lazy.sum x
    if (x.length : Int) = 0 then none else some (Int.tdiv reduced (x.length : Int))

end op

/-! ## cached_allocator (`MemoryBank.cpp`) -/

namespace cached_allocator

/-- The value of `sizeof(float)`. -/
def sizeof_float : Nat := 4

/-- The amount `num_bytes * sizeof(R) / sizeof(float)` that
`cached_allocator<R>::allocate` and `deallocate` pass to the bank of `float`
buffers (lines 87-90, 96-99), computed in `size_t` (64 bits) and converted to
the `int` parameter of the bank. -/
def amount (sizeof_R num_bytes : Nat) : Int :=
  to_int (((num_bytes * sizeof_R) % 2 ^ 64 / sizeof_float : Nat) : Int)

/-- Member function `cached_allocator<R>::allocate` (lines 85-92): a device
buffer of `amount` floats from `memory_bank<float>`. -/
def allocate (sizeof_R : Nat) (b : memory_bank) (rt : memory_operations) (num_bytes : Nat) :
    Ptr × memory_bank × memory_operations :=
  b.allocate_gpu rt (amount sizeof_R num_bytes) (amount sizeof_R num_bytes)

/-- Member function `cached_allocator<R>::deallocate` (lines 94-101). -/
def deallocate (sizeof_R : Nat) (b : memory_bank) (ptr : Ptr) (n : Nat) : memory_bank :=
  b.deposit_gpu (amount sizeof_R n) (amount sizeof_R n) ptr

end cached_allocator

namespace World

/-- The bank holds every buffer at most once, and only buffers the runtime
has handed out: the state of affairs when only buffers in use are
deposited. -/
def bank_sound {R : Type} (w : World R) : Prop :=
  (∀ k box, w.bank.cpu_memory_bank k = some box →
    box.Nodup ∧ ∀ p ∈ box, p < w.runtime.cpu_next) ∧
  (∀ k k' box box', k ≠ k' → w.bank.cpu_memory_bank k = some box →
    w.bank.cpu_memory_bank k' = some box' → ∀ p ∈ box, p ∉ box') ∧
  (∀ k box, w.bank.gpu_memory_bank k = some box →
    box.Nodup ∧ ∀ p ∈ box, p < w.runtime.gpu_next) ∧
  (∀ k k' box box', k ≠ k' → w.bank.gpu_memory_bank k = some box →
    w.bank.gpu_memory_bank k' = some box' → ∀ p ∈ box, p ∉ box')

end World

namespace SynchronizedMemory

/-- Element `i` of the data a memory holds: the element of the buffer of a
fresh side (the host side when both are fresh); a memory without a fresh side
holds no data. -/
def elements {R : Type} (m : SynchronizedMemory) (w : World R) (i : Nat) : Option R :=
  if m.cpu_fresh then m.cpu_ptr.map fun c => w.cpu c i
  else if m.gpu_fresh then m.gpu_ptr.map fun g => w.gpu g i
  else none

end SynchronizedMemory

namespace TensorInternal

/-- The copy constructor `TensorInternal(const TensorInternal& other, bool
copy_memory)` (lines 18-24). `store` holds the `SynchronizedMemory` objects the
`shared_ptr` handles point to, handle `k` being element `k`; `make_shared`
appends the object the copy constructor of `SynchronizedMemory` builds from
`*other.memory_`. -/
def copy_construct {R : Type} (other : TensorInternal) (copy_memory : Bool)
    (store : List SynchronizedMemory) (w : World R) :
    Option (TensorInternal × List SynchronizedMemory × World R) :=
  let t : TensorInternal :=
    { shape := other.shape, memory_ := other.memory_, offset := other.offset }
  if copy_memory then
    match store[other.memory_]? with
    | none => none
    | some m =>
      match m.copy_construct w with
      | none => none
      | some r => some ({ t with memory_ := store.length }, store ++ [r.2], r.1)
  else some (t, store, w)

end TensorInternal

namespace World

/-- Every buffer in use in `w` is in use in `w'`. -/
def in_use_le {R : Type} (w w' : World R) : Prop :=
  (∀ c, w.cpu_in_use c → w'.cpu_in_use c) ∧ (∀ g, w.gpu_in_use g → w'.gpu_in_use g)

end World

namespace SynchronizedMemory

/-- The frame of a call that takes `(w, m)` to `(w', m')`: buffers in use stay
in use, a buffer in use that `m` does not hold is not held by `m'`, and the
contents of every buffer `m'` does not hold are as before. -/
def Framed {R : Type} (w : World R) (m : SynchronizedMemory) (w' : World R)
    (m' : SynchronizedMemory) : Prop :=
  w.in_use_le w' ∧
  (∀ c, w.cpu_in_use c → m.cpu_ptr ≠ some c → m'.cpu_ptr ≠ some c) ∧
  (∀ g, w.gpu_in_use g → m.gpu_ptr ≠ some g → m'.gpu_ptr ≠ some g) ∧
  (∀ q, m'.cpu_ptr ≠ some q → w'.cpu q = w.cpu q) ∧
  (∀ q, m'.gpu_ptr ≠ some q → w'.gpu q = w.gpu q)

end SynchronizedMemory

/-- A `2 x 2` tensor over the memory with handle 0. -/
def tensor_2x2 : TensorInternal := { shape := [2, 2], memory_ := 0, offset := 0 }

/-! ## Layers: the RNN cell and the stacked-input layer

`Layers.h` declares the classes; their member functions, `Mat`, the tape and
`StackedInputLayer` are not among the sources and are modelled from sections
4.4 to 4.6 of the specification, over a commutative ring (the reals, for
exact arithmetic) with `tanh` any function on it. -/

/-- Modelled from the spec: the value `w` or the gradient `dw` of a `Mat`,
whose source is missing: `n` rows, `d` columns and the elements. -/
structure Mat (R : Type) where
  n : Nat
  d : Nat
  w : Nat → Nat → R

namespace Mat

variable {R : Type} [CommRing R]

/-- Modelled from the spec: `dims()` of a `Mat`, whose source is missing. -/
def dims (a : Mat R) : Nat × Nat := (a.n, a.d)

/-- Modelled from the spec: a gradient `dw` on its first use, whose source is
missing: "the first contribution allocates and zero-initialises it". -/
def zeros (n d : Nat) : Mat R := { n := n, d := d, w := fun _ _ => 0 }

/-- Modelled from the spec: the update `dw += g` of a backward rule, whose
source is missing. -/
def accumulate (dw g : Mat R) : Mat R :=
  { n := dw.n, d := dw.d, w := fun i j => dw.w i j + g.w i j }

/-- Modelled from the spec: the matrix product `dot(A, B)`, whose source is
missing. -/
def dot (a b : Mat R) : Mat R :=
  { n := a.n, d := b.d
    w := fun i j => ((List.range a.d).map fun k => a.w i k * b.w k j).sum }

/-- Modelled from the spec: the transpose used by the backward rule of `dot`
(`dA += dC · Bᵀ`, `dB += Aᵀ · dC`), whose source is missing. -/
def transpose (a : Mat R) : Mat R := { n := a.d, d := a.n, w := fun i j => a.w j i }

/-- Modelled from the spec: `add(A, B)` for equal shapes, whose source is
missing. -/
def add (a b : Mat R) : Mat R := { n := a.n, d := a.d, w := fun i j => a.w i j + b.w i j }

/-- Modelled from the spec: `add(A, B)` with `B` of shape `[H,1]` broadcast
columnwise, whose source is missing. -/
def add_broadcast (a b : Mat R) : Mat R :=
  { n := a.n, d := a.d, w := fun i j => a.w i j + b.w i 0 }

/-- Modelled from the spec: `sum_cols(dC)`, the reduction that reverses the
broadcast of a bias, whose source is missing. -/
def sum_cols (dC : Mat R) : Mat R :=
  { n := dC.n, d := 1, w := fun i _ => ((List.range dC.d).map fun j => dC.w i j).sum }

/-- Modelled from the spec: the gradient that `backward()` leaves on `y` for
the loss `((y.tanh() - 1) ^ 2).sum()` after `grad()` has seeded it with 1,
the sources of these operations being missing. In reverse order: `sum`
broadcasts the upstream scalar, the power `^ 2` passes `2 · u · dv`, the
subtraction of a scalar passes its gradient on, and `tanh` multiplies by
`1 - tanh(y)²`; each gradient starts at zero. -/
def loss_gradient (tanh : R → R) (y : Mat R) : Mat R :=
  let t : Mat R := { n := y.n, d := y.d, w := fun i j => tanh (y.w i j) }
  let u : Mat R := { n := y.n, d := y.d, w := fun i j => t.w i j - 1 }
  let dv : Mat R := accumulate (zeros y.n y.d) { n := y.n, d := y.d, w := fun _ _ => 1 }
  let du : Mat R :=
    accumulate (zeros y.n y.d) { n := y.n, d := y.d, w := fun i j => 2 * u.w i j * dv.w i j }
  let dt : Mat R := accumulate (zeros y.n y.d) du
  accumulate (zeros y.n y.d)
    { n := y.n, d := y.d, w := fun i j => (1 - t.w i j ^ 2) * dt.w i j }

end Mat

/-- Data members of the class `RNN` of `Layers.h` (lines 31-56); a `Mat` is
taken by its value. -/
structure RNN (R : Type) where
  Wx : Mat R
  Wh : Mat R
  b : Mat R
  hidden_size : Nat
  input_size : Nat
  output_size : Nat

/-- Modelled from the spec: the data members of `StackedInputLayer`, whose
declaration is missing: "parameters `{W1..WK, b}`". -/
structure StackedInputLayer (R : Type) where
  matrices : List (Mat R)
  b : Mat R
  input_sizes : List Nat
  hidden_size : Nat

/-- Modelled from the spec: the gradients `backward()` leaves on the
parameters and the two inputs of an `RNN`. -/
structure RNNGradients (R : Type) where
  dWx : Mat R
  dWh : Mat R
  db : Mat R
  dX : Mat R
  dH : Mat R

/-- Modelled from the spec: the gradients `backward()` leaves on the
parameters and the inputs of a `StackedInputLayer`. -/
structure StackedGradients (R : Type) where
  dW : List (Mat R)
  db : Mat R
  dX : List (Mat R)

namespace RNN

variable {R : Type} [CommRing R]

/-- Modelled from the spec: the constructor `RNN(input, hidden)`, whose source
is missing: `Wx` of shape `[hidden, input]`, `Wh` of shape `[hidden, hidden]`
and the bias `b` of shape `[hidden, 1]` (the output size being the hidden
size), holding the given values. -/
def create (input_size hidden_size : Nat) (wx wh b : Nat → Nat → R) : RNN R :=
  { Wx := { n := hidden_size, d := input_size, w := wx }
    Wh := { n := hidden_size, d := hidden_size, w := wh }
    b := { n := hidden_size, d := 1, w := b }
    hidden_size := hidden_size
    input_size := input_size
    output_size := hidden_size }

/-- Modelled from the spec: `RNN::parameters()`, whose source is missing:
"parameters `{Wx, Wh, b}`". -/
def parameters (l : RNN R) : List (Mat R) := [l.Wx, l.Wh, l.b]

/-- Modelled from the spec: `RNN::activate(x, h)`, whose source is missing:
`y = Wx·x + Wh·h + b`, built from two products, their sum and the broadcast
addition of the bias; shapes that do not fit are an error. -/
def activate (l : RNN R) (x h : Mat R) : Option (Mat R) :=
  if l.Wx.d = x.n ∧ l.Wh.d = h.n ∧ x.d = h.d ∧ l.Wx.n = l.Wh.n ∧ l.b.n = l.Wx.n ∧ l.b.d = 1 then
    some (Mat.add_broadcast (Mat.add (Mat.dot l.Wx x) (Mat.dot l.Wh h)) l.b)
  else none

/-- Modelled from the spec: the backward pass through `activate`, in reverse
order of the forward operations, each rule adding into gradients that start at
zero: the broadcast addition (`dA += dC`, `dB += sum_cols(dC)`), the addition,
and the two products (`dA += dC · Bᵀ`, `dB += Aᵀ · dC`). -/
def backward (l : RNN R) (x h dY : Mat R) : RNNGradients R :=
  let ds := Mat.accumulate (Mat.zeros dY.n dY.d) dY
  let db := Mat.accumulate (Mat.zeros l.b.n l.b.d) (Mat.sum_cols dY)
  let dp1 := Mat.accumulate (Mat.zeros ds.n ds.d) ds
  let dp2 := Mat.accumulate (Mat.zeros ds.n ds.d) ds
  { dWh := Mat.accumulate (Mat.zeros l.Wh.n l.Wh.d) (Mat.dot dp2 h.transpose)
    dH := Mat.accumulate (Mat.zeros h.n h.d) (Mat.dot l.Wh.transpose dp2)
    dWx := Mat.accumulate (Mat.zeros l.Wx.n l.Wx.d) (Mat.dot dp1 x.transpose)
    dX := Mat.accumulate (Mat.zeros x.n x.d) (Mat.dot l.Wx.transpose dp1)
    db := db }

/-- Modelled from the spec: the gradients after
`((rnn.activate(X, H).tanh() - 1) ^ 2).sum()`, `grad()` and `backward()`. -/
def gradients (l : RNN R) (tanh : R → R) (x h : Mat R) : Option (RNNGradients R) :=
  (l.activate x h).map fun y => l.backward x h (Mat.loss_gradient tanh y)

end RNN

namespace StackedInputLayer

variable {R : Type} [CommRing R]

/-- Modelled from the spec: the constructor
`StackedInputLayer(input_sizes, hidden_size)`, whose source is missing: one
matrix of shape `[hidden, input_sizes[k]]` per input and the bias of shape
`[hidden, 1]`, holding the given values. -/
def create (input_sizes : List Nat) (hidden_size : Nat) (ws : List (Nat → Nat → R))
    (b : Nat → Nat → R) : StackedInputLayer R :=
  { matrices := List.zipWith (fun (sz : Nat) (w : Nat → Nat → R) =>
      ({ n := hidden_size, d := sz, w := w } : Mat R)) input_sizes ws
    b := { n := hidden_size, d := 1, w := b }
    input_sizes := input_sizes
    hidden_size := hidden_size }

/-- Modelled from the spec: `StackedInputLayer::parameters()`, whose source is
missing: "parameters `{W1..WK, b}`". -/
def parameters (l : StackedInputLayer R) : List (Mat R) := l.matrices ++ [l.b]

/-- Modelled from the spec: `mul_add_mul_with_bias([W1,x1,W2,x2,…], b)`, whose
source is missing: `Σ Wi·xi + b` as one fused operation. -/
def mul_add_mul_with_bias (ws xs : List (Mat R)) (b : Mat R) (cols : Nat) : Mat R :=
  { n := b.n, d := cols
    w := fun i j => (List.zipWith (fun W x => (Mat.dot W x).w i j) ws xs).sum + b.w i 0 }

/-- Modelled from the spec: `StackedInputLayer::activate(inputs)`, whose source
is missing: "concatenation-free fused `y = Σ Wk·xk + b`"; shapes that do not
fit are an error. -/
def activate (l : StackedInputLayer R) (inputs : List (Mat R)) : Option (Mat R) :=
  match inputs with
  | [] => none
  | x0 :: _ =>
    if l.matrices.length = inputs.length ∧
        (List.zipWith (fun (W x : Mat R) => decide (W.d = x.n ∧ W.n = l.b.n ∧ x.d = x0.d))
          l.matrices inputs).all id ∧ l.b.d = 1 then
      some (mul_add_mul_with_bias l.matrices inputs l.b x0.d)
    else none

/-- Modelled from the spec: the backward rule of `mul_add_mul_with_bias`
("backward distributes"): `dWi += dC · xiᵀ`, `dxi += Wiᵀ · dC` and
`db += sum_cols(dC)`, each into a gradient that starts at zero. -/
def backward (l : StackedInputLayer R) (inputs : List (Mat R)) (dY : Mat R) :
    StackedGradients R :=
  { dW := List.zipWith (fun W x => Mat.accumulate (Mat.zeros W.n W.d) (Mat.dot dY x.transpose))
      l.matrices inputs
    db := Mat.accumulate (Mat.zeros l.b.n l.b.d) (Mat.sum_cols dY)
    dX := List.zipWith (fun W x => Mat.accumulate (Mat.zeros x.n x.d) (Mat.dot W.transpose dY))
      l.matrices inputs }

/-- Modelled from the spec: the gradients after
`((stacked.activate({X, H}).tanh() - 1) ^ 2).sum()`, `grad()` and
`backward()`. -/
def gradients (l : StackedInputLayer R) (tanh : R → R) (inputs : List (Mat R)) :
    Option (StackedGradients R) :=
  (l.activate inputs).map fun y => l.backward inputs (Mat.loss_gradient tanh y)

end StackedInputLayer

/-- An `RNN(2, 1)` over the integers with `Wx = (1 2)`, `Wh = (3)` and
`b = (1)`. -/
def rnn_2_1 : RNN Int :=
  RNN.create 2 1 (fun _ k => (k : Int) + 1) (fun _ _ => 3) (fun _ _ => 1)

/-- The `StackedInputLayer({2, 1}, 1)` holding the values of `rnn_2_1`. -/
def stacked_2_1 : StackedInputLayer Int :=
  StackedInputLayer.create [2, 1] 1 [fun _ k => (k : Int) + 1, fun _ _ => 3] (fun _ _ => 1)

/-- An input of shape `[2, 1]`, the column `(1, -1)`. -/
def input_2x1 : Mat Int := { n := 2, d := 1, w := fun k _ => 1 - 2 * (k : Int) }

/-- A hidden state of shape `[1, 1]`, the element `2`. -/
def hidden_1x1 : Mat Int := { n := 1, d := 1, w := fun _ _ => 2 }

/-! ## Theorems: memory_bank -/

section Bank

theorem foldl_and_eq_all {α : Type} (f : α → Bool) (l : List α) (acc : Bool) :
    l.foldl (fun a st => a && f st) acc = (acc && l.all f) := by
  induction l generalizing acc with
  | nil => simp
  | cons x xs ih => simp [List.foldl_cons, ih, Bool.and_assoc]

/-- C10: `allocate_cpu` pops the last deposited buffer of the bucket for
`amount` and touches neither counter nor runtime; with the bucket absent or
empty it takes a buffer from the runtime, adds 1 to `num_cpu_allocations`
and `amount` to `total_cpu_memory` and leaves every bucket as it was;
`deposit_cpu` appends to the bucket for `amount` only, so depositing `p`
and allocating the same amount gives `p` back. -/
theorem memory_bank_allocate_deposit_policy (b : memory_bank) (rt : memory_operations)
    (amount d : Int) (p : Ptr) :
    (∀ box q, b.cpu_memory_bank amount = some (box ++ [q]) →
      (b.allocate_cpu rt amount d).1 = q ∧
      (b.allocate_cpu rt amount d).2.2 = rt ∧
      (b.allocate_cpu rt amount d).2.1.cpu_memory_bank amount = some box ∧
      (∀ k, k ≠ amount →
        (b.allocate_cpu rt amount d).2.1.cpu_memory_bank k = b.cpu_memory_bank k) ∧
      (b.allocate_cpu rt amount d).2.1.num_cpu_allocations = b.num_cpu_allocations ∧
      (b.allocate_cpu rt amount d).2.1.total_cpu_memory = b.total_cpu_memory) ∧
    ((b.cpu_memory_bank amount = none ∨ b.cpu_memory_bank amount = some []) →
      (b.allocate_cpu rt amount d).1 = (rt.allocate_cpu_memory amount d).1 ∧
      (b.allocate_cpu rt amount d).2.2 = (rt.allocate_cpu_memory amount d).2 ∧
      (b.allocate_cpu rt amount d).2.1.cpu_memory_bank = b.cpu_memory_bank ∧
      (b.allocate_cpu rt amount d).2.1.num_cpu_allocations = b.num_cpu_allocations + 1 ∧
      (b.allocate_cpu rt amount d).2.1.total_cpu_memory = b.total_cpu_memory + amount) ∧
    ((b.deposit_cpu amount d p).cpu_memory_bank amount
        = some ((b.cpu_memory_bank amount).getD [] ++ [p]) ∧
      (∀ k, k ≠ amount →
        (b.deposit_cpu amount d p).cpu_memory_bank k = b.cpu_memory_bank k) ∧
      (b.deposit_cpu amount d p).gpu_memory_bank = b.gpu_memory_bank ∧
      (b.deposit_cpu amount d p).num_cpu_allocations = b.num_cpu_allocations ∧
      (b.deposit_cpu amount d p).total_cpu_memory = b.total_cpu_memory) ∧
    (((b.deposit_cpu amount d p).allocate_cpu rt amount d).1 = p ∧
      ((b.deposit_cpu amount d p).allocate_cpu rt amount d).2.1.cpu_memory_bank amount
        = some ((b.cpu_memory_bank amount).getD [])) := by
  refine ⟨?_, ?_, ?_, ?_⟩
  · intro box q h
    simp [memory_bank.allocate_cpu, h, List.getLast?_append, List.dropLast_concat]
    intro k hk
    simp [Function.update_noteq hk]
  · rintro (h | h) <;>
      simp [memory_bank.allocate_cpu, memory_bank.allocate_cpu_new, h]
  · refine ⟨by simp [memory_bank.deposit_cpu], ?_, rfl, rfl, rfl⟩
    intro k hk
    simp [memory_bank.deposit_cpu, Function.update_noteq hk]
  · simp [memory_bank.allocate_cpu, memory_bank.deposit_cpu, List.getLast?_append,
      List.dropLast_concat]

theorem memory_bank_allocate_cpu_source (b : memory_bank) (rt : memory_operations)
    (amount d : Int) :
    (b.allocate_cpu rt amount d).1 = rt.cpu_next ∨
      ∃ box, b.cpu_memory_bank amount = some box ∧ (b.allocate_cpu rt amount d).1 ∈ box := by
  unfold memory_bank.allocate_cpu
  split
  · rename_i box hbox
    split
    · rename_i q hq
      exact Or.inr ⟨box, hbox, List.mem_of_getLast?_eq_some hq⟩
    · exact Or.inl rfl
  · exact Or.inl rfl

theorem memory_bank_allocate_gpu_source (b : memory_bank) (rt : memory_operations)
    (amount d : Int) :
    (b.allocate_gpu rt amount d).1 = rt.gpu_next ∨
      ∃ box, b.gpu_memory_bank amount = some box ∧ (b.allocate_gpu rt amount d).1 ∈ box := by
  unfold memory_bank.allocate_gpu
  split
  · rename_i box hbox
    split
    · rename_i q hq
      exact Or.inr ⟨box, hbox, List.mem_of_getLast?_eq_some hq⟩
    · exact Or.inl rfl
  · exact Or.inl rfl

theorem allocate_cpu_ne_of_in_use {R : Type} (w : World R) (c : Ptr) (h : w.cpu_in_use c)
    (amount d : Int) : c ≠ (w.bank.allocate_cpu w.runtime amount d).1 := by
  intro hc
  rcases memory_bank_allocate_cpu_source w.bank w.runtime amount d with h1 | ⟨box, hb, hm⟩
  · rw [← hc] at h1
    have hlt := h.1
    rw [h1] at hlt
    exact Nat.lt_irrefl _ hlt
  · rw [← hc] at hm
    exact h.2 amount box hb hm

theorem allocate_gpu_ne_of_in_use {R : Type} (w : World R) (g : Ptr) (h : w.gpu_in_use g)
    (amount d : Int) : g ≠ (w.bank.allocate_gpu w.runtime amount d).1 := by
  intro hc
  rcases memory_bank_allocate_gpu_source w.bank w.runtime amount d with h1 | ⟨box, hb, hm⟩
  · rw [← hc] at h1
    have hlt := h.1
    rw [h1] at hlt
    exact Nat.lt_irrefl _ hlt
  · rw [← hc] at hm
    exact h.2 amount box hb hm

end Bank

/-! ## Theorems: should_compute_on_gpu -/

section ShouldCompute

open SynchronizedMemory

theorem should_compute_on_gpu_of_two_le (tie : Device) (sts : List SynchronizedMemory)
    (h : 2 ≤ sts.length) :
    should_compute_on_gpu tie sts =
      (if sts.all prefers_cpu then false
       else if sts.all prefers_gpu then true
       else tie == DEVICE_GPU) := by
  match sts, h with
  | a :: b :: rest, _ =>
    simp only [should_compute_on_gpu, foldl_and_eq_all, Bool.true_and]

/-- C3, as stated, fails: for a single host-preferring memory whose device
side alone is fresh the selection is the host, not the device. -/
theorem should_compute_on_gpu_single_counterexample :
    ¬ (∀ (tie : Device) (m : SynchronizedMemory),
        (m.gpu_fresh = true ∧ m.cpu_fresh = false → should_compute_on_gpu tie [m] = true) ∧
        (m.cpu_fresh = true ∧ m.gpu_fresh = false → should_compute_on_gpu tie [m] = false) ∧
        (m.cpu_fresh = false ∧ m.gpu_fresh = false →
          should_compute_on_gpu tie [m] = m.prefers_gpu)) := by
  intro h
  have h1 := (h DEVICE_GPU host_preferring_device_fresh).1 ⟨rfl, rfl⟩
  exact absurd h1 (by decide)

/-- C3, amended: for a single input the device is selected exactly when the
memory prefers the device and its device side is fresh or neither side is
fresh. Hence a device-preferring memory is computed on the side that alone is
fresh, a memory with no fresh side on its preferred device, and a
host-preferring memory on the host whatever its fresh flags are. -/
theorem should_compute_on_gpu_single (tie : Device) (m : SynchronizedMemory) :
    (should_compute_on_gpu tie [m] = true ↔
      m.preferred_device = DEVICE_GPU ∧
        (m.gpu_fresh = true ∨ (m.cpu_fresh = false ∧ m.gpu_fresh = false))) ∧
    (m.preferred_device = DEVICE_GPU → m.gpu_fresh = true → m.cpu_fresh = false →
      should_compute_on_gpu tie [m] = true) ∧
    (m.cpu_fresh = true → m.gpu_fresh = false → should_compute_on_gpu tie [m] = false) ∧
    (m.cpu_fresh = false → m.gpu_fresh = false →
      should_compute_on_gpu tie [m] = m.prefers_gpu) ∧
    (m.preferred_device = DEVICE_CPU → should_compute_on_gpu tie [m] = false) := by
  obtain ⟨gf, ag, gp, coa, cf, ac, cp, tot, inn, dev⟩ := m
  cases dev <;> cases gf <;> cases cf <;>
    simp [should_compute_on_gpu, prefers_gpu]

/-- The amended C3 at the four kinds of single input: device-preferring with
only the device side fresh, device-preferring with only the host side fresh,
device-preferring with no fresh side, and the host-preferring memory of the
counterexample. -/
theorem should_compute_on_gpu_single_witness :
    should_compute_on_gpu DEVICE_CPU
        [{ host_preferring_device_fresh with preferred_device := DEVICE_GPU }] = true ∧
    should_compute_on_gpu DEVICE_GPU
        [{ host_preferring_device_fresh with
            preferred_device := DEVICE_GPU, cpu_fresh := true, gpu_fresh := false }] = false ∧
    should_compute_on_gpu DEVICE_CPU
        [{ host_preferring_device_fresh with
            preferred_device := DEVICE_GPU, gpu_fresh := false }] = true ∧
    should_compute_on_gpu DEVICE_GPU [host_preferring_device_fresh] = false :=
  ⟨(should_compute_on_gpu_single DEVICE_CPU
      { host_preferring_device_fresh with preferred_device := DEVICE_GPU }).2.1 rfl rfl rfl,
   (should_compute_on_gpu_single DEVICE_GPU
      { host_preferring_device_fresh with
          preferred_device := DEVICE_GPU, cpu_fresh := true, gpu_fresh := false }).2.2.1
      rfl rfl,
   (should_compute_on_gpu_single DEVICE_CPU
      { host_preferring_device_fresh with
          preferred_device := DEVICE_GPU, gpu_fresh := false }).2.2.2.1 rfl rfl,
   (should_compute_on_gpu_single DEVICE_GPU host_preferring_device_fresh).2.2.2.2 rfl⟩

/-- C9: with two or more inputs the selection is the host when every input
prefers the host, the device when every input prefers the device, and
otherwise the device exactly when `tie_breaker_device` is the device; the
tie breaker is initialised to the device; two input lists with the same
preferred devices get the same answer whatever their other members are. -/
theorem should_compute_on_gpu_many (tie : Device) (sts : List SynchronizedMemory)
    (h : 2 ≤ sts.length) :
    ((∀ st ∈ sts, st.preferred_device = DEVICE_CPU) → should_compute_on_gpu tie sts = false) ∧
    ((∀ st ∈ sts, st.preferred_device = DEVICE_GPU) → should_compute_on_gpu tie sts = true) ∧
    (¬ (∀ st ∈ sts, st.preferred_device = DEVICE_CPU) →
      ¬ (∀ st ∈ sts, st.preferred_device = DEVICE_GPU) →
      (should_compute_on_gpu tie sts = true ↔ tie = DEVICE_GPU)) ∧
    (∀ sts' : List SynchronizedMemory,
      sts'.map (fun st => st.preferred_device) = sts.map (fun st => st.preferred_device) →
      should_compute_on_gpu tie sts' = should_compute_on_gpu tie sts) ∧
    tie_breaker_device_default = DEVICE_GPU := by
  have hcpu : ∀ l : List SynchronizedMemory,
      l.all prefers_cpu = (l.map (fun st => st.preferred_device)).all (· == DEVICE_CPU) := by
    intro l; induction l <;> simp_all [prefers_cpu]
  have hgpu : ∀ l : List SynchronizedMemory,
      l.all prefers_gpu = (l.map (fun st => st.preferred_device)).all (· == DEVICE_GPU) := by
    intro l; induction l <;> simp_all [prefers_gpu]
  refine ⟨?_, ?_, ?_, ?_, rfl⟩
  · intro hall
    have : sts.all prefers_cpu = true := by
      simpa [List.all_eq_true, prefers_cpu] using hall
    simp [should_compute_on_gpu_of_two_le tie sts h, this]
  · intro hall
    have hg : sts.all prefers_gpu = true := by
      simpa [List.all_eq_true, prefers_gpu] using hall
    have hc : sts.all prefers_cpu = false := by
      match sts, h, hall with
      | a :: b :: rest, _, hall =>
        have := hall a (by simp)
        simp [prefers_cpu, this]
    simp [should_compute_on_gpu_of_two_le tie sts h, hg, hc]
  · intro hnc hng
    have hc : sts.all prefers_cpu = false := by
      rw [Bool.eq_false_iff]
      intro hc
      exact hnc (by simpa [List.all_eq_true, prefers_cpu] using hc)
    have hg : sts.all prefers_gpu = false := by
      rw [Bool.eq_false_iff]
      intro hg
      exact hng (by simpa [List.all_eq_true, prefers_gpu] using hg)
    simp [should_compute_on_gpu_of_two_le tie sts h, hg, hc]
  · intro sts' hmap
    have hlen : 2 ≤ sts'.length := by
      have := congrArg List.length hmap
      simp at this
      omega
    rw [should_compute_on_gpu_of_two_le tie sts h,
      should_compute_on_gpu_of_two_le tie sts' hlen, hcpu sts, hgpu sts, hcpu sts', hgpu sts',
      hmap]

/-- C9 at two host-preferring inputs, two device-preferring inputs, and a
host-preferring input next to a device-preferring one under either tie
breaker; the last pair differs from the mixed pair in fresh flags only. -/
theorem should_compute_on_gpu_many_witness :
    should_compute_on_gpu DEVICE_GPU
        [host_preferring_device_fresh, host_preferring_device_fresh] = false ∧
    should_compute_on_gpu DEVICE_CPU
        [{ host_preferring_device_fresh with preferred_device := DEVICE_GPU },
          { host_preferring_device_fresh with preferred_device := DEVICE_GPU }] = true ∧
    (should_compute_on_gpu DEVICE_CPU
        [host_preferring_device_fresh,
          { host_preferring_device_fresh with preferred_device := DEVICE_GPU }] = true ↔
      DEVICE_CPU = DEVICE_GPU) ∧
    (should_compute_on_gpu DEVICE_GPU
        [host_preferring_device_fresh,
          { host_preferring_device_fresh with preferred_device := DEVICE_GPU }] = true ↔
      DEVICE_GPU = DEVICE_GPU) ∧
    should_compute_on_gpu DEVICE_GPU
        [{ host_preferring_device_fresh with gpu_fresh := false, cpu_fresh := true },
          { host_preferring_device_fresh with
              preferred_device := DEVICE_GPU, gpu_fresh := false }] =
      should_compute_on_gpu DEVICE_GPU
        [host_preferring_device_fresh,
          { host_preferring_device_fresh with preferred_device := DEVICE_GPU }] :=
  ⟨(should_compute_on_gpu_many DEVICE_GPU
      [host_preferring_device_fresh, host_preferring_device_fresh] (by decide)).1
      (by decide),
   (should_compute_on_gpu_many DEVICE_CPU
      [{ host_preferring_device_fresh with preferred_device := DEVICE_GPU },
        { host_preferring_device_fresh with preferred_device := DEVICE_GPU }]
      (by decide)).2.1 (by decide),
   (should_compute_on_gpu_many DEVICE_CPU
      [host_preferring_device_fresh,
        { host_preferring_device_fresh with preferred_device := DEVICE_GPU }]
      (by decide)).2.2.1 (by decide) (by decide),
   (should_compute_on_gpu_many DEVICE_GPU
      [host_preferring_device_fresh,
        { host_preferring_device_fresh with preferred_device := DEVICE_GPU }]
      (by decide)).2.2.1 (by decide) (by decide),
   (should_compute_on_gpu_many DEVICE_GPU
      [host_preferring_device_fresh,
        { host_preferring_device_fresh with preferred_device := DEVICE_GPU }]
      (by decide)).2.2.2.1 _ rfl⟩

end ShouldCompute

/-! ## Theorems: SynchronizedMemory -/

namespace SynchronizedMemory

variable {R : Type}

theorem div_mul_inner (m : SynchronizedMemory) (hc : Consistent m) :
    m.total_memory / m.inner_dimension * m.inner_dimension = m.total_memory :=
  Nat.div_mul_cancel (Nat.dvd_of_mod_eq_zero hc.2.1)

theorem allocate_cpu_spec (m : SynchronizedMemory) (w : World R)
    (h : m.allocated_cpu = true → m.cpu_ptr.isSome = true) :
    ∃ p w1, m.allocate_cpu w =
        (!m.allocated_cpu, w1, { m with cpu_ptr := some p, allocated_cpu := true }) ∧
      w1.cpu = w.cpu ∧ w1.gpu = w.gpu ∧
      (m.allocated_cpu = true → w1 = w ∧ m.cpu_ptr = some p) ∧
      (m.allocated_cpu = false →
        p = (w.bank.allocate_cpu w.runtime m.total_memory m.inner_dimension).1) := by
  by_cases hac : m.allocated_cpu = true
  · obtain ⟨p, hp⟩ := Option.isSome_iff_exists.mp (h hac)
    refine ⟨p, w, ?_, rfl, rfl, fun _ => ⟨rfl, hp⟩, fun h' => by simp [hac] at h'⟩
    obtain ⟨gf, ag, gp, coa, cf, ac, cp, tot, inn, dev⟩ := m
    simp only at hac hp
    subst hac hp
    simp [allocate_cpu]
  · have hac' : m.allocated_cpu = false := by simpa using hac
    refine ⟨(w.bank.allocate_cpu w.runtime m.total_memory m.inner_dimension).1,
      { w with
        bank := (w.bank.allocate_cpu w.runtime m.total_memory m.inner_dimension).2.1
        runtime := (w.bank.allocate_cpu w.runtime m.total_memory m.inner_dimension).2.2 },
      ?_, rfl, rfl, ?_, fun _ => rfl⟩
    · simp [allocate_cpu, hac']
    · intro h'; simp [hac'] at h'

theorem allocate_gpu_spec (m : SynchronizedMemory) (w : World R)
    (h : m.allocated_gpu = true → m.gpu_ptr.isSome = true) :
    ∃ p w1, m.allocate_gpu w =
        (!m.allocated_gpu, w1, { m with gpu_ptr := some p, allocated_gpu := true }) ∧
      w1.cpu = w.cpu ∧ w1.gpu = w.gpu ∧
      (m.allocated_gpu = true → w1 = w ∧ m.gpu_ptr = some p) ∧
      (m.allocated_gpu = false →
        p = (w.bank.allocate_gpu w.runtime m.total_memory m.inner_dimension).1) := by
  by_cases hac : m.allocated_gpu = true
  · obtain ⟨p, hp⟩ := Option.isSome_iff_exists.mp (h hac)
    refine ⟨p, w, ?_, rfl, rfl, fun _ => ⟨rfl, hp⟩, fun h' => by simp [hac] at h'⟩
    obtain ⟨gf, ag, gp, coa, cf, ac, cp, tot, inn, dev⟩ := m
    simp only at hac hp
    subst hac hp
    simp [allocate_gpu]
  · have hac' : m.allocated_gpu = false := by simpa using hac
    refine ⟨(w.bank.allocate_gpu w.runtime m.total_memory m.inner_dimension).1,
      { w with
        bank := (w.bank.allocate_gpu w.runtime m.total_memory m.inner_dimension).2.1
        runtime := (w.bank.allocate_gpu w.runtime m.total_memory m.inner_dimension).2.2 },
      ?_, rfl, rfl, ?_, fun _ => rfl⟩
    · simp [allocate_gpu, hac']
    · intro h'; simp [hac'] at h'

variable [Zero R]

theorem to_cpu_spec (m : SynchronizedMemory) (w : World R) (hc : Consistent m) :
    ∃ w' m' p, m.to_cpu w = some (w', m') ∧ m'.cpu_ptr = some p ∧ Consistent m' ∧
      m'.cpu_fresh = true ∧ m'.allocated_cpu = true ∧
      m'.gpu_fresh = m.gpu_fresh ∧ m'.allocated_gpu = m.allocated_gpu ∧
      m'.gpu_ptr = m.gpu_ptr ∧ m'.total_memory = m.total_memory ∧
      m'.inner_dimension = m.inner_dimension ∧
      m'.preferred_device = m.preferred_device ∧
      m'.clear_on_allocation = m.clear_on_allocation ∧
      w'.gpu = w.gpu ∧
      (∀ q, q ≠ p → w'.cpu q = w.cpu q) ∧
      (m.cpu_fresh = true → w' = w ∧ m' = m) ∧
      (m.cpu_fresh = false → m.gpu_fresh = true →
        ∃ g, m.gpu_ptr = some g ∧ ∀ i, i < m.total_memory → w'.cpu p i = w.gpu g i) ∧
      (m.cpu_fresh = false → m.gpu_fresh = false → m.allocated_cpu = false →
        m.clear_on_allocation = true → ∀ i, i < m.total_memory → w'.cpu p i = 0) ∧
      (m.cpu_fresh = false → m.allocated_cpu = false →
        p = (w.bank.allocate_cpu w.runtime m.total_memory m.inner_dimension).1) := by
  have hsz := div_mul_inner m hc
  have hc0 := hc
  obtain ⟨h1, h2, h3, h4, h5, h6⟩ := hc
  obtain ⟨p, w1, ha, hcpu, hgpu, hal, hnew⟩ := allocate_cpu_spec m w h3
  by_cases hcf : m.cpu_fresh = true
  · have hac := h4 hcf
    obtain ⟨_, hp⟩ := hal hac
    refine ⟨w, m, p, by simp [to_cpu, hcf], hp, hc0, hcf, hac, rfl, rfl, rfl, rfl, rfl, rfl,
      rfl, rfl, fun _ _ => rfl, fun _ => ⟨rfl, rfl⟩, ?_, ?_, ?_⟩ <;> simp [hcf]
  · have hcf' : m.cpu_fresh = false := by simpa using hcf
    by_cases hgf : m.gpu_fresh = true
    · obtain ⟨g, hg⟩ := Option.isSome_iff_exists.mp (h5 (h6 hgf))
      refine ⟨{ w1 with cpu := fun q i =>
                  if q = p ∧ i < m.total_memory then w1.gpu g i else w1.cpu q i },
        { m with cpu_ptr := some p, allocated_cpu := true, cpu_fresh := true }, p, ?_, rfl,
        ?_, rfl, rfl, rfl, rfl, rfl, rfl, rfl, rfl, rfl, hgpu, ?_, ?_, ?_, ?_, fun _ h => hnew h⟩
      · simp [to_cpu, hcf', ha, hgf, dummy_gpu, dummy_cpu, h1, Copy, Tensor.Size, hsz, hg]
      · exact ⟨h1, h2, fun _ => rfl, fun _ => rfl, h5, h6⟩
      · intro q hq
        funext i
        simp [hq, hcpu]
      · intro h; simp [hcf'] at h
      · intro _ _
        exact ⟨g, hg, fun i hi => by simp [hi, hgpu]⟩
      · intro _ h; simp [hgf] at h
    · have hgf' : m.gpu_fresh = false := by simpa using hgf
      by_cases hz : (!m.allocated_cpu && m.clear_on_allocation) = true
      · refine ⟨{ w1 with cpu := fun q i =>
                    if q = p ∧ i < m.total_memory then 0 else w1.cpu q i },
          { m with cpu_ptr := some p, allocated_cpu := true, cpu_fresh := true }, p, ?_, rfl,
          ?_, rfl, rfl, rfl, rfl, rfl, rfl, rfl, rfl, rfl, hgpu, ?_, ?_, ?_, ?_, fun _ h => hnew h⟩
        · simp only [Bool.and_eq_true] at hz
          simp [to_cpu, hcf', ha, hgf', dummy_cpu, h1, Tensor.fill, Tensor.Size, hsz, hz.1,
            hz.2]
        · exact ⟨h1, h2, fun _ => rfl, fun _ => rfl, h5, h6⟩
        · intro q hq
          funext i
          simp [hq, hcpu]
        · intro h; simp [hcf'] at h
        · intro _ h; simp [hgf'] at h
        · intro _ _ _ _ i hi
          simp [hi]
      · refine ⟨w1, { m with cpu_ptr := some p, allocated_cpu := true, cpu_fresh := true },
          p, ?_, rfl, ?_, rfl, rfl, rfl, rfl, rfl, rfl, rfl, rfl, rfl, hgpu, ?_, ?_, ?_, ?_, fun _ h => hnew h⟩
        · simp only [Bool.and_eq_true, not_and, Bool.not_eq_true] at hz
          simp only [to_cpu, hcf', ha, hgf']
          by_cases hal : m.allocated_cpu = true
          · simp [hal]
          · have hal' : m.allocated_cpu = false := by simpa using hal
            have := hz (by simp [hal'])
            simp [hal', this]
        · exact ⟨h1, h2, fun _ => rfl, fun _ => rfl, h5, h6⟩
        · intro q _
          rw [hcpu]
        · intro h; simp [hcf'] at h
        · intro _ h; simp [hgf'] at h
        · intro _ _ h1' h2'
          simp [h1', h2'] at hz

theorem to_gpu_spec (m : SynchronizedMemory) (w : World R) (hc : Consistent m) :
    ∃ w' m' p, m.to_gpu w = some (w', m') ∧ m'.gpu_ptr = some p ∧ Consistent m' ∧
      m'.gpu_fresh = true ∧ m'.allocated_gpu = true ∧
      m'.cpu_fresh = m.cpu_fresh ∧ m'.allocated_cpu = m.allocated_cpu ∧
      m'.cpu_ptr = m.cpu_ptr ∧ m'.total_memory = m.total_memory ∧
      m'.inner_dimension = m.inner_dimension ∧
      m'.preferred_device = m.preferred_device ∧
      m'.clear_on_allocation = m.clear_on_allocation ∧
      w'.cpu = w.cpu ∧
      (∀ q, q ≠ p → w'.gpu q = w.gpu q) ∧
      (m.gpu_fresh = true → w' = w ∧ m' = m) ∧
      (m.gpu_fresh = false → m.cpu_fresh = true →
        ∃ g, m.cpu_ptr = some g ∧ ∀ i, i < m.total_memory → w'.gpu p i = w.cpu g i) ∧
      (m.gpu_fresh = false → m.cpu_fresh = false → m.allocated_gpu = false →
        m.clear_on_allocation = true → ∀ i, i < m.total_memory → w'.gpu p i = 0) ∧
      (m.gpu_fresh = false → m.allocated_gpu = false →
        p = (w.bank.allocate_gpu w.runtime m.total_memory m.inner_dimension).1) := by
  have hsz := div_mul_inner m hc
  have hc0 := hc
  obtain ⟨h1, h2, h5, h6, h3, h4⟩ := hc
  obtain ⟨p, w1, ha, hcpu, hgpu, hal, hnew⟩ := allocate_gpu_spec m w h3
  by_cases hcf : m.gpu_fresh = true
  · have hac := h4 hcf
    obtain ⟨_, hp⟩ := hal hac
    refine ⟨w, m, p, by simp [to_gpu, hcf], hp, hc0, hcf, hac, rfl, rfl, rfl, rfl, rfl, rfl,
      rfl, rfl, fun _ _ => rfl, fun _ => ⟨rfl, rfl⟩, ?_, ?_, ?_⟩ <;> simp [hcf]
  · have hcf' : m.gpu_fresh = false := by simpa using hcf
    by_cases hgf : m.cpu_fresh = true
    · obtain ⟨g, hg⟩ := Option.isSome_iff_exists.mp (h5 (h6 hgf))
      refine ⟨{ w1 with gpu := fun q i =>
                  if q = p ∧ i < m.total_memory then w1.cpu g i else w1.gpu q i },
        { m with gpu_ptr := some p, allocated_gpu := true, gpu_fresh := true }, p, ?_, rfl,
        ?_, rfl, rfl, rfl, rfl, rfl, rfl, rfl, rfl, rfl, hcpu, ?_, ?_, ?_, ?_, fun _ h => hnew h⟩
      · simp [to_gpu, hcf', ha, hgf, dummy_cpu, dummy_gpu, h1, Copy, Tensor.Size, hsz, hg]
      · exact ⟨h1, h2, h5, h6, fun _ => rfl, fun _ => rfl⟩
      · intro q hq
        funext i
        simp [hq, hgpu]
      · intro h; simp [hcf'] at h
      · intro _ _
        exact ⟨g, hg, fun i hi => by simp [hi, hcpu]⟩
      · intro _ h; simp [hgf] at h
    · have hgf' : m.cpu_fresh = false := by simpa using hgf
      by_cases hz : (!m.allocated_gpu && m.clear_on_allocation) = true
      · refine ⟨{ w1 with gpu := fun q i =>
                    if q = p ∧ i < m.total_memory then 0 else w1.gpu q i },
          { m with gpu_ptr := some p, allocated_gpu := true, gpu_fresh := true }, p, ?_, rfl,
          ?_, rfl, rfl, rfl, rfl, rfl, rfl, rfl, rfl, rfl, hcpu, ?_, ?_, ?_, ?_, fun _ h => hnew h⟩
        · simp only [Bool.and_eq_true] at hz
          simp [to_gpu, hcf', ha, hgf', dummy_gpu, h1, Tensor.fill, Tensor.Size, hsz, hz.1,
            hz.2]
        · exact ⟨h1, h2, h5, h6, fun _ => rfl, fun _ => rfl⟩
        · intro q hq
          funext i
          simp [hq, hgpu]
        · intro h; simp [hcf'] at h
        · intro _ h; simp [hgf'] at h
        · intro _ _ _ _ i hi
          simp [hi]
      · refine ⟨w1, { m with gpu_ptr := some p, allocated_gpu := true, gpu_fresh := true },
          p, ?_, rfl, ?_, rfl, rfl, rfl, rfl, rfl, rfl, rfl, rfl, rfl, hcpu, ?_, ?_, ?_, ?_, fun _ h => hnew h⟩
        · simp only [Bool.and_eq_true, not_and, Bool.not_eq_true] at hz
          simp only [to_gpu, hcf', ha, hgf']
          by_cases hal : m.allocated_gpu = true
          · simp [hal]
          · have hal' : m.allocated_gpu = false := by simpa using hal
            have := hz (by simp [hal'])
            simp [hal', this]
        · exact ⟨h1, h2, h5, h6, fun _ => rfl, fun _ => rfl⟩
        · intro q _
          rw [hgpu]
        · intro h; simp [hcf'] at h
        · intro _ h; simp [hgf'] at h
        · intro _ _ h1' h2'
          simp [h1', h2'] at hz

theorem clear_spec (m : SynchronizedMemory) (w : World R) (hc : Consistent m) :
    ∃ w' m' p, m.clear w = some (w', m') ∧ Consistent m' ∧
      m'.clear_on_allocation = true ∧ m'.total_memory = m.total_memory ∧
      m'.inner_dimension = m.inner_dimension ∧
      m'.preferred_device = m.preferred_device ∧
      (m.preferred_device = DEVICE_GPU →
        m'.gpu_ptr = some p ∧ m'.allocated_gpu = true ∧ m'.gpu_fresh = true ∧
        m'.cpu_fresh = false ∧ (∀ i, i < m.total_memory → w'.gpu p i = 0) ∧
        (∀ q, q ≠ p → w'.gpu q = w.gpu q) ∧ w'.cpu = w.cpu ∧
        m'.cpu_ptr = m.cpu_ptr ∧ m'.allocated_cpu = m.allocated_cpu) ∧
      (m.preferred_device = DEVICE_CPU →
        m'.cpu_ptr = some p ∧ m'.allocated_cpu = true ∧ m'.cpu_fresh = true ∧
        m'.gpu_fresh = false ∧ (∀ i, i < m.total_memory → w'.cpu p i = 0) ∧
        (∀ q, q ≠ p → w'.cpu q = w.cpu q) ∧ w'.gpu = w.gpu ∧
        m'.gpu_ptr = m.gpu_ptr ∧ m'.allocated_gpu = m.allocated_gpu) := by
  have hsz := div_mul_inner m hc
  obtain ⟨h1, h2, h3, h4, h5, h6⟩ := hc
  obtain ⟨gf, ag, gp, coa, cf, ac, cp, tot, inn, dev⟩ := m
  simp only at h1 h2 h3 h4 h5 h6 hsz
  have hdev : dev = dev := rfl
  cases dev
  · obtain ⟨p, w1, ha, hcpu, hgpu, -⟩ :=
      allocate_gpu_spec
        { gpu_fresh := gf, allocated_gpu := ag, gpu_ptr := gp, clear_on_allocation := true,
          cpu_fresh := cf, allocated_cpu := ac, cpu_ptr := cp, total_memory := tot,
          inner_dimension := inn, preferred_device := DEVICE_GPU } w h5
    simp only at ha
    refine ⟨{ w1 with gpu := fun q i =>
                if q = p ∧ i < tot then 0 else w1.gpu q i },
      { gpu_fresh := true, allocated_gpu := true, gpu_ptr := some p,
        clear_on_allocation := true, cpu_fresh := false, allocated_cpu := ac, cpu_ptr := cp,
        total_memory := tot, inner_dimension := inn, preferred_device := DEVICE_GPU }, p, ?_, ?_, rfl, rfl, rfl, hdev, ?_, ?_⟩
    · simp [clear, ha, dummy_gpu, h1, Tensor.fill, Tensor.Size, hsz]
    · exact ⟨h1, h2, h3, fun h => by simp at h, fun _ => rfl, fun _ => rfl⟩
    · intro _
      refine ⟨rfl, rfl, rfl, rfl, fun i hi => by simp [hi], ?_, hcpu, rfl, rfl⟩
      intro q hq
      funext i
      simp [hq, hgpu]
    · intro h; cases h
  · obtain ⟨p, w1, ha, hcpu, hgpu, -⟩ :=
      allocate_cpu_spec
        { gpu_fresh := gf, allocated_gpu := ag, gpu_ptr := gp, clear_on_allocation := true,
          cpu_fresh := cf, allocated_cpu := ac, cpu_ptr := cp, total_memory := tot,
          inner_dimension := inn, preferred_device := DEVICE_CPU } w h3
    simp only at ha
    refine ⟨{ w1 with cpu := fun q i =>
                if q = p ∧ i < tot then 0 else w1.cpu q i },
      { gpu_fresh := false, allocated_gpu := ag, gpu_ptr := gp,
        clear_on_allocation := true, cpu_fresh := true, allocated_cpu := true,
        cpu_ptr := some p, total_memory := tot, inner_dimension := inn,
        preferred_device := DEVICE_CPU }, p, ?_, ?_, rfl, rfl, rfl, hdev, ?_, ?_⟩
    · simp [clear, ha, dummy_cpu, h1, Tensor.fill, Tensor.Size, hsz]
    · exact ⟨h1, h2, fun _ => rfl, fun _ => rfl, h5, fun h => by simp at h⟩
    · intro h; cases h
    · intro _
      refine ⟨rfl, rfl, rfl, rfl, fun i hi => by simp [hi], ?_, hgpu, rfl, rfl⟩
      intro q hq
      funext i
      simp [hq, hcpu]

theorem lazy_clear_eq (m : SynchronizedMemory) (w : World R) :
    m.lazy_clear w =
      if m.allocated_cpu = true then m.clear w
      else some (w, { m with clear_on_allocation := true }) := by
  obtain ⟨gf, ag, gp, coa, cf, ac, cp, tot, inn, dev⟩ := m
  cases ac
  · simp [lazy_clear]
  · simp only [lazy_clear, Bool.not_true, Bool.and_self, Bool.false_eq_true, if_false, if_true]
    rfl

omit [Zero R] in
theorem copy_data_from_cpu (tot inn : Nat) (coa : Bool) (w : World R) (s : Ptr)
    (src_on_gpu : Bool) (h1 : inn ≠ 0) (hsz : tot / inn * inn = tot) :
    copy_data_from
        { gpu_fresh := false, allocated_gpu := false, gpu_ptr := none,
          clear_on_allocation := coa, cpu_fresh := false, allocated_cpu := false,
          cpu_ptr := none, total_memory := tot, inner_dimension := inn,
          preferred_device := DEVICE_CPU } w
        { dptr_ := some s, shape := (tot / inn, inn) } src_on_gpu =
      some
        ({ bank := (w.bank.allocate_cpu w.runtime tot inn).2.1
           runtime := (w.bank.allocate_cpu w.runtime tot inn).2.2
           cpu := fun q i =>
             if q = (w.bank.allocate_cpu w.runtime tot inn).1 ∧ i < tot then
               (if src_on_gpu = true then w.gpu else w.cpu) s i
             else w.cpu q i
           gpu := w.gpu },
         { gpu_fresh := false, allocated_gpu := false, gpu_ptr := none,
           clear_on_allocation := coa, cpu_fresh := true, allocated_cpu := true,
           cpu_ptr := some (w.bank.allocate_cpu w.runtime tot inn).1, total_memory := tot,
           inner_dimension := inn, preferred_device := DEVICE_CPU }) := by
  simp [copy_data_from, prefers_cpu, allocate_cpu, dummy_cpu, Copy, Tensor.Size, h1, hsz]

omit [Zero R] in
theorem copy_data_from_gpu (tot inn : Nat) (coa : Bool) (w : World R) (s : Ptr)
    (src_on_gpu : Bool) (h1 : inn ≠ 0) (hsz : tot / inn * inn = tot) :
    copy_data_from
        { gpu_fresh := false, allocated_gpu := false, gpu_ptr := none,
          clear_on_allocation := coa, cpu_fresh := false, allocated_cpu := false,
          cpu_ptr := none, total_memory := tot, inner_dimension := inn,
          preferred_device := DEVICE_GPU } w
        { dptr_ := some s, shape := (tot / inn, inn) } src_on_gpu =
      some
        ({ bank := (w.bank.allocate_gpu w.runtime tot inn).2.1
           runtime := (w.bank.allocate_gpu w.runtime tot inn).2.2
           cpu := w.cpu
           gpu := fun q i =>
             if q = (w.bank.allocate_gpu w.runtime tot inn).1 ∧ i < tot then
               (if src_on_gpu = true then w.gpu else w.cpu) s i
             else w.gpu q i },
         { gpu_fresh := true, allocated_gpu := true,
           gpu_ptr := some (w.bank.allocate_gpu w.runtime tot inn).1,
           clear_on_allocation := coa, cpu_fresh := false, allocated_cpu := false,
           cpu_ptr := none, total_memory := tot,
           inner_dimension := inn, preferred_device := DEVICE_GPU }) := by
  simp [copy_data_from, prefers_cpu, allocate_gpu, dummy_gpu, Copy, Tensor.Size, h1, hsz]

omit [Zero R] in
theorem copy_construct_spec (other : SynchronizedMemory) (w : World R)
    (hc : Consistent other) :
    ∃ w' m', other.copy_construct w = some (w', m') ∧ Consistent m' ∧
      m'.total_memory = other.total_memory ∧
      m'.inner_dimension = other.inner_dimension ∧
      m'.preferred_device = other.preferred_device ∧
      m'.clear_on_allocation = other.clear_on_allocation ∧
      (m'.cpu_fresh = true → m'.gpu_fresh = false) ∧
      (other.cpu_fresh = false → other.gpu_fresh = false →
        w' = w ∧ m'.allocated_cpu = false ∧ m'.allocated_gpu = false ∧
        m'.cpu_ptr = none ∧ m'.gpu_ptr = none ∧
        m'.cpu_fresh = false ∧ m'.gpu_fresh = false) ∧
      ((other.cpu_fresh = true ∨ other.gpu_fresh = true) →
        ∃ p s,
          (other.cpu_fresh = true → other.cpu_ptr = some s) ∧
          (other.cpu_fresh = false → other.gpu_ptr = some s) ∧
          (∀ i, i < other.total_memory →
            (if other.cpu_fresh = true then w'.cpu else w'.gpu) s i =
              (if other.cpu_fresh = true then w.cpu else w.gpu) s i) ∧
          (other.preferred_device = DEVICE_CPU →
            p = (w.bank.allocate_cpu w.runtime other.total_memory other.inner_dimension).1 ∧
            m'.cpu_ptr = some p ∧ m'.allocated_cpu = true ∧ m'.cpu_fresh = true ∧
            m'.gpu_ptr = none ∧ m'.allocated_gpu = false ∧ m'.gpu_fresh = false ∧
            w'.gpu = w.gpu ∧ (∀ q, q ≠ p → w'.cpu q = w.cpu q) ∧
            (∀ i, i < other.total_memory →
              w'.cpu p i = (if other.cpu_fresh = true then w.cpu else w.gpu) s i)) ∧
          (other.preferred_device = DEVICE_GPU →
            p = (w.bank.allocate_gpu w.runtime other.total_memory other.inner_dimension).1 ∧
            m'.gpu_ptr = some p ∧ m'.allocated_gpu = true ∧ m'.gpu_fresh = true ∧
            m'.cpu_ptr = none ∧ m'.allocated_cpu = false ∧ m'.cpu_fresh = false ∧
            w'.cpu = w.cpu ∧ (∀ q, q ≠ p → w'.gpu q = w.gpu q) ∧
            (∀ i, i < other.total_memory →
              w'.gpu p i = (if other.cpu_fresh = true then w.cpu else w.gpu) s i))) := by
  have hsz := div_mul_inner other hc
  obtain ⟨h1, h2, h3, h4, h5, h6⟩ := hc
  obtain ⟨gf, ag, gp, coa, cf, ac, cp, tot, inn, dev⟩ := other
  simp only at h1 h2 h3 h4 h5 h6 hsz
  have hcon : construct tot inn dev coa = some
      { gpu_fresh := false, allocated_gpu := false, gpu_ptr := none,
        clear_on_allocation := coa, cpu_fresh := false, allocated_cpu := false,
        cpu_ptr := none, total_memory := tot, inner_dimension := inn,
        preferred_device := dev } := by
    simp [construct, h1, h2]
  cases cf
  · cases gf
    · refine ⟨w, _, by simp only [copy_construct, hcon]; rfl, ?_⟩
      simp [Consistent, h1, h2]
    · obtain ⟨g, hg⟩ := Option.isSome_iff_exists.mp (h5 (h6 rfl))
      subst hg
      cases dev
      · refine ⟨_, _, by
          simp only [copy_construct, hcon, dummy_gpu, h1]
          exact copy_data_from_gpu tot inn coa w g true h1 hsz, ?_⟩
        simp [Consistent, h1, h2]
        refine ⟨?_, ?_⟩
        · intro q hq; funext i; simp [hq]
        · intro i hi hle; omega
      · refine ⟨_, _, by
          simp only [copy_construct, hcon, dummy_gpu, h1]
          exact copy_data_from_cpu tot inn coa w g true h1 hsz, ?_⟩
        simp [Consistent, h1, h2]
        refine ⟨?_, ?_⟩
        · intro q hq; funext i; simp [hq]
        · intro i hi hle; omega
  · obtain ⟨c, hcp⟩ := Option.isSome_iff_exists.mp (h3 (h4 rfl))
    subst hcp
    cases dev
    · refine ⟨_, _, by
        simp only [copy_construct, hcon, dummy_cpu, h1]
        exact copy_data_from_gpu tot inn coa w c false h1 hsz, ?_⟩
      simp [Consistent, h1, h2]
      refine ⟨?_, ?_⟩
      · intro q hq; funext i; simp [hq]
      · intro i hi hle; omega
    · refine ⟨_, _, by
        simp only [copy_construct, hcon, dummy_cpu, h1]
        exact copy_data_from_cpu tot inn coa w c false h1 hsz, ?_⟩
      simp [Consistent, h1, h2]
      refine ⟨?_, ?_⟩
      · intro q hq; funext i; simp [hq]
      · intro i hi hle; omega

theorem consistent_construct {total inner : Nat} {dev : Device} {clr : Bool}
    {m : SynchronizedMemory} (h : construct total inner dev clr = some m) :
    Consistent m ∧ m.cpu_fresh = false ∧ m.gpu_fresh = false ∧
      m.allocated_cpu = false ∧ m.allocated_gpu = false ∧
      m.cpu_ptr = none ∧ m.gpu_ptr = none ∧ m.total_memory = total ∧
      m.inner_dimension = inner ∧ m.preferred_device = dev ∧
      m.clear_on_allocation = clr := by
  unfold construct at h
  split at h
  · cases h
  · split at h
    · cases h
    · rename_i h1 h2
      simp only [Option.some.injEq] at h
      subst h
      simp only [ne_eq, Decidable.not_not] at h2
      simp [Consistent, h1, h2]

theorem reachable_inv {w : World R} {m : SynchronizedMemory} (h : Reachable w m) :
    Consistent m ∧ Synced w m := by
  induction h with
  | construct w total inner dev clr m h =>
    have := consistent_construct h
    refine ⟨this.1, ?_⟩
    intro hcf
    simp [this.2.1] at hcf
  | copy _ hcopy ih =>
    obtain ⟨w2, m2, heq, hcon, -, -, -, -, hex, -⟩ := copy_construct_spec _ _ ih.1
    rw [heq] at hcopy
    simp only [Option.some.injEq, Prod.mk.injEq] at hcopy
    obtain ⟨rfl, rfl⟩ := hcopy
    refine ⟨hcon, ?_⟩
    intro hcf hgf
    simp [hex hcf] at hgf
  | @cpu_data w w' m m' p _ hstep ih =>
    obtain ⟨w2, m2, p2, heq, hp, hcon, hcf2, -, hgf2, -, hgp2, htot, -, -, -, hgpu, -, hsame,
      hcopy, -, -⟩ := to_cpu_spec m w ih.1
    simp only [cpu_data, heq, Option.some.injEq, Prod.mk.injEq] at hstep
    obtain ⟨-, rfl, rfl⟩ := hstep
    refine ⟨hcon, ?_⟩
    intro _ hgf
    by_cases hcf : m.cpu_fresh = true
    · obtain ⟨rfl, rfl⟩ := hsame hcf
      exact ih.2 hcf hgf
    · have hcf' : m.cpu_fresh = false := by simpa using hcf
      obtain ⟨g, hg, hall⟩ := hcopy hcf' (hgf2 ▸ hgf)
      refine ⟨p2, g, hp, hgp2.trans hg, ?_⟩
      intro i hi
      rw [hgpu]
      exact hall i (htot ▸ hi)
  | @gpu_data w w' m m' p _ hstep ih =>
    obtain ⟨w2, m2, p2, heq, hp, hcon, hgf2, -, hcf2, -, hcp2, htot, -, -, -, hcpu, -, hsame,
      hcopy, -, -⟩ := to_gpu_spec m w ih.1
    simp only [gpu_data, heq, Option.some.injEq, Prod.mk.injEq] at hstep
    obtain ⟨-, rfl, rfl⟩ := hstep
    refine ⟨hcon, ?_⟩
    intro hcf _
    by_cases hgf : m.gpu_fresh = true
    · obtain ⟨rfl, rfl⟩ := hsame hgf
      exact ih.2 hcf hgf
    · have hgf' : m.gpu_fresh = false := by simpa using hgf
      obtain ⟨c, hc, hall⟩ := hcopy hgf' (hcf2 ▸ hcf)
      refine ⟨c, p2, hcp2.trans hc, hp, ?_⟩
      intro i hi
      rw [hcpu]
      exact (hall i (htot ▸ hi)).symm
  | @mutable_cpu_data w w' m m' p f _ hstep ih =>
    obtain ⟨w2, m2, p2, heq, -, hcon, -⟩ := to_cpu_spec m w ih.1
    simp only [mutable_cpu_data, heq, Option.some.injEq, Prod.mk.injEq] at hstep
    obtain ⟨-, rfl, rfl⟩ := hstep
    obtain ⟨h1, h2, h3, h4, h5, h6⟩ := hcon
    refine ⟨⟨h1, h2, h3, h4, h5, fun h => by simp at h⟩, ?_⟩
    intro _ hgf
    simp at hgf
  | @mutable_gpu_data w w' m m' p f _ hstep ih =>
    obtain ⟨w2, m2, p2, heq, -, hcon, -⟩ := to_gpu_spec m w ih.1
    simp only [mutable_gpu_data, heq, Option.some.injEq, Prod.mk.injEq] at hstep
    obtain ⟨-, rfl, rfl⟩ := hstep
    obtain ⟨h1, h2, h3, h4, h5, h6⟩ := hcon
    refine ⟨⟨h1, h2, h3, fun h => by simp at h, h5, h6⟩, ?_⟩
    intro hcf
    simp at hcf
  | @clear w w' m m' _ hstep ih =>
    obtain ⟨w2, m2, p2, heq, hcon, -, -, -, -, hg, hc⟩ := clear_spec m w ih.1
    rw [heq] at hstep
    simp only [Option.some.injEq, Prod.mk.injEq] at hstep
    obtain ⟨rfl, rfl⟩ := hstep
    refine ⟨hcon, ?_⟩
    intro hcf hgf
    cases hdev : m.preferred_device
    · simp [(hg hdev).2.2.2.1] at hcf
    · simp [(hc hdev).2.2.2.1] at hgf
  | @lazy_clear w w' m m' _ hstep ih =>
    rw [lazy_clear_eq] at hstep
    split at hstep
    · obtain ⟨w2, m2, p2, heq, hcon, -, -, -, -, hg, hc⟩ := clear_spec m w ih.1
      rw [heq] at hstep
      simp only [Option.some.injEq, Prod.mk.injEq] at hstep
      obtain ⟨rfl, rfl⟩ := hstep
      refine ⟨hcon, ?_⟩
      intro hcf hgf
      cases hdev : m.preferred_device
      · simp [(hg hdev).2.2.2.1] at hcf
      · simp [(hc hdev).2.2.2.1] at hgf
    · simp only [Option.some.injEq, Prod.mk.injEq] at hstep
      obtain ⟨rfl, rfl⟩ := hstep
      exact ⟨ih.1, ih.2⟩

omit [Zero R] in
theorem allocate_cpu_flags (m : SynchronizedMemory) (w : World R) :
    (m.allocate_cpu w).2.2.cpu_fresh = m.cpu_fresh ∧
      (m.allocate_cpu w).2.2.gpu_fresh = m.gpu_fresh := by
  unfold allocate_cpu
  split <;> exact ⟨rfl, rfl⟩

omit [Zero R] in
theorem allocate_gpu_flags (m : SynchronizedMemory) (w : World R) :
    (m.allocate_gpu w).2.2.cpu_fresh = m.cpu_fresh ∧
      (m.allocate_gpu w).2.2.gpu_fresh = m.gpu_fresh := by
  unfold allocate_gpu
  split <;> exact ⟨rfl, rfl⟩

theorem to_cpu_flags {m m' : SynchronizedMemory} {w w' : World R}
    (h : m.to_cpu w = some (w', m')) :
    m'.cpu_fresh = true ∧ m'.gpu_fresh = m.gpu_fresh := by
  have hf := allocate_cpu_flags m w
  unfold to_cpu at h
  by_cases hcf : m.cpu_fresh = true
  · simp only [hcf, Bool.not_true, Bool.false_eq_true, if_false, Option.some.injEq,
      Prod.mk.injEq] at h
    obtain ⟨rfl, rfl⟩ := h
    exact ⟨hcf, rfl⟩
  · have hcf' : m.cpu_fresh = false := by simpa using hcf
    simp only [hcf', Bool.not_false, if_true] at h
    split at h <;> (try split at h) <;> (try split at h) <;> (try split at h) <;>
      first
      | contradiction
      | (simp only [Option.some.injEq, Prod.mk.injEq] at h
         obtain ⟨rfl, rfl⟩ := h
         exact ⟨rfl, hf.2⟩)

theorem to_gpu_flags {m m' : SynchronizedMemory} {w w' : World R}
    (h : m.to_gpu w = some (w', m')) :
    m'.gpu_fresh = true ∧ m'.cpu_fresh = m.cpu_fresh := by
  have hf := allocate_gpu_flags m w
  unfold to_gpu at h
  by_cases hcf : m.gpu_fresh = true
  · simp only [hcf, Bool.not_true, Bool.false_eq_true, if_false, Option.some.injEq,
      Prod.mk.injEq] at h
    obtain ⟨rfl, rfl⟩ := h
    exact ⟨hcf, rfl⟩
  · have hcf' : m.gpu_fresh = false := by simpa using hcf
    simp only [hcf', Bool.not_false, if_true] at h
    split at h <;> (try split at h) <;> (try split at h) <;> (try split at h) <;>
      first
      | contradiction
      | (simp only [Option.some.injEq, Prod.mk.injEq] at h
         obtain ⟨rfl, rfl⟩ := h
         exact ⟨rfl, hf.1⟩)

/-! ### The claims -/

/-- C1: in every reachable state in which the host side and the device side
are both marked fresh, both buffers exist and hold equal elements at every
index below `total_memory`. -/
theorem fresh_sides_agree {w : World R} {m : SynchronizedMemory} (h : Reachable w m)
    (hc : m.cpu_fresh = true) (hg : m.gpu_fresh = true) :
    ∃ c g, m.cpu_ptr = some c ∧ m.gpu_ptr = some g ∧
      ∀ i, i < m.total_memory → w.cpu c i = w.gpu g i :=
  (reachable_inv h).2 hc hg

/-- C1 at the state reached by constructing a host-preferring memory,
calling `mutable_cpu_data()`, writing four elements and calling
`gpu_data()`. -/
theorem fresh_sides_agree_witness :
    Reachable both_fresh.2.1 both_fresh.2.2 ∧
    both_fresh.2.2.cpu_fresh = true ∧ both_fresh.2.2.gpu_fresh = true ∧
    ∃ c g, both_fresh.2.2.cpu_ptr = some c ∧ both_fresh.2.2.gpu_ptr = some g ∧
      ∀ i, i < both_fresh.2.2.total_memory →
        both_fresh.2.1.cpu c i = both_fresh.2.1.gpu g i :=
  have h0 : Reachable world0 mem_cpu0 :=
    Reachable.construct world0 4 2 DEVICE_CPU true mem_cpu0 rfl
  have h1 : Reachable host_written.1 host_written.2 :=
    @Reachable.mutable_cpu_data Int _ world0 host_mutable.2.1 mem_cpu0 host_mutable.2.2
      host_mutable.1 (fun i => (i : Int) + 10) h0 rfl
  have h2 : Reachable both_fresh.2.1 both_fresh.2.2 :=
    @Reachable.gpu_data Int _ host_written.1 both_fresh.2.1 host_written.2 both_fresh.2.2
      both_fresh.1 h1 rfl
  ⟨h2, rfl, rfl, fresh_sides_agree h2 rfl rfl⟩

/-- C2 (the code departs from the claim): with only the device buffer
allocated, `lazy_clear()` sets `clear_on_allocation` and returns; the device
buffer keeps its old elements and stays marked fresh, whereas `clear()` in
the same state zero-fills it. -/
theorem lazy_clear_device_only :
    device_only.2.allocated_gpu = true ∧ device_only.2.allocated_cpu = false ∧
    (device_only.2.lazy_clear device_only.1).map
        (fun r => ((List.range 4).map (r.1.gpu 6), r.2)) =
      some ([-7, -8, -9, -10], { device_only.2 with clear_on_allocation := true }) ∧
    (device_only.2.clear device_only.1).map
        (fun r => ((List.range 4).map (r.1.gpu 6), r.2)) =
      some ([0, 0, 0, 0], { device_only.2 with clear_on_allocation := true }) := by
  decide

/-- C4: on a memory satisfying the class invariant, `cpu_data()` returns the
host pointer and leaves the host side fresh, the device side's flag, pointer
and whole address space as they were; if the host side was stale and the
device side fresh, the host buffer afterwards equals the device buffer at
every index below `total_memory`; if the host side was already fresh,
nothing changes. The same holds for `gpu_data()` with the sides swapped. -/
theorem cpu_data_gpu_data_contract (m : SynchronizedMemory) (w : World R)
    (hc : Consistent m) :
    (∃ p w' m', m.cpu_data w = some (some p, w', m') ∧ m'.cpu_ptr = some p ∧
      m'.cpu_fresh = true ∧ m'.gpu_fresh = m.gpu_fresh ∧ m'.gpu_ptr = m.gpu_ptr ∧
      m'.allocated_gpu = m.allocated_gpu ∧ w'.gpu = w.gpu ∧
      (m.cpu_fresh = false → m.gpu_fresh = true →
        ∃ g, m'.gpu_ptr = some g ∧ ∀ i, i < m.total_memory → w'.cpu p i = w'.gpu g i) ∧
      (m.cpu_fresh = true → w' = w ∧ m' = m)) ∧
    (∃ p w' m', m.gpu_data w = some (some p, w', m') ∧ m'.gpu_ptr = some p ∧
      m'.gpu_fresh = true ∧ m'.cpu_fresh = m.cpu_fresh ∧ m'.cpu_ptr = m.cpu_ptr ∧
      m'.allocated_cpu = m.allocated_cpu ∧ w'.cpu = w.cpu ∧
      (m.gpu_fresh = false → m.cpu_fresh = true →
        ∃ c, m'.cpu_ptr = some c ∧ ∀ i, i < m.total_memory → w'.gpu p i = w'.cpu c i) ∧
      (m.gpu_fresh = true → w' = w ∧ m' = m)) := by
  constructor
  · obtain ⟨w2, m2, p2, heq, hp, -, hcf, -, hgf, hag, hgp, -, -, -, -, hgpu, -, hsame, hcopy,
      -, -⟩ := to_cpu_spec m w hc
    refine ⟨p2, w2, m2, by simp [cpu_data, heq, hp], hp, hcf, hgf, hgp, hag, hgpu, ?_, hsame⟩
    intro h1 h2
    obtain ⟨g, hg, hall⟩ := hcopy h1 h2
    exact ⟨g, hgp.trans hg, fun i hi => by rw [hgpu]; exact hall i hi⟩
  · obtain ⟨w2, m2, p2, heq, hp, -, hgf, -, hcf, hac, hcp, -, -, -, -, hcpu, -, hsame, hcopy,
      -, -⟩ := to_gpu_spec m w hc
    refine ⟨p2, w2, m2, by simp [gpu_data, heq, hp], hp, hgf, hcf, hcp, hac, hcpu, ?_, hsame⟩
    intro h1 h2
    obtain ⟨c, hc', hall⟩ := hcopy h1 h2
    exact ⟨c, hcp.trans hc', fun i hi => by rw [hcpu]; exact hall i hi⟩

/-- C4 at three states: `cpu_data()` on the memory whose device side alone
is fresh (the host buffer then equals the device buffer), `gpu_data()` on the
memory whose host side alone is fresh and holds `10, 11, 12, 13`, and
`gpu_data()` on the memory whose device side is already fresh (nothing
changes). -/
theorem cpu_data_gpu_data_contract_witness :
    (Consistent device_only.2 ∧ device_only.2.cpu_fresh = false ∧
      device_only.2.gpu_fresh = true ∧
      ∃ p w' m', device_only.2.cpu_data device_only.1 = some (some p, w', m') ∧
        m'.cpu_fresh = true ∧ m'.gpu_fresh = true ∧ w'.gpu = device_only.1.gpu ∧
        ∃ g, m'.gpu_ptr = some g ∧ ∀ i, i < 4 → w'.cpu p i = w'.gpu g i) ∧
    (Consistent host_written.2 ∧ host_written.2.gpu_fresh = false ∧
      host_written.2.cpu_fresh = true ∧
      ∃ p w' m', host_written.2.gpu_data host_written.1 = some (some p, w', m') ∧
        m'.gpu_fresh = true ∧ m'.cpu_fresh = true ∧ w'.cpu = host_written.1.cpu ∧
        ∃ c, m'.cpu_ptr = some c ∧ ∀ i, i < 4 → w'.gpu p i = w'.cpu c i) ∧
    (device_only.2.gpu_fresh = true ∧
      ∃ p, device_only.2.gpu_data device_only.1 = some (some p, device_only.1, device_only.2)) := by
  refine ⟨⟨by decide, rfl, rfl, ?_⟩, ⟨by decide, rfl, rfl, ?_⟩, rfl, ?_⟩
  · obtain ⟨⟨p, w', m', h1, -, h3, h4, -, -, h7, h8, -⟩, -⟩ :=
      cpu_data_gpu_data_contract device_only.2 device_only.1 (by decide)
    exact ⟨p, w', m', h1, h3, h4.trans rfl, h7, h8 rfl rfl⟩
  · obtain ⟨-, p, w', m', h1, -, h3, h4, -, -, h7, h8, -⟩ :=
      cpu_data_gpu_data_contract host_written.2 host_written.1 (by decide)
    exact ⟨p, w', m', h1, h3, h4.trans rfl, h7, h8 rfl rfl⟩
  · obtain ⟨-, p, w', m', h1, -, -, -, -, -, -, -, h9⟩ :=
      cpu_data_gpu_data_contract device_only.2 device_only.1 (by decide)
    obtain ⟨rfl, rfl⟩ := h9 rfl
    exact ⟨p, h1⟩

/-- C5: whenever `mutable_cpu_data()` returns, from any prior state, the host
side is fresh and the device side stale; whenever `mutable_gpu_data()`
returns, the device side is fresh and the host side stale. On a memory
satisfying the class invariant both calls do return, with the pointer of the
touched side, leave the other address space as it was, and the touched
buffer holds the other side's elements if the touched side was stale and the
other side fresh. -/
theorem mutable_data_contract (m : SynchronizedMemory) (w : World R) :
    (∀ p w' m', m.mutable_cpu_data w = some (p, w', m') →
      m'.cpu_fresh = true ∧ m'.gpu_fresh = false) ∧
    (∀ p w' m', m.mutable_gpu_data w = some (p, w', m') →
      m'.gpu_fresh = true ∧ m'.cpu_fresh = false) ∧
    (Consistent m →
      (∃ p w' m', m.mutable_cpu_data w = some (some p, w', m') ∧ m'.cpu_ptr = some p ∧
        m'.cpu_fresh = true ∧ m'.gpu_fresh = false ∧ w'.gpu = w.gpu ∧
        (m.cpu_fresh = false → m.gpu_fresh = true →
          ∃ g, m.gpu_ptr = some g ∧ ∀ i, i < m.total_memory → w'.cpu p i = w.gpu g i)) ∧
      (∃ p w' m', m.mutable_gpu_data w = some (some p, w', m') ∧ m'.gpu_ptr = some p ∧
        m'.gpu_fresh = true ∧ m'.cpu_fresh = false ∧ w'.cpu = w.cpu ∧
        (m.gpu_fresh = false → m.cpu_fresh = true →
          ∃ c, m.cpu_ptr = some c ∧ ∀ i, i < m.total_memory → w'.gpu p i = w.cpu c i))) := by
  refine ⟨?_, ?_, ?_⟩
  · intro p w' m' h
    unfold mutable_cpu_data at h
    split at h
    · rename_i w1 m1 heq
      simp only [Option.some.injEq, Prod.mk.injEq] at h
      obtain ⟨-, -, rfl⟩ := h
      exact ⟨(to_cpu_flags heq).1, rfl⟩
    · cases h
  · intro p w' m' h
    unfold mutable_gpu_data at h
    split at h
    · rename_i w1 m1 heq
      simp only [Option.some.injEq, Prod.mk.injEq] at h
      obtain ⟨-, -, rfl⟩ := h
      exact ⟨(to_gpu_flags heq).1, rfl⟩
    · cases h
  · intro hc
    constructor
    · obtain ⟨w2, m2, p2, heq, hp, -, hcf, -, -, -, -, -, -, -, -, hgpu, -, -, hcopy, -, -⟩ :=
        to_cpu_spec m w hc
      exact ⟨p2, w2, { m2 with gpu_fresh := false }, by simp [mutable_cpu_data, heq, hp], hp,
        hcf, rfl, hgpu, hcopy⟩
    · obtain ⟨w2, m2, p2, heq, hp, -, hgf, -, -, -, -, -, -, -, -, hcpu, -, -, hcopy, -, -⟩ :=
        to_gpu_spec m w hc
      exact ⟨p2, w2, { m2 with cpu_fresh := false }, by simp [mutable_gpu_data, heq, hp], hp,
        hgf, rfl, hcpu, hcopy⟩

/-- C5 at the memory whose device side alone is fresh: `mutable_cpu_data()`
returns, the host side is then the only fresh side and holds the device
side's elements; and at the memory whose host side alone is fresh:
`mutable_gpu_data()` returns, the device side is then the only fresh side
and holds the host side's elements. -/
theorem mutable_data_contract_witness :
    (Consistent device_only.2 ∧ device_only.2.cpu_fresh = false ∧
      device_only.2.gpu_fresh = true ∧
      ∃ p w' m', device_only.2.mutable_cpu_data device_only.1 = some (some p, w', m') ∧
        m'.cpu_fresh = true ∧ m'.gpu_fresh = false ∧ w'.gpu = device_only.1.gpu ∧
        ∃ g, device_only.2.gpu_ptr = some g ∧
          ∀ i, i < 4 → w'.cpu p i = device_only.1.gpu g i) ∧
    (Consistent host_written.2 ∧ host_written.2.gpu_fresh = false ∧
      host_written.2.cpu_fresh = true ∧
      ∃ p w' m', host_written.2.mutable_gpu_data host_written.1 = some (some p, w', m') ∧
        m'.gpu_fresh = true ∧ m'.cpu_fresh = false ∧ w'.cpu = host_written.1.cpu ∧
        ∃ c, host_written.2.cpu_ptr = some c ∧
          ∀ i, i < 4 → w'.gpu p i = host_written.1.cpu c i) := by
  refine ⟨⟨by decide, rfl, rfl, ?_⟩, ⟨by decide, rfl, rfl, ?_⟩⟩
  · obtain ⟨hflag, -, hret⟩ := mutable_data_contract device_only.2 device_only.1
    obtain ⟨⟨p, w', m', h1, -, -, -, h5, h6⟩, -⟩ := hret (by decide)
    obtain ⟨h3, h4⟩ := hflag _ _ _ h1
    exact ⟨p, w', m', h1, h3, h4, h5, h6 rfl rfl⟩
  · obtain ⟨-, hflag, hret⟩ := mutable_data_contract host_written.2 host_written.1
    obtain ⟨-, p, w', m', h1, -, -, -, h5, h6⟩ := hret (by decide)
    obtain ⟨h3, h4⟩ := hflag _ _ _ h1
    exact ⟨p, w', m', h1, h3, h4, h5, h6 rfl rfl⟩

/-- C6: a memory just constructed has no buffer and no fresh side; when it
was constructed with `clear_on_allocation` set, its first `cpu_data()` (or
`gpu_data()`) call in any world returns the buffer the bank's `allocate_cpu`
(`allocate_gpu`) hands out, recycled or new, marks the side allocated, and
every one of the `total_memory` elements of that buffer is zero. -/
theorem construct_then_first_access (total inner : Nat) (dev : Device) (clr : Bool)
    (m : SynchronizedMemory) (h : construct total inner dev clr = some m) :
    (m.allocated_cpu = false ∧ m.allocated_gpu = false ∧ m.cpu_ptr = none ∧
      m.gpu_ptr = none ∧ m.cpu_fresh = false ∧ m.gpu_fresh = false) ∧
    (clr = true → ∀ w : World R,
      (∃ p w' m', m.cpu_data w = some (some p, w', m') ∧
        p = (w.bank.allocate_cpu w.runtime total inner).1 ∧
        m'.allocated_cpu = true ∧ m'.cpu_ptr = some p ∧
        ∀ i, i < total → w'.cpu p i = 0) ∧
      (∃ p w' m', m.gpu_data w = some (some p, w', m') ∧
        p = (w.bank.allocate_gpu w.runtime total inner).1 ∧
        m'.allocated_gpu = true ∧ m'.gpu_ptr = some p ∧
        ∀ i, i < total → w'.gpu p i = 0)) := by
  obtain ⟨hc, hcf, hgf, hac, hag, hcp, hgp, htot, hinn, -, hclr⟩ := consistent_construct h
  refine ⟨⟨hac, hag, hcp, hgp, hcf, hgf⟩, ?_⟩
  intro hclr' w
  subst hclr'
  constructor
  · obtain ⟨w2, m2, p2, heq, hp, -, -, hal, -, -, -, -, -, -, -, -, -, -, -, hzero, hnew⟩ :=
      to_cpu_spec m w hc
    refine ⟨p2, w2, m2, by simp [cpu_data, heq, hp], ?_, hal, hp, ?_⟩
    · rw [hnew hcf hac, htot, hinn]
    · intro i hi
      exact hzero hcf hgf hac hclr i (htot ▸ hi)
  · obtain ⟨w2, m2, p2, heq, hp, -, -, hal, -, -, -, -, -, -, -, -, -, -, -, hzero, hnew⟩ :=
      to_gpu_spec m w hc
    refine ⟨p2, w2, m2, by simp [gpu_data, heq, hp], ?_, hal, hp, ?_⟩
    · rw [hnew hgf hag, htot, hinn]
    · intro i hi
      exact hzero hgf hcf hag hclr i (htot ▸ hi)

/-- C6 at `SynchronizedMemory(4, 2, DEVICE_CPU, true)` in a world whose bank
hands back the recycled host buffer 5, which holds the non-zero elements
`6, 7, 8, 9`. -/
theorem construct_then_first_access_witness :
    construct 4 2 DEVICE_CPU true = some mem_cpu0 ∧
    (world0.bank.allocate_cpu world0.runtime 4 2).1 = 5 ∧
    (List.range 4).map (world0.cpu 5) = [6, 7, 8, 9] ∧
    ∃ p w' m', mem_cpu0.cpu_data world0 = some (some p, w', m') ∧
      p = (world0.bank.allocate_cpu world0.runtime ((4 : Nat) : Int) ((2 : Nat) : Int)).1 ∧
      m'.allocated_cpu = true ∧ m'.cpu_ptr = some p ∧
      ∀ i, i < 4 → w'.cpu p i = 0 :=
  ⟨rfl, by decide, by decide,
   ((construct_then_first_access 4 2 DEVICE_CPU true mem_cpu0 rfl).2 rfl world0).1⟩

/-- C7: on a memory satisfying the class invariant `clear()` returns; the
buffer of the preferred device is then allocated, each of its `total_memory`
elements is zero, the preferred side is fresh and the other side stale. -/
theorem clear_contract (m : SynchronizedMemory) (w : World R) (hc : Consistent m) :
    ∃ w' m' p, m.clear w = some (w', m') ∧
      (m.preferred_device = DEVICE_GPU →
        m'.allocated_gpu = true ∧ m'.gpu_ptr = some p ∧
        (∀ i, i < m'.total_memory → w'.gpu p i = 0) ∧
        m'.gpu_fresh = true ∧ m'.cpu_fresh = false) ∧
      (m.preferred_device = DEVICE_CPU →
        m'.allocated_cpu = true ∧ m'.cpu_ptr = some p ∧
        (∀ i, i < m'.total_memory → w'.cpu p i = 0) ∧
        m'.cpu_fresh = true ∧ m'.gpu_fresh = false) ∧
      m'.total_memory = m.total_memory ∧ m'.preferred_device = m.preferred_device := by
  obtain ⟨w2, m2, p2, heq, -, -, htot, -, hdev, hg, hc'⟩ := clear_spec m w hc
  refine ⟨w2, m2, p2, heq, ?_, ?_, htot, hdev⟩
  · intro hd
    obtain ⟨h1, h2, h3, h4, h5, -⟩ := hg hd
    exact ⟨h2, h1, fun i hi => h5 i (htot ▸ hi), h3, h4⟩
  · intro hd
    obtain ⟨h1, h2, h3, h4, h5, -⟩ := hc' hd
    exact ⟨h2, h1, fun i hi => h5 i (htot ▸ hi), h3, h4⟩

/-- C7 at the device-preferring memory `device_only`, whose device buffer
holds non-zero elements, and at the host-preferring memory `both_fresh`. -/
theorem clear_contract_witness :
    (Consistent device_only.2 ∧ device_only.2.preferred_device = DEVICE_GPU ∧
      ∃ w' m' p, device_only.2.clear device_only.1 = some (w', m') ∧
        m'.allocated_gpu = true ∧ m'.gpu_ptr = some p ∧
        (∀ i, i < m'.total_memory → w'.gpu p i = 0) ∧
        m'.gpu_fresh = true ∧ m'.cpu_fresh = false) ∧
    (Consistent both_fresh.2.2 ∧ both_fresh.2.2.preferred_device = DEVICE_CPU ∧
      ∃ w' m' p, both_fresh.2.2.clear both_fresh.2.1 = some (w', m') ∧
        m'.allocated_cpu = true ∧ m'.cpu_ptr = some p ∧
        (∀ i, i < m'.total_memory → w'.cpu p i = 0) ∧
        m'.cpu_fresh = true ∧ m'.gpu_fresh = false) :=
  ⟨⟨by decide, rfl,
      (clear_contract device_only.2 device_only.1 (by decide)).elim fun w' h =>
        h.elim fun m' h => h.elim fun p h => ⟨w', m', p, h.1, h.2.1 rfl⟩⟩,
   ⟨by decide, rfl,
      (clear_contract both_fresh.2.2 both_fresh.2.1 (by decide)).elim fun w' h =>
        h.elim fun m' h => h.elim fun p h => ⟨w', m', p, h.1, h.2.2.1 rfl⟩⟩⟩

omit [Zero R] in
/-- C8: copying a memory that satisfies the class invariant returns a memory
with the source's `total_memory`, `inner_dimension`, `preferred_device` and
`clear_on_allocation`. If the source has no fresh side the world is
unchanged and the copy has nothing allocated and no fresh side. If it has a
fresh side (the host side when both are), the copy's preferred side is
allocated and fresh and holds the source's fresh elements at every index
below `total_memory`; the source elements read stay as they were, the only
buffer written is the copy's own, and a source buffer held by the source
(not by the bank) is untouched. The source object itself is an argument the
constructor does not return, its members stay as they were. -/
theorem copy_construct_contract (other : SynchronizedMemory) (w : World R)
    (hc : Consistent other) :
    ∃ w' m', other.copy_construct w = some (w', m') ∧
      m'.total_memory = other.total_memory ∧
      m'.inner_dimension = other.inner_dimension ∧
      m'.preferred_device = other.preferred_device ∧
      m'.clear_on_allocation = other.clear_on_allocation ∧
      (other.cpu_fresh = false → other.gpu_fresh = false →
        w' = w ∧ m'.allocated_cpu = false ∧ m'.allocated_gpu = false ∧
        m'.cpu_fresh = false ∧ m'.gpu_fresh = false) ∧
      ((other.cpu_fresh = true ∨ other.gpu_fresh = true) →
        ∃ p s,
          (other.cpu_fresh = true → other.cpu_ptr = some s) ∧
          (other.cpu_fresh = false → other.gpu_ptr = some s) ∧
          (other.preferred_device = DEVICE_CPU →
            m'.allocated_cpu = true ∧ m'.cpu_ptr = some p ∧ m'.cpu_fresh = true ∧
            (∀ i, i < other.total_memory →
              w'.cpu p i = (if other.cpu_fresh = true then w.cpu else w.gpu) s i) ∧
            w'.gpu = w.gpu ∧ ∀ q, q ≠ p → w'.cpu q = w.cpu q) ∧
          (other.preferred_device = DEVICE_GPU →
            m'.allocated_gpu = true ∧ m'.gpu_ptr = some p ∧ m'.gpu_fresh = true ∧
            (∀ i, i < other.total_memory →
              w'.gpu p i = (if other.cpu_fresh = true then w.cpu else w.gpu) s i) ∧
            w'.cpu = w.cpu ∧ ∀ q, q ≠ p → w'.gpu q = w.gpu q) ∧
          (∀ i, i < other.total_memory →
            (if other.cpu_fresh = true then w'.cpu else w'.gpu) s i =
              (if other.cpu_fresh = true then w.cpu else w.gpu) s i)) ∧
      (∀ c, other.cpu_ptr = some c → w.cpu_in_use c → w'.cpu c = w.cpu c) ∧
      (∀ g, other.gpu_ptr = some g → w.gpu_in_use g → w'.gpu g = w.gpu g) := by
  obtain ⟨w2, m2, heq, -, htot, hinn, hdev, hclr, -, hnone, hsome⟩ :=
    copy_construct_spec other w hc
  refine ⟨w2, m2, heq, htot, hinn, hdev, hclr, ?_, ?_, ?_, ?_⟩
  · intro h1 h2
    obtain ⟨a, b, c, -, -, d, e⟩ := hnone h1 h2
    exact ⟨a, b, c, d, e⟩
  · intro hf
    obtain ⟨p, s, h1, h2, h3, h4, h5⟩ := hsome hf
    refine ⟨p, s, h1, h2, ?_, ?_, h3⟩
    · intro hd
      obtain ⟨-, a, b, c, -, -, -, d, e, f⟩ := h4 hd
      exact ⟨b, a, c, f, d, e⟩
    · intro hd
      obtain ⟨-, a, b, c, -, -, -, d, e, f⟩ := h5 hd
      exact ⟨b, a, c, f, d, e⟩
  · intro c _ huse
    by_cases hf : other.cpu_fresh = true ∨ other.gpu_fresh = true
    · obtain ⟨p, s, -, -, -, h4, h5⟩ := hsome hf
      cases hd : other.preferred_device
      · exact congrFun (h5 hd).2.2.2.2.2.2.2.1 c
      · obtain ⟨hp, -, -, -, -, -, -, -, hq, -⟩ := h4 hd
        exact hq c (hp ▸ allocate_cpu_ne_of_in_use w c huse _ _)
    · simp only [not_or, Bool.not_eq_true] at hf
      rw [(hnone hf.1 hf.2).1]
  · intro g _ huse
    by_cases hf : other.cpu_fresh = true ∨ other.gpu_fresh = true
    · obtain ⟨p, s, -, -, -, h4, h5⟩ := hsome hf
      cases hd : other.preferred_device
      · obtain ⟨hp, -, -, -, -, -, -, -, hq, -⟩ := h5 hd
        exact hq g (hp ▸ allocate_gpu_ne_of_in_use w g huse _ _)
      · exact congrFun (h4 hd).2.2.2.2.2.2.2.1 g
    · simp only [not_or, Bool.not_eq_true] at hf
      rw [(hnone hf.1 hf.2).1]

/-- C8 at a device-preferring source whose host side alone is fresh (at the
host address 3, which the bank does not hold): the copy's device buffer
receives the four host elements `4, 5, 6, 7` and the source's host buffer is
untouched. -/
theorem copy_construct_contract_witness :
    Consistent host_fresh ∧ host_fresh.cpu_fresh = true ∧
    host_fresh.preferred_device = DEVICE_GPU ∧ world0.cpu_in_use 3 ∧
    ∃ w' m', host_fresh.copy_construct world0 = some (w', m') ∧
      m'.total_memory = 4 ∧ m'.preferred_device = DEVICE_GPU ∧
      (∃ p s, host_fresh.cpu_ptr = some s ∧
        m'.allocated_gpu = true ∧ m'.gpu_ptr = some p ∧ m'.gpu_fresh = true ∧
        ∀ i, i < 4 → w'.gpu p i = world0.cpu s i) ∧
      w'.cpu 3 = world0.cpu 3 := by
  have huse : world0.cpu_in_use 3 := by
    refine ⟨by decide, ?_⟩
    intro k box hk
    simp only [world0, bank0] at hk
    split at hk
    · simp only [Option.some.injEq] at hk
      subst hk
      decide
    · cases hk
  refine ⟨by decide, rfl, rfl, huse, ?_⟩
  obtain ⟨w', m', heq, htot, -, hdev, -, -, hsome, hcpu, -⟩ :=
    copy_construct_contract host_fresh world0 (by decide)
  obtain ⟨p, s, hs, -, -, hg, -⟩ := hsome (Or.inl rfl)
  obtain ⟨h1, h2, h3, h4, -⟩ := hg rfl
  exact ⟨w', m', heq, htot, hdev, ⟨p, s, hs rfl, h1, h2, h3, h4⟩, hcpu 3 rfl huse⟩

end SynchronizedMemory

/-- C10 at the bank holding the recycled host buffer 5 for 4 elements: the
allocation of 4 elements pops it, an allocation of 8 elements goes to the
runtime. -/
theorem memory_bank_allocate_deposit_policy_witness :
    bank0.cpu_memory_bank 4 = some ([] ++ [5]) ∧
    (bank0.allocate_cpu world0.runtime 4 2).1 = 5 ∧
    (bank0.allocate_cpu world0.runtime 4 2).2.1.cpu_memory_bank 4 = some [] ∧
    (bank0.allocate_cpu world0.runtime 4 2).2.1.num_cpu_allocations = 1 ∧
    bank0.cpu_memory_bank 8 = none ∧
    (bank0.allocate_cpu world0.runtime 8 2).1 = 10 ∧
    (bank0.allocate_cpu world0.runtime 8 2).2.1.num_cpu_allocations = 1 + 1 ∧
    (bank0.allocate_cpu world0.runtime 8 2).2.1.total_cpu_memory = 4 + 8 :=
  have h4 := (memory_bank_allocate_deposit_policy bank0 world0.runtime 4 2 0).1 [] 5 rfl
  have h8 := (memory_bank_allocate_deposit_policy bank0 world0.runtime 8 2 0).2.1 (Or.inl rfl)
  ⟨rfl, h4.1, h4.2.2.1, h4.2.2.2.2.1, rfl, h8.1, h8.2.2.2.1, h8.2.2.2.2⟩

/-! ## Theorems: allocate/deposit cycles -/

section Cycles

theorem memory_bank_cycle_recycle (b : memory_bank) (rt : memory_operations) (amount d : Int)
    (p : Ptr) (h : b.cpu_memory_bank amount = some [p]) :
    (b.cycle rt amount d).1 = p ∧ (b.cycle rt amount d).2.2 = rt ∧
      (b.cycle rt amount d).2.1.cpu_memory_bank amount = some [p] ∧
      (b.cycle rt amount d).2.1.num_cpu_allocations = b.num_cpu_allocations ∧
      (b.cycle rt amount d).2.1.total_cpu_memory = b.total_cpu_memory := by
  simp [memory_bank.cycle, memory_bank.allocate_cpu, memory_bank.deposit_cpu, h]

theorem memory_bank_cycles_recycle (amount d : Int) (p : Ptr) (n : Nat) :
    ∀ (b : memory_bank) (rt : memory_operations), b.cpu_memory_bank amount = some [p] →
      (b.cycles rt amount d n).1 = List.replicate n p ∧
      (b.cycles rt amount d n).2.1.cpu_memory_bank amount = some [p] ∧
      (b.cycles rt amount d n).2.1.num_cpu_allocations = b.num_cpu_allocations ∧
      (b.cycles rt amount d n).2.1.total_cpu_memory = b.total_cpu_memory ∧
      (b.cycles rt amount d n).2.2 = rt := by
  induction n with
  | zero => intro b rt h; exact ⟨rfl, h, rfl, rfl, rfl⟩
  | succ n ih =>
    intro b rt h
    obtain ⟨h1, h2, h3, h4, h5⟩ := memory_bank_cycle_recycle b rt amount d p h
    obtain ⟨i1, i2, i3, i4, i5⟩ := ih (b.cycle rt amount d).2.1 (b.cycle rt amount d).2.2 h3
    simp only [memory_bank.cycles]
    refine ⟨?_, i2, i3.trans h4, i4.trans h5, i5.trans h2⟩
    rw [i1, h1, List.replicate_succ]

/-- C11: from the empty bank, `N >= 1` allocate/deposit cycles of one amount
leave `num_cpu_allocations` at 1 (and `total_cpu_memory` at the amount):
every cycle returns the buffer the runtime handed out in the first cycle,
which ends in the bucket again. A `SynchronizedMemory` performs such a cycle:
its first `cpu_data()` followed by its destructor changes the bank and the
runtime exactly as one cycle of amount `total_memory` does. -/
theorem memory_bank_cycles_one_allocation (rt : memory_operations) (s d : Int) (N : Nat)
    (hN : 1 ≤ N) :
    (memory_bank.empty.cycles rt s d N).2.1.num_cpu_allocations = 1 ∧
    (memory_bank.empty.cycles rt s d N).2.1.total_cpu_memory = s ∧
    (memory_bank.empty.cycles rt s d N).1 = List.replicate N rt.cpu_next ∧
    (memory_bank.empty.cycles rt s d N).2.1.cpu_memory_bank s = some [rt.cpu_next] ∧
    (∀ (R : Type) [Zero R] (w : World R) (total inner : Nat) (dev : Device) (clr : Bool)
        (m : SynchronizedMemory),
      SynchronizedMemory.construct total inner dev clr = some m →
      ∃ p w1 m1, m.cpu_data w = some (some p, w1, m1) ∧
        p = (w.bank.cycle w.runtime total inner).1 ∧
        (m1.destroy w1).1.bank = (w.bank.cycle w.runtime total inner).2.1 ∧
        (m1.destroy w1).1.runtime = (w.bank.cycle w.runtime total inner).2.2 ∧
        (m1.destroy w1).2.allocated_cpu = false ∧ (m1.destroy w1).2.cpu_ptr = none) := by
  obtain ⟨n, rfl⟩ : ∃ n, N = n + 1 := ⟨N - 1, by omega⟩
  have hfirst : (memory_bank.empty.cycle rt s d).1 = rt.cpu_next ∧
      (memory_bank.empty.cycle rt s d).2.1.cpu_memory_bank s = some [rt.cpu_next] ∧
      (memory_bank.empty.cycle rt s d).2.1.num_cpu_allocations = 1 ∧
      (memory_bank.empty.cycle rt s d).2.1.total_cpu_memory = s := by
    simp [memory_bank.cycle, memory_bank.allocate_cpu, memory_bank.allocate_cpu_new,
      memory_bank.deposit_cpu, memory_bank.empty, memory_operations.allocate_cpu_memory]
  obtain ⟨h1, h2, h3, h4⟩ := hfirst
  obtain ⟨i1, i2, i3, i4, -⟩ := memory_bank_cycles_recycle s d rt.cpu_next n
    (memory_bank.empty.cycle rt s d).2.1 (memory_bank.empty.cycle rt s d).2.2 h2
  refine ⟨?_, ?_, ?_, ?_, ?_⟩
  · simp only [memory_bank.cycles]; exact i3.trans h3
  · simp only [memory_bank.cycles]; exact i4.trans h4
  · simp only [memory_bank.cycles]; rw [i1, h1, List.replicate_succ]
  · simp only [memory_bank.cycles]; exact i2
  · intro R _ w total inner dev clr m hm
    unfold SynchronizedMemory.construct at hm
    split at hm
    · cases hm
    split at hm
    · cases hm
    rename_i h1 h2
    simp only [Option.some.injEq] at hm
    subst hm
    have hsz : total / inner * inner = total := by
      simp only [ne_eq, Decidable.not_not] at h2
      exact Nat.div_mul_cancel (Nat.dvd_of_mod_eq_zero h2)
    cases clr
    · refine ⟨(w.bank.allocate_cpu w.runtime total inner).1,
        { w with
          bank := (w.bank.allocate_cpu w.runtime total inner).2.1
          runtime := (w.bank.allocate_cpu w.runtime total inner).2.2 },
        { gpu_fresh := false, allocated_gpu := false, gpu_ptr := none,
          clear_on_allocation := false, cpu_fresh := true, allocated_cpu := true,
          cpu_ptr := some (w.bank.allocate_cpu w.runtime total inner).1,
          total_memory := total, inner_dimension := inner, preferred_device := dev }, ?_, ?_⟩
      · simp [SynchronizedMemory.cpu_data, SynchronizedMemory.to_cpu,
          SynchronizedMemory.allocate_cpu]
      · simp [SynchronizedMemory.destroy, SynchronizedMemory.free_cpu,
          SynchronizedMemory.free_gpu, memory_bank.cycle]
    · refine ⟨(w.bank.allocate_cpu w.runtime total inner).1,
        { bank := (w.bank.allocate_cpu w.runtime total inner).2.1
          runtime := (w.bank.allocate_cpu w.runtime total inner).2.2
          cpu := fun q i =>
            if q = (w.bank.allocate_cpu w.runtime total inner).1 ∧ i < total then 0
            else w.cpu q i
          gpu := w.gpu },
        { gpu_fresh := false, allocated_gpu := false, gpu_ptr := none,
          clear_on_allocation := true, cpu_fresh := true, allocated_cpu := true,
          cpu_ptr := some (w.bank.allocate_cpu w.runtime total inner).1,
          total_memory := total, inner_dimension := inner, preferred_device := dev }, ?_, ?_⟩
      · simp [SynchronizedMemory.cpu_data, SynchronizedMemory.to_cpu,
          SynchronizedMemory.allocate_cpu, SynchronizedMemory.dummy_cpu, Tensor.fill,
          Tensor.Size, h1, hsz]
      · simp [SynchronizedMemory.destroy, SynchronizedMemory.free_cpu,
          SynchronizedMemory.free_gpu, memory_bank.cycle]

/-- C11 at three cycles of amount 4 from the empty bank, and at the memory
`SynchronizedMemory(4, 2, DEVICE_CPU, true)` in `world0`. -/
theorem memory_bank_cycles_one_allocation_witness :
    1 ≤ 3 ∧
    (memory_bank.empty.cycles world0.runtime 4 2 3).2.1.num_cpu_allocations = 1 ∧
    (memory_bank.empty.cycles world0.runtime 4 2 3).1 = [10, 10, 10] ∧
    SynchronizedMemory.construct 4 2 DEVICE_CPU true = some mem_cpu0 ∧
    ∃ p w1 m1, mem_cpu0.cpu_data world0 = some (some p, w1, m1) ∧
      (m1.destroy w1).1.bank.cpu_memory_bank 4 = some [5] ∧
      (m1.destroy w1).1.bank.num_cpu_allocations = world0.bank.num_cpu_allocations := by
  have h := memory_bank_cycles_one_allocation world0.runtime 4 2 3 (by decide)
  refine ⟨by decide, h.1, h.2.2.1, rfl, ?_⟩
  obtain ⟨p, w1, m1, h1, -, h3, -⟩ := h.2.2.2.2 Int world0 4 2 DEVICE_CPU true mem_cpu0 rfl
  refine ⟨p, w1, m1, h1, ?_, ?_⟩
  · rw [h3]; decide
  · rw [h3]; decide

end Cycles

/-! ## Theorems: the strided evaluation plan -/

section StridedPlan

theorem to_index_t_natCast (s : Nat) (h : s < 2 ^ 32) : to_index_t (s : Int) = s := by
  unfold to_index_t
  have : ((s : Int) % (2 ^ 32 : Int)) = s := Int.emod_eq_of_lt (by omega) (by exact_mod_cast h)
  rw [this]
  simp

theorem to_index_t_modEq (t : Int) : ((to_index_t t : Nat) : Int) ≡ t [ZMOD 2 ^ 32] := by
  unfold to_index_t
  rw [Int.toNat_of_nonneg (Int.emod_nonneg _ (by norm_num))]
  exact Int.mod_modEq _ _

theorem to_index_t_lt (t : Int) : to_index_t t < 2 ^ 32 := by
  unfold to_index_t
  have h1 : t % (2 ^ 32 : Int) < 2 ^ 32 := Int.emod_lt_of_pos _ (by norm_num)
  have h0 : 0 ≤ t % (2 ^ 32 : Int) := Int.emod_nonneg _ (by norm_num)
  omega

theorem unravel_append (L : List Nat) (s c : Nat) :
    unravel (L ++ [s]) c = unravel L (c / s) ++ [c % s] := by
  induction L with
  | nil => simp [unravel]
  | cons a L ih =>
    simp only [List.cons_append, unravel, List.append_eq, ih, List.prod_append, List.prod_cons,
      List.prod_nil, mul_one]
    rw [Nat.div_div_eq_div_mul, Nat.mul_comm]

theorem dot_append (xs : List Nat) (ys : List Int) (x : Nat) (y : Int)
    (h : xs.length = ys.length) :
    dot (xs ++ [x]) (ys ++ [y]) = dot xs ys + x * y := by
  unfold dot
  rw [List.zipWith_append _ _ _ _ _ h]
  simp

theorem unravel_length (L : List Nat) (c : Nat) : (unravel L c).length = L.length := by
  induction L with
  | nil => rfl
  | cons a L ih => simp [unravel, ih]

theorem ravel_unravel (L : List Nat) (c : Nat) : ravel L (unravel L c) = c % L.prod := by
  induction L with
  | nil => simp [ravel, unravel, Nat.mod_one]
  | cons a L ih =>
    simp only [unravel, ravel, ih, List.prod_cons]
    rw [Nat.mul_comm a, Nat.mod_mul]
    ring

theorem unravel_lt (L : List Nat) (c : Nat) (hpos : ∀ s ∈ L, 0 < s) :
    List.Forall₂ (fun x s => x < s) (unravel L c) L := by
  induction L with
  | nil => exact List.Forall₂.nil
  | cons a L ih =>
    refine List.Forall₂.cons (Nat.mod_lt _ (hpos a (by simp))) (ih ?_)
    intro s hs
    exact hpos s (by simp [hs])

theorem strided_plan_shape_getD (shape : List Nat) (strides : List Int) (k : Nat)
    (hk : k < shape.length) (hpos : ∀ s ∈ shape, 0 < s ∧ s < 2 ^ 32) :
    to_index_t ((strided_plan shape strides).shape.getD k 0) = shape[k] ∧ 0 < shape[k] := by
  have hmem : shape[k] ∈ shape := List.getElem_mem hk
  have h := hpos _ hmem
  refine ⟨?_, h.1⟩
  have hget : (strided_plan shape strides).shape.getD k 0 = (shape[k] : Int) := by
    simp [strided_plan, List.getD_eq_getElem?_getD, hk]
  rw [hget]
  exact to_index_t_natCast _ h.2

theorem stride_loop_spec (shape : List Nat) (strides : List Int)
    (hlen : strides.length = shape.length) (hpos : ∀ s ∈ shape, 0 < s ∧ s < 2 ^ 32) :
    ∀ k, k ≤ shape.length → ∀ off c, off < 2 ^ 32 →
      ∃ off', (strided_plan shape strides).stride_loop k (off, c) =
          some (off', c / (shape.take k).prod) ∧ off' < 2 ^ 32 ∧
        (off' : Int) ≡ off + dot (unravel (shape.take k) c) (strides.take k) [ZMOD 2 ^ 32] := by
  intro k
  induction k with
  | zero =>
    intro _ off c hoff
    exact ⟨off, by simp [Plan.stride_loop], hoff, by simp [dot, unravel]⟩
  | succ k ih =>
    intro hk off c hoff
    have hk' : k < shape.length := hk
    have hks : k < strides.length := by omega
    obtain ⟨hsh, hsk⟩ := strided_plan_shape_getD shape strides k hk' hpos
    have hst : (strided_plan shape strides).strides.getD k 0 = strides[k] := by
      simp [strided_plan, List.getD_eq_getElem?_getD, List.getElem?_eq_getElem hks]
    obtain ⟨off', heq, hlt, hmod⟩ := ih (by omega)
      ((off + (c % shape[k]) * to_index_t strides[k]) % 2 ^ 32) (c / shape[k])
      (Nat.mod_lt _ (by norm_num))
    refine ⟨off', ?_, hlt, ?_⟩
    · rw [Plan.stride_loop, hsh, hst, if_neg (by omega), heq]
      rw [List.take_succ, List.getElem?_eq_getElem hk', Option.toList_some, List.prod_append,
        List.prod_singleton, Nat.div_div_eq_div_mul, Nat.mul_comm]
    · rw [List.take_succ, List.getElem?_eq_getElem hk', Option.toList_some,
        List.take_succ (l := strides), List.getElem?_eq_getElem hks, Option.toList_some,
        unravel_append, dot_append _ _ _ _ (by
          rw [unravel_length, List.length_take, List.length_take]; omega)]
      refine hmod.trans ?_
      have h1 : (((off + (c % shape[k]) * to_index_t strides[k]) % 2 ^ 32 : Nat) : Int) ≡
          off + ((c % shape[k] : Nat) : Int) * strides[k] [ZMOD 2 ^ 32] := by
        push_cast
        refine (Int.mod_modEq _ _).trans ?_
        exact Int.ModEq.add (Int.ModEq.refl _)
          (Int.ModEq.mul (Int.ModEq.refl _) (to_index_t_modEq _))
      have h2 := Int.ModEq.add h1
        (Int.ModEq.refl (dot (unravel (List.take k shape) (c / shape[k])) (List.take k strides)))
      refine h2.trans ?_
      rw [show (off : Int) + ((c % shape[k] : Nat) : Int) * strides[k] +
          dot (unravel (List.take k shape) (c / shape[k])) (List.take k strides) =
        off + (dot (unravel (List.take k shape) (c / shape[k])) (List.take k strides) +
          ((c % shape[k] : Nat) : Int) * strides[k]) by ring]

theorem dot_nonneg (idx : List Nat) (strides : List Int) (h : ∀ t ∈ strides, 0 ≤ t) :
    0 ≤ dot idx strides := by
  induction idx generalizing strides with
  | nil => simp [dot]
  | cons x xs ih =>
    cases strides with
    | nil => simp [dot]
    | cons t ts =>
      have h1 := ih ts (fun u hu => h u (by simp [hu]))
      have h2 : 0 ≤ (x : Int) * t := mul_nonneg (by omega) (h t (by simp))
      simp only [dot, List.zipWith_cons_cons, List.sum_cons] at h1 ⊢
      omega

theorem modEq_eq_of_bounds {a b : Int} (h : a ≡ b [ZMOD 2 ^ 32]) (ha0 : 0 ≤ a)
    (ha : a < 2 ^ 32) (hb0 : 0 ≤ b) (hb : b < 2 ^ 32) : a = b := by
  have h1 : a % 2 ^ 32 = a := Int.emod_eq_of_lt ha0 ha
  have h2 : b % 2 ^ 32 = b := Int.emod_eq_of_lt hb0 hb
  unfold Int.ModEq at h
  omega

/-- C12: for an `Array` with recorded strides, sizes `s_k` with
`0 < s_k < 2^31` and a position `(i, j)` of its 2-D collapsed view,
`map_indices_using_stride` returns `(new_i, new_j)` with
`new_i * s_last + new_j` congruent modulo `2^32` to
`Σ_{k < n-1} idx_k * st_k + j * st_last`, where `(idx_k)` is the row-major
decomposition of `i` over the leading sizes (every `idx_k < s_k`, and the
tuple has row-major position `i`); the two sides are equal when no stride is
negative and the right-hand side fits `index_t`; `Eval`/`REval` read the
element at index `new_i * s_last + new_j` (in `index_t`) of the wrapped
tensor. -/
theorem map_indices_using_stride_position (shape : List Nat) (strides : List Int)
    (i j : Nat) (hne : shape ≠ []) (hlen : strides.length = shape.length)
    (hpos : ∀ s ∈ shape, 0 < s ∧ s < 2 ^ 31)
    (hi : i < shape.dropLast.prod) (_hi32 : i < 2 ^ 32) (_hj : j < shape.getLast hne) :
    ∃ new_i new_j,
      (strided_plan shape strides).map_indices_using_stride i j = some (new_i, new_j) ∧
      ((new_i * shape.getLast hne + new_j : Nat) : Int) ≡
        dot (unravel shape.dropLast i) strides.dropLast + j * strides.getLastD 0
          [ZMOD 2 ^ 32] ∧
      ((∀ t ∈ strides, 0 ≤ t) →
        dot (unravel shape.dropLast i) strides.dropLast + j * strides.getLastD 0 < 2 ^ 32 →
        ((new_i * shape.getLast hne + new_j : Nat) : Int) =
          dot (unravel shape.dropLast i) strides.dropLast + j * strides.getLastD 0) ∧
      (strided_plan shape strides).Eval i j =
        some ((new_i * shape.getLast hne + new_j) % 2 ^ 32) ∧
      ravel shape.dropLast (unravel shape.dropLast i) = i ∧
      List.Forall₂ (fun x s => x < s) (unravel shape.dropLast i) shape.dropLast := by
  have hpos32 : ∀ s ∈ shape, 0 < s ∧ s < 2 ^ 32 := fun s hs =>
    ⟨(hpos s hs).1, lt_trans (hpos s hs).2 (by norm_num)⟩
  have hn : 0 < shape.length := List.length_pos.mpr hne
  obtain ⟨off, hloop, hofflt, hoffmod⟩ :=
    stride_loop_spec shape strides hlen hpos32 (shape.length - 1) (by omega) 0 i (by norm_num)
  obtain ⟨hsh, hsl⟩ :=
    strided_plan_shape_getD shape strides (shape.length - 1) (by omega) hpos32
  have hlast : shape.getLast hne = shape[shape.length - 1] := List.getLast_eq_getElem _ _
  have hstl : (strided_plan shape strides).strides.getD (shape.length - 1) 0 =
      strides.getLastD 0 := by
    simp [strided_plan, List.getD_eq_getElem?_getD, List.getLast?_eq_getElem?, hlen]
  have hdl : shape.dropLast = shape.take (shape.length - 1) := List.dropLast_eq_take _
  have hds : strides.dropLast = strides.take (shape.length - 1) := by
    rw [List.dropLast_eq_take, hlen]
  have hnd : (strided_plan shape strides).ndim = shape.length := rfl
  have hstride : (strided_plan shape strides).stride_ = shape.getLast hne := by
    simp [strided_plan, List.getLastD_eq_getLast?, List.getLast?_eq_getLast _ hne]
  rw [← hlast] at hsh hsl
  rw [← hdl, ← hds] at hoffmod
  simp only [Nat.cast_zero, zero_add] at hoffmod
  set sl := shape.getLast hne with hsl_def
  set X := dot (unravel shape.dropLast i) strides.dropLast with hX
  set t := strides.getLastD 0 with ht
  have hmap : (strided_plan shape strides).map_indices_using_stride i j =
      some (off / sl, (off % sl + j * to_index_t t) % 2 ^ 32) := by
    rw [Plan.map_indices_using_stride, hnd, if_neg (by omega), hloop]
    simp only [hsh, hstl]
    rw [if_neg (by omega)]
  have hnj : (((off % sl + j * to_index_t t) % 2 ^ 32 : Nat) : Int) ≡
      ((off % sl : Nat) : Int) + j * t [ZMOD 2 ^ 32] := by
    push_cast
    refine (Int.mod_modEq _ _).trans ?_
    exact Int.ModEq.add (Int.ModEq.refl _)
      (Int.ModEq.mul (Int.ModEq.refl _) (to_index_t_modEq _))
  have hsplit : ((off / sl * sl : Nat) : Int) + ((off % sl : Nat) : Int) = off := by
    have := Nat.div_add_mod' off sl
    exact_mod_cast this
  refine ⟨off / sl, (off % sl + j * to_index_t t) % 2 ^ 32, hmap, ?_, ?_, ?_, ?_, ?_⟩
  · have h1 := Int.ModEq.add (Int.ModEq.refl (((off / sl * sl : Nat) : Int))) hnj
    have h2 : ((off / sl * sl + (off % sl + j * to_index_t t) % 2 ^ 32 : Nat) : Int) =
        ((off / sl * sl : Nat) : Int) + (((off % sl + j * to_index_t t) % 2 ^ 32 : Nat) : Int) := by
      push_cast; rfl
    rw [h2]
    refine h1.trans ?_
    rw [← add_assoc, hsplit]
    exact Int.ModEq.add hoffmod (Int.ModEq.refl _)
  · intro hst hfit
    have hX0 : 0 ≤ X := dot_nonneg _ _ (fun u hu => hst u (List.mem_of_mem_dropLast hu))
    have ht0 : 0 ≤ t := by
      rw [ht, List.getLastD_eq_getLast?]
      cases hgl : strides.getLast? with
      | none => simp
      | some u => exact hst u (List.mem_of_getLast?_eq_some hgl)
    have hjt0 : 0 ≤ (j : Int) * t := mul_nonneg (by omega) ht0
    have hoffX : (off : Int) = X :=
      modEq_eq_of_bounds hoffmod (by omega) (by exact_mod_cast hofflt) hX0 (by omega)
    have hmodle : ((off % sl : Nat) : Int) ≤ off := by
      exact_mod_cast Nat.mod_le off sl
    have hnj' : (((off % sl + j * to_index_t t) % 2 ^ 32 : Nat) : Int) =
        ((off % sl : Nat) : Int) + j * t :=
      modEq_eq_of_bounds hnj (by omega)
        (by exact_mod_cast Nat.mod_lt _ (by norm_num : 0 < 2 ^ 32)) (by omega) (by omega)
    have h2 : ((off / sl * sl + (off % sl + j * to_index_t t) % 2 ^ 32 : Nat) : Int) =
        ((off / sl * sl : Nat) : Int) + (((off % sl + j * to_index_t t) % 2 ^ 32 : Nat) : Int) := by
      push_cast; rfl
    rw [h2, hnj', ← add_assoc, hsplit, hoffX]
  · rw [Plan.Eval, hmap, hstride]
    simp [strided_plan]
  · rw [ravel_unravel]
    exact Nat.mod_eq_of_lt hi
  · exact unravel_lt _ _ (fun s hs => (hpos s (List.mem_of_mem_dropLast hs)).1)

/-- C12 at the view `pluck_axis(2, 1)` of a `{2,3,4}` array (sizes `2, 3`,
strides `12, 4`) and the position `(1, 2)`, which is the element at `20` from
the base; and at sizes `1, 2` with strides `12, -2` and the position
`(0, 1)`, which is `-2` from the base, read modulo `2^32`. -/
theorem map_indices_using_stride_position_witness :
    ((strided_plan [2, 3] [12, 4]).map_indices_using_stride 1 2 = some (4, 8) ∧
      (((4 * 3 + 8 : Nat) : Int) = dot (unravel [2] 1) [12] + 2 * 4)) ∧
    ((strided_plan [1, 2] [12, -2]).map_indices_using_stride 0 1 = some (0, 4294967294) ∧
      (((0 * 2 + 4294967294 : Nat) : Int) ≡ dot (unravel [1] 0) [12] + 1 * (-2)
        [ZMOD 2 ^ 32])) := by
  constructor
  · obtain ⟨ni, nj, h1, -, h3, -⟩ := map_indices_using_stride_position [2, 3] [12, 4] 1 2
      (by decide) rfl (by decide) (by decide) (by decide) (by decide)
    have h0 : (strided_plan [2, 3] [12, 4]).map_indices_using_stride 1 2 = some (4, 8) := by
      decide
    rw [h0] at h1
    simp only [Option.some.injEq, Prod.mk.injEq] at h1
    obtain ⟨rfl, rfl⟩ := h1
    exact ⟨h0, h3 (by decide) (by decide)⟩
  · obtain ⟨ni, nj, h1, h2, -⟩ := map_indices_using_stride_position [1, 2] [12, -2] 0 1
      (by decide) rfl (by decide) (by decide) (by decide) (by decide)
    have h0 : (strided_plan [1, 2] [12, -2]).map_indices_using_stride 0 1 =
        some (0, 4294967294) := by
      decide
    rw [h0] at h1
    simp only [Option.some.injEq, Prod.mk.injEq] at h1
    obtain ⟨rfl, rfl⟩ := h1
    exact ⟨h0, h2⟩

end StridedPlan

/-! ## Theorems: row plucking -/

section RowsPluck

variable {R : Type}

theorem addr_inj_col (t : Tensor2) {y y' x x' : Nat} (hx : x < t.stride_) (hx' : x' < t.stride_)
    (h : t.addr y x = t.addr y' x') : y = y' ∧ x = x' := by
  unfold Tensor2.addr at h
  have h1 : y * t.stride_ + x = y' * t.stride_ + x' := by omega
  have hm : (y * t.stride_ + x) % t.stride_ = (y' * t.stride_ + x') % t.stride_ := by rw [h1]
  rw [Nat.mul_add_mod_of_lt hx, Nat.mul_add_mod_of_lt hx'] at hm
  subst hm
  have h2 : y * t.stride_ = y' * t.stride_ := by omega
  exact ⟨Nat.eq_of_mul_eq_mul_right (by omega) h2, rfl⟩

theorem rows_pluck_inner_spec (dest source : Tensor2) (row idx : Nat) (h : Heap R)
    (hbuf : dest.buf ≠ source.buf) (hidx : idx < dest.stride_) (cols : Nat) :
    (∀ c, c < cols → rows_pluck_inner dest source row idx h cols dest.buf (dest.addr c idx) =
        h source.buf (source.addr row c)) ∧
    (∀ q n, (q ≠ dest.buf ∨ ∀ c, c < cols → n ≠ dest.addr c idx) →
      rows_pluck_inner dest source row idx h cols q n = h q n) := by
  induction cols with
  | zero =>
    refine ⟨fun c hc => absurd hc (by omega), fun q n _ => ?_⟩
    simp [rows_pluck_inner]
  | succ m ih =>
    obtain ⟨ih1, ih2⟩ := ih
    have hstep : rows_pluck_inner dest source row idx h (m + 1) =
        heap_write (rows_pluck_inner dest source row idx h m) dest.buf (dest.addr m idx)
          (rows_pluck_inner dest source row idx h m source.buf (source.addr row m)) := by
      simp [rows_pluck_inner, List.range_succ, List.foldl_append]
    have hsrc : rows_pluck_inner dest source row idx h m source.buf (source.addr row m) =
        h source.buf (source.addr row m) := ih2 _ _ (Or.inl (Ne.symm hbuf))
    rw [hstep, hsrc]
    constructor
    · intro c hc
      by_cases hcm : c = m
      · subst hcm
        simp [heap_write]
      · have hne : dest.addr c idx ≠ dest.addr m idx := fun he =>
          hcm (addr_inj_col dest hidx hidx he).1
        simp only [heap_write, hne, and_false, if_false]
        exact ih1 c (by omega)
    · intro q n hq
      have hcond : ¬ (q = dest.buf ∧ n = dest.addr m idx) := by
        rintro ⟨rfl, rfl⟩
        rcases hq with hq | hq
        · exact hq rfl
        · exact hq m (by omega) rfl
      simp only [heap_write, hcond, if_false]
      exact ih2 q n (hq.imp id (fun hq c hc => hq c (by omega)))

theorem rows_pluck_outer_spec (dest source : Tensor2) (indices : List Int) (h : Heap R)
    (hbuf : dest.buf ≠ source.buf) (n : Nat) (hn : n ≤ dest.stride_) :
    (∀ k c, k < n → c < dest.shape_.1 →
      rows_pluck_outer dest source indices h n dest.buf (dest.addr c k) =
        h source.buf (source.addr (indices.getD k 0).toNat c)) ∧
    (∀ q a, (q ≠ dest.buf ∨ ∀ k c, k < n → c < dest.shape_.1 → a ≠ dest.addr c k) →
      rows_pluck_outer dest source indices h n q a = h q a) := by
  induction n with
  | zero =>
    refine ⟨fun k c hk => absurd hk (by omega), fun q a _ => ?_⟩
    simp [rows_pluck_outer]
  | succ m ih =>
    obtain ⟨ih1, ih2⟩ := ih (by omega)
    have hstep : rows_pluck_outer dest source indices h (m + 1) =
        rows_pluck_inner dest source (indices.getD m 0).toNat m
          (rows_pluck_outer dest source indices h m) dest.shape_.1 := by
      simp [rows_pluck_outer, List.range_succ, List.foldl_append]
    obtain ⟨in1, in2⟩ := rows_pluck_inner_spec dest source (indices.getD m 0).toNat m
      (rows_pluck_outer dest source indices h m) hbuf (by omega) dest.shape_.1
    rw [hstep]
    constructor
    · intro k c hk hc
      by_cases hkm : k = m
      · subst hkm
        rw [in1 c hc]
        exact ih2 _ _ (Or.inl (Ne.symm hbuf))
      · rw [in2 _ _ (Or.inr fun c' _ he =>
          hkm (addr_inj_col dest (by omega) (by omega) he).2)]
        exact ih1 k c (by omega) hc
    · intro q a hq
      rw [in2 q a (hq.imp id fun hq c hc => hq m c (by omega) hc)]
      exact ih2 q a (hq.imp id fun hq k c hk hc => hq k c (by omega) hc)

/-- C13: for a destination of shape `[D, K]`, a source `E` of shape `[V, D]` in
another buffer and `K` indices, all in `[0, V)`, the host `rows_pluck`
returns and afterwards `dest[c][k] = E[i_k][c]` for all `c < D`, `k < K`
(also when an index repeats); no element outside the destination changes, in
particular none of `E`. -/
theorem rows_pluck_columns (h : Heap R) (dest source : Tensor2) (indices : List Int)
    (V D : Nat) (hd : dest.shape_ = (D, indices.length)) (hs : source.shape_ = (V, D))
    (hstride : indices.length ≤ dest.stride_)
    (hidx : ∀ r ∈ indices, 0 ≤ r ∧ r < (V : Int)) (hbuf : dest.buf ≠ source.buf) :
    ∃ h', rows_pluck h dest source indices = some h' ∧
      (∀ c k, c < D → k < indices.length →
        h' dest.buf (dest.addr c k) = h source.buf (source.addr (indices.getD k 0).toNat c)) ∧
      (∀ r c, h' source.buf (source.addr r c) = h source.buf (source.addr r c)) ∧
      (∀ q a, (q ≠ dest.buf ∨ ∀ c k, c < D → k < indices.length → a ≠ dest.addr c k) →
        h' q a = h q a) := by
  obtain ⟨o1, o2⟩ := rows_pluck_outer_spec dest source indices h hbuf indices.length hstride
  rw [hd] at o1 o2
  refine ⟨rows_pluck_outer dest source indices h indices.length, ?_, ?_, ?_, ?_⟩
  · have hall : (indices.all fun r => decide (0 ≤ r) && decide (r < (source.shape_.1 : Int)))
        = true := by
      rw [List.all_eq_true]
      intro r hr
      have := hidx r hr
      simp [hs, this.1, this.2]
    simp [rows_pluck, hall]
  · intro c k hc hk
    exact o1 k c hk hc
  · intro r c
    exact o2 _ _ (Or.inl (Ne.symm hbuf))
  · intro q a hq
    exact o2 q a (hq.imp id fun hq k c hk hc => hq c k hc hk)

theorem rows_pluck_backprop_inner_spec [AddCommMonoid R] (dest source : Tensor2)
    (row idx : Nat) (h : Heap R) (hbuf : dest.buf ≠ source.buf) (cols : Nat) :
    (∀ c, c < cols →
      rows_pluck_backprop_inner dest source row idx h cols dest.buf (dest.addr row c) =
        h dest.buf (dest.addr row c) + h source.buf (source.addr c idx)) ∧
    (∀ q n, (q ≠ dest.buf ∨ ∀ c, c < cols → n ≠ dest.addr row c) →
      rows_pluck_backprop_inner dest source row idx h cols q n = h q n) := by
  induction cols with
  | zero =>
    refine ⟨fun c hc => absurd hc (by omega), fun q n _ => ?_⟩
    simp [rows_pluck_backprop_inner]
  | succ m ih =>
    obtain ⟨ih1, ih2⟩ := ih
    have hstep : rows_pluck_backprop_inner dest source row idx h (m + 1) =
        heap_write (rows_pluck_backprop_inner dest source row idx h m) dest.buf
          (dest.addr row m)
          (rows_pluck_backprop_inner dest source row idx h m dest.buf (dest.addr row m) +
            rows_pluck_backprop_inner dest source row idx h m source.buf
              (source.addr m idx)) := by
      simp [rows_pluck_backprop_inner, List.range_succ, List.foldl_append]
    have hsrc : rows_pluck_backprop_inner dest source row idx h m source.buf
        (source.addr m idx) = h source.buf (source.addr m idx) :=
      ih2 _ _ (Or.inl (Ne.symm hbuf))
    have hdst : rows_pluck_backprop_inner dest source row idx h m dest.buf
        (dest.addr row m) = h dest.buf (dest.addr row m) :=
      ih2 _ _ (Or.inr fun c hc he => by
        unfold Tensor2.addr at he
        omega)
    rw [hstep, hsrc, hdst]
    constructor
    · intro c hc
      by_cases hcm : c = m
      · subst hcm
        simp [heap_write]
      · have hne : dest.addr row c ≠ dest.addr row m := fun he => by
          unfold Tensor2.addr at he
          omega
        simp only [heap_write, hne, and_false, if_false]
        exact ih1 c (by omega)
    · intro q n hq
      have hcond : ¬ (q = dest.buf ∧ n = dest.addr row m) := by
        rintro ⟨rfl, rfl⟩
        rcases hq with hq | hq
        · exact hq rfl
        · exact hq m (by omega) rfl
      simp only [heap_write, hcond, if_false]
      exact ih2 q n (hq.imp id (fun hq c hc => hq c (by omega)))

theorem rows_pluck_backprop_outer_spec [AddCommMonoid R] (dest source : Tensor2)
    (indices : List Int) (h : Heap R) (hbuf : dest.buf ≠ source.buf)
    (hcols : dest.shape_.2 ≤ dest.stride_) (n : Nat) :
    (∀ r c, c < dest.shape_.2 →
      rows_pluck_backprop_outer dest source indices h n dest.buf (dest.addr r c) =
        h dest.buf (dest.addr r c) +
          ((List.range n).map fun k =>
            if (indices.getD k 0).toNat = r then h source.buf (source.addr c k) else 0).sum) ∧
    (∀ q a, (q ≠ dest.buf ∨ ∀ r c, c < dest.shape_.2 → a ≠ dest.addr r c) →
      rows_pluck_backprop_outer dest source indices h n q a = h q a) := by
  induction n with
  | zero =>
    refine ⟨fun r c _ => ?_, fun q a _ => ?_⟩ <;> simp [rows_pluck_backprop_outer]
  | succ m ih =>
    obtain ⟨ih1, ih2⟩ := ih
    have hstep : rows_pluck_backprop_outer dest source indices h (m + 1) =
        rows_pluck_backprop_inner dest source (indices.getD m 0).toNat m
          (rows_pluck_backprop_outer dest source indices h m) dest.shape_.2 := by
      simp [rows_pluck_backprop_outer, List.range_succ, List.foldl_append]
    obtain ⟨in1, in2⟩ := rows_pluck_backprop_inner_spec dest source (indices.getD m 0).toNat m
      (rows_pluck_backprop_outer dest source indices h m) hbuf dest.shape_.2
    rw [hstep]
    constructor
    · intro r c hc
      rw [List.range_succ, List.map_append, List.sum_append, List.map_singleton,
        List.sum_singleton, ← add_assoc, ← ih1 r c hc]
      by_cases hr : (indices.getD m 0).toNat = r
      · subst hr
        rw [in1 c hc, if_pos rfl, ih2 _ _ (Or.inl (Ne.symm hbuf))]
      · rw [if_neg hr, add_zero]
        exact in2 _ _ (Or.inr fun c' hc' he =>
          hr (addr_inj_col dest (by omega) (by omega) he).1.symm)
    · intro q a hq
      rw [in2 q a (hq.imp id fun hq c hc => hq _ c hc)]
      exact ih2 q a hq

/-- C14: for a gradient `dE` of shape `[V, D]`, an upstream gradient `G` of
shape `[D, K]` in another buffer and `K` indices, all in `[0, V)`, the host
`rows_pluck_backprop` returns and afterwards
`dE'[r][c] = dE[r][c] + Σ_{k < K, i_k = r} G[c][k]` for all `r < V`, `c < D`,
in exact arithmetic (a commutative monoid): an index occurring several times
contributes once per occurrence, a row whose index does not occur keeps its
elements, and nothing outside `dE` changes. -/
theorem rows_pluck_backprop_accumulates [AddCommMonoid R] (h : Heap R) (dest source : Tensor2)
    (indices : List Int) (V D : Nat) (hd : dest.shape_ = (V, D))
    (_hs : source.shape_ = (D, indices.length)) (hstride : D ≤ dest.stride_)
    (hidx : ∀ r ∈ indices, 0 ≤ r ∧ r < (V : Int)) (hbuf : dest.buf ≠ source.buf) :
    ∃ h', rows_pluck_backprop h dest source indices = some h' ∧
      (∀ r c, r < V → c < D →
        h' dest.buf (dest.addr r c) =
          h dest.buf (dest.addr r c) +
            ((List.range indices.length).map fun k =>
              if indices.getD k 0 = (r : Int) then h source.buf (source.addr c k) else 0).sum) ∧
      (∀ r c, r < V → c < D → (∀ k, k < indices.length → indices.getD k 0 ≠ (r : Int)) →
        h' dest.buf (dest.addr r c) = h dest.buf (dest.addr r c)) ∧
      (∀ q a, (q ≠ dest.buf ∨ ∀ r c, c < D → a ≠ dest.addr r c) → h' q a = h q a) := by
  obtain ⟨o1, o2⟩ := rows_pluck_backprop_outer_spec dest source indices h hbuf
    (by rw [hd]; exact hstride) indices.length
  rw [hd] at o1 o2
  have hcond : ∀ (r : Nat) (c : Nat),
      ((List.range indices.length).map fun k =>
        if (indices.getD k 0).toNat = r then h source.buf (source.addr c k) else 0) =
      ((List.range indices.length).map fun k =>
        if indices.getD k 0 = (r : Int) then h source.buf (source.addr c k) else 0) := by
    intro r c
    apply List.map_congr_left
    intro k hk
    have hk' : k < indices.length := List.mem_range.mp hk
    have hmem : indices.getD k 0 ∈ indices := by
      rw [List.getD_eq_getElem?_getD, List.getElem?_eq_getElem hk', Option.getD_some]
      exact List.getElem_mem hk'
    have h0 := (hidx _ hmem).1
    have hiff : (indices.getD k 0).toNat = r ↔ indices.getD k 0 = (r : Int) := by
      omega
    simp only [hiff]
  have hmain : ∀ r c, c < D →
      rows_pluck_backprop_outer dest source indices h indices.length dest.buf
          (dest.addr r c) =
        h dest.buf (dest.addr r c) +
          ((List.range indices.length).map fun k =>
            if indices.getD k 0 = (r : Int) then h source.buf (source.addr c k) else 0).sum := by
    intro r c hc
    rw [← hcond r c]
    exact o1 r c hc
  refine ⟨rows_pluck_backprop_outer dest source indices h indices.length, ?_, ?_, ?_, o2⟩
  · have hall : (indices.all fun r => decide (0 ≤ r) && decide (r < (dest.shape_.1 : Int)))
        = true := by
      rw [List.all_eq_true]
      intro r hr
      have := hidx r hr
      simp [hd, this.1, this.2]
    simp [rows_pluck_backprop, hall]
  · intro r c _ hc
    exact hmain r c hc
  · intro r c _ hc hno
    rw [hmain r c hc]
    have hz : ((List.range indices.length).map fun k =>
        if indices.getD k 0 = (r : Int) then h source.buf (source.addr c k) else 0) =
        (List.range indices.length).map fun _ => (0 : R) := by
      apply List.map_congr_left
      intro k hk
      rw [if_neg (hno k (List.mem_range.mp hk))]
    rw [hz]
    simp

/-- C13 at `E = [[4,5],[6,7],[8,9]]` (buffer 3 of `world0`) and the indices
`2, 0, 2`: the destination becomes `[[8,4,8],[9,5,9]]` and `E` keeps its
elements. -/
theorem rows_pluck_columns_witness :
    tensor_2x3_buf5.shape_ = (2, [(2 : Int), 0, 2].length) ∧
    tensor_3x2_buf3.shape_ = (3, 2) ∧
    (∀ r ∈ [(2 : Int), 0, 2], 0 ≤ r ∧ r < ((3 : Nat) : Int)) ∧
    (List.range 6).map (world0.cpu 3) = [4, 5, 6, 7, 8, 9] ∧
    ∃ h', rows_pluck world0.cpu tensor_2x3_buf5 tensor_3x2_buf3 [2, 0, 2] = some h' ∧
      (∀ c k, c < 2 → k < 3 →
        h' 5 (tensor_2x3_buf5.addr c k) =
          world0.cpu 3 (tensor_3x2_buf3.addr ([(2 : Int), 0, 2].getD k 0).toNat c)) ∧
      (∀ r c, h' 3 (tensor_3x2_buf3.addr r c) = world0.cpu 3 (tensor_3x2_buf3.addr r c)) ∧
      (rows_pluck world0.cpu tensor_2x3_buf5 tensor_3x2_buf3 [2, 0, 2]).map
          (fun g => (List.range 6).map (g 5)) = some [8, 4, 8, 9, 5, 9] := by
  obtain ⟨h', heq, hcell, hsrc, -⟩ :=
    rows_pluck_columns world0.cpu tensor_2x3_buf5 tensor_3x2_buf3 [2, 0, 2] 3 2 rfl rfl
      (by decide) (by decide) (by decide)
  exact ⟨rfl, rfl, by decide, by decide, h', heq, hcell, hsrc, by decide⟩

/-- C14 at `dE = [[6,7],[8,9],[10,11]]` (buffer 5 of `world0`),
`G = [[4,5,6],[7,8,9]]` (buffer 3) and the indices `2, 0, 2`: row 0 gains
column 1 of `G`, row 1 is unchanged and row 2 gains columns 0 and 2, giving
`[[11,15],[8,9],[20,27]]`. -/
theorem rows_pluck_backprop_accumulates_witness :
    tensor_3x2_buf5.shape_ = (3, 2) ∧
    tensor_2x3_buf3.shape_ = (2, [(2 : Int), 0, 2].length) ∧
    (∀ r ∈ [(2 : Int), 0, 2], 0 ≤ r ∧ r < ((3 : Nat) : Int)) ∧
    (List.range 6).map (world0.cpu 5) = [6, 7, 8, 9, 10, 11] ∧
    (List.range 6).map (world0.cpu 3) = [4, 5, 6, 7, 8, 9] ∧
    ∃ h', rows_pluck_backprop world0.cpu tensor_3x2_buf5 tensor_2x3_buf3 [2, 0, 2] = some h' ∧
      (∀ r c, r < 3 → c < 2 →
        h' 5 (tensor_3x2_buf5.addr r c) =
          world0.cpu 5 (tensor_3x2_buf5.addr r c) +
            ((List.range 3).map fun k =>
              if [(2 : Int), 0, 2].getD k 0 = (r : Int) then
                world0.cpu 3 (tensor_2x3_buf3.addr c k)
              else 0).sum) ∧
      (rows_pluck_backprop world0.cpu tensor_3x2_buf5 tensor_2x3_buf3 [2, 0, 2]).map
          (fun g => (List.range 6).map (g 5)) = some [11, 15, 8, 9, 20, 27] := by
  obtain ⟨h', heq, hcell, -, -⟩ :=
    rows_pluck_backprop_accumulates world0.cpu tensor_3x2_buf5 tensor_2x3_buf3 [2, 0, 2] 3 2
      rfl rfl (by decide) (by decide) (by decide)
  exact ⟨rfl, rfl, by decide, by decide, by decide, h', heq, hcell, by decide⟩

end RowsPluck

/-! ## Theorems: Slice, canonical reshape, broadcast reshape, pluck_axis -/

section ArrayViews

theorem ceil_div_bounds (d k : Int) (hk : 0 < k) :
    ((d + k - 1) / k - 1) * k < d ∧ d ≤ (d + k - 1) / k * k := by
  have h1 := Int.ediv_add_emod (d + k - 1) k
  have h2 := Int.emod_nonneg (d + k - 1) (ne_of_gt hk)
  have h3 := Int.emod_lt_of_pos (d + k - 1) hk
  constructor <;> nlinarith

/-- C17: a `Slice(begin, end, step)` with `0 <= begin < end` and `step != 0`
is constructed, and its `size()` is the ceiling of `(end - begin) / |step|`
(the integer `n` with `(n - 1)·|step| < end - begin <= n·|step|`); the slice
with the opposite step has the same size; constructing a slice with step 0
is an error. -/
theorem slice_size_ceil (b e step : Int) (_hb : 0 ≤ b) (_hbe : b < e) (hs : step ≠ 0) :
    Slice.make b e step = .ok { start := b, end_ := e, step := step } ∧
    Slice.size { start := b, end_ := e, step := step } =
      ⌈(((e - b : Int) : ℚ) / ((|step| : Int) : ℚ))⌉ ∧
    (Slice.size { start := b, end_ := e, step := step } - 1) * |step| < e - b ∧
    e - b ≤ Slice.size { start := b, end_ := e, step := step } * |step| ∧
    Slice.make b e (-step) = .ok { start := b, end_ := e, step := -step } ∧
    Slice.size { start := b, end_ := e, step := -step } =
      Slice.size { start := b, end_ := e, step := step } ∧
    Slice.make b e 0 = .error .InvalidSlice := by
  have habs : 0 < |step| := abs_pos.mpr hs
  obtain ⟨hlo, hhi⟩ := ceil_div_bounds (e - b) |step| habs
  have hq : (0 : ℚ) < ((|step| : Int) : ℚ) := by exact_mod_cast habs
  refine ⟨by simp [Slice.make, hs], ?_, hlo, hhi, by simp [Slice.make, hs],
    by simp [Slice.size], by simp [Slice.make]⟩
  symm
  rw [Int.ceil_eq_iff]
  simp only [Slice.size]
  constructor
  · rw [lt_div_iff₀ hq]
    exact_mod_cast hlo
  · rw [div_le_iff₀ hq]
    exact_mod_cast hhi

/-- C17 at the slices of the test `slice_size`: `Slice(0,5,-2)` has size
`3 = ceil(5/2)`, as `Slice(0,5,2)` has; the test's eight sizes and its
step-0 error are as the test expects. -/
theorem slice_size_ceil_witness :
    (0 : Int) ≤ 0 ∧ (0 : Int) < 5 ∧ (-2 : Int) ≠ 0 ∧
    Slice.size { start := 0, end_ := 5, step := -2 } =
      ⌈(((5 - 0 : Int) : ℚ) / ((|(-2)| : Int) : ℚ))⌉ ∧
    Slice.size { start := 0, end_ := 5, step := -(-2) } =
      Slice.size { start := 0, end_ := 5, step := -2 } ∧
    [Slice.size { start := 0, end_ := 5, step := 1 },
      Slice.size { start := 2, end_ := 4, step := 1 },
      Slice.size { start := 0, end_ := 5, step := 2 },
      Slice.size { start := 0, end_ := 5, step := -2 },
      Slice.size { start := 0, end_ := 6, step := 3 },
      Slice.size { start := 0, end_ := 6, step := -3 },
      Slice.size { start := 0, end_ := 7, step := 3 },
      Slice.size { start := 0, end_ := 7, step := -3 }] = [5, 2, 3, 3, 2, 2, 3, 3] ∧
    Slice.make 0 2 0 = .error .InvalidSlice :=
  have h := slice_size_ceil 0 5 (-2) (by decide) (by decide) (by decide)
  ⟨by decide, by decide, by decide, h.2.1, h.2.2.2.2.2.1, by decide, by decide⟩

/-- C20, as stated, fails: for `K = 3` and the rank-1 shape `{2}` the formula
`(shape[0], product(shape[1:-1]), shape[-1])` gives `(2, 1, 2)`, whose product
`4` is not the product `2` of the input. -/
theorem canonical_reshape_counterexample :
    canonical_reshape 3 [2] = some [2, 1, 2] ∧ [2, 1, 2].prod ≠ [2].prod := by
  decide

/-- C20, amended: `canonical_reshape<1>` gives the product of all dims;
`canonical_reshape<2>` of a shape of rank 1 or more gives
`(product(shape[:-1]), shape[-1])`; `canonical_reshape<3>` of a shape of rank
2 or more gives `(shape[0], product(shape[1:-1]), shape[-1])`;
`canonical_reshape<4>` of a shape of rank at most 4 gives the shape padded
with leading 1s; in each of these cases the product of the result is the
product of the input. -/
theorem canonical_reshape_product (shape : List Nat) :
    (canonical_reshape 1 shape = some [shape.prod] ∧ [shape.prod].prod = shape.prod) ∧
    (∀ h : shape ≠ [],
      canonical_reshape 2 shape = some [shape.dropLast.prod, shape.getLast h] ∧
      [shape.dropLast.prod, shape.getLast h].prod = shape.prod) ∧
    (∀ h : shape ≠ [], 2 ≤ shape.length →
      canonical_reshape 3 shape =
        some [shape.head h, (shape.drop 1).dropLast.prod, shape.getLast h] ∧
      [shape.head h, (shape.drop 1).dropLast.prod, shape.getLast h].prod = shape.prod) ∧
    (shape.length ≤ 4 →
      canonical_reshape 4 shape = some (List.replicate (4 - shape.length) 1 ++ shape) ∧
      (List.replicate (4 - shape.length) 1 ++ shape).length = 4 ∧
      (List.replicate (4 - shape.length) 1 ++ shape).prod = shape.prod) := by
  have hlast : ∀ (l : List Nat) (h : l ≠ []), l.dropLast.prod * l.getLast h = l.prod := by
    intro l h
    conv_rhs => rw [← List.dropLast_append_getLast h]
    simp
  refine ⟨⟨by cases shape <;> rfl, by simp⟩, ?_, ?_, ?_⟩
  · intro h
    cases shape with
    | nil => exact absurd rfl h
    | cons s ss =>
      refine ⟨rfl, ?_⟩
      simp only [List.prod_cons, List.prod_nil, mul_one]
      exact hlast _ _
  · intro h h2
    cases shape with
    | nil => exact absurd rfl h
    | cons s ss =>
      have hss : ss ≠ [] := by
        intro he; subst he; simp at h2
      refine ⟨rfl, ?_⟩
      simp only [List.drop_succ_cons, List.drop_zero, List.head_cons, List.prod_cons,
        List.prod_nil, mul_one, List.getLast_cons hss]
      rw [hlast ss hss]
  · intro h4
    refine ⟨?_, ?_, ?_⟩
    · cases shape with
      | nil => rfl
      | cons s ss => simp only [canonical_reshape, if_pos h4]
    · simp; omega
    · simp

/-- The amended C20 at the shape `{3,4,5}` of the test `canonical_reshape`:
`(60)`, `(12,5)`, `(3,4,5)` and `(1,3,4,5)`, each of product 60. -/
theorem canonical_reshape_product_witness :
    canonical_reshape 1 [3, 4, 5] = some [60] ∧
    canonical_reshape 2 [3, 4, 5] = some [12, 5] ∧ [12, 5].prod = [3, 4, 5].prod ∧
    canonical_reshape 3 [3, 4, 5] = some [3, 4, 5] ∧
    canonical_reshape 4 [3, 4, 5] = some [1, 3, 4, 5] ∧
    [1, 3, 4, 5].prod = [3, 4, 5].prod :=
  have h := canonical_reshape_product [3, 4, 5]
  ⟨h.1.1, (h.2.1 (by decide)).1, (h.2.1 (by decide)).2,
    (h.2.2.1 (by decide) (by decide)).1, (h.2.2.2 (by decide)).1, (h.2.2.2 (by decide)).2.2⟩

end ArrayViews

section ArrayViews2

theorem row_major_strides_length (s : List Nat) : (row_major_strides s).length = s.length := by
  induction s with
  | nil => rfl
  | cons n ns ih => simp [row_major_strides, ih]

theorem effective_strides_contiguous (a : Array) (hs : a.strides = [])
    (hm : ∀ b ∈ a.broadcast_mask, b = false) :
    a.effective_strides = row_major_strides a.shape := by
  have hmask : ∀ k : Nat, a.broadcast_mask[k]?.getD false = false := by
    intro k
    cases hk : a.broadcast_mask[k]? with
    | none => rfl
    | some b => exact hm b (List.mem_iff_getElem?.mpr ⟨k, hk⟩)
  apply List.ext_getElem
  · simp [Array.effective_strides, row_major_strides_length]
  · intro k h1 h2
    simp [Array.effective_strides, hs, hmask, List.getD_eq_getElem?_getD, h2]

theorem to_int_to_index_t (x : Int) (h0 : 0 ≤ x) (h1 : x < 2 ^ 31) :
    to_int (to_index_t x) = x := by
  unfold to_int to_index_t
  have hx : x % (2 ^ 32 : Int) = x := Int.emod_eq_of_lt h0 (by omega)
  rw [hx, Int.toNat_of_nonneg h0]
  omega

/-- C15: for a contiguous `Array` (no strides recorded, no broadcast axis), an
axis below the rank and an index within that axis, `pluck_axis(axis, index)`
returns a view on the same memory whose shape is the parent's without the
axis. For axis 0 the view has no strides and its offset is the parent's plus
`index * product(shape[1:])`, which is what `TensorInternal::operator[]`
computes (when the offset fits in an `int`); for another axis its strides are
the parent's row-major strides without the axis and its offset is the
parent's plus `index * stride[axis]`. -/
theorem pluck_axis_view (a : Array) (axis : Nat) (index : Int)
    (hs : a.strides = []) (hm : ∀ b ∈ a.broadcast_mask, b = false)
    (hax : axis < a.shape.length) (hi0 : 0 ≤ index)
    (hi1 : index < ((a.shape.getD axis 0 : Nat) : Int)) :
    ∃ v, a.pluck_axis axis index = .ok v ∧ v.memory = a.memory ∧
      v.shape = a.shape.eraseIdx axis ∧ v.shape.length + 1 = a.shape.length ∧
      (axis = 0 →
        v.strides = [] ∧
        v.offset = a.offset + (((a.shape.drop 1).prod : Nat) : Int) * index ∧
        (0 ≤ a.offset →
          a.offset + (((a.shape.drop 1).prod : Nat) : Int) * index < 2 ^ 31 →
          TensorInternal.subscript
              { shape := a.shape, memory_ := a.memory, offset := a.offset } index.toNat =
            { shape := v.shape, memory_ := v.memory, offset := v.offset })) ∧
      (axis ≠ 0 →
        v.strides = (row_major_strides a.shape).eraseIdx axis ∧
        v.offset = a.offset + index * (row_major_strides a.shape).getD axis 0) := by
  have heff := effective_strides_contiguous a hs hm
  have hnot : ¬ (index < 0 ∨ ((a.shape.getD axis 0 : Nat) : Int) ≤ index) := by omega
  by_cases h0 : axis = 0
  · subst h0
    refine ⟨{ shape := a.shape.drop 1, strides := [],
              offset := a.offset + ((a.shape.drop 1).prod : Nat) * index,
              broadcast_mask := a.broadcast_mask.drop 1, memory := a.memory }, ?_, rfl, ?_, ?_,
      ?_, ?_⟩
    · simp only [Array.pluck_axis, if_neg (Nat.not_le.mpr hax), if_neg hnot, hs, and_self,
        if_true]
    · simp [List.eraseIdx_zero]
    · simp only [List.length_drop]; omega
    · intro _
      refine ⟨rfl, rfl, ?_⟩
      intro ho hfit
      have hnn : (0 : Int) ≤ (((a.shape.drop 1).prod : Nat) : Int) * index :=
        mul_nonneg (Int.ofNat_nonneg _) hi0
      simp only [TensorInternal.subscript, Int.toNat_of_nonneg hi0]
      rw [to_int_to_index_t _ (by omega) hfit]
    · intro h; exact absurd rfl h
  · have hc : ¬ (axis = 0 ∧ a.strides = []) := fun h => h0 h.1
    refine ⟨{ shape := a.shape.eraseIdx axis, strides := a.effective_strides.eraseIdx axis,
              offset := a.offset + index * a.effective_strides.getD axis 0,
              broadcast_mask := a.broadcast_mask.eraseIdx axis, memory := a.memory }, ?_, rfl,
      rfl, ?_, ?_, ?_⟩
    · simp only [Array.pluck_axis, if_neg (Nat.not_le.mpr hax), if_neg hnot, if_neg hc]
    · simp only [List.length_eraseIdx, if_pos hax]; omega
    · intro h; exact absurd h h0
    · intro _
      simp only [heff]
      exact ⟨trivial, trivial⟩

/-- C15 at the array of the test `pluck_axis_stride_shape`, of shape
`[2,3,4]`: `pluck_axis(1,2)` has shape `[2,4]`, offset 8 and strides `[12,1]`;
`pluck_axis(0,1)` has offset 12 and no strides; `pluck_axis(2,1)` has offset 1
and strides `[12,4]`. -/
theorem pluck_axis_view_witness :
    (∃ v, build_234_arange.pluck_axis 1 2 = .ok v ∧ v.memory = build_234_arange.memory ∧
      v.shape = [2, 4] ∧ v.strides = [12, 1] ∧ v.offset = 8) ∧
    build_234_arange.pluck_axis 0 1 =
      .ok { shape := [3, 4], strides := [], offset := 12,
            broadcast_mask := [false, false], memory := 0 } ∧
    build_234_arange.pluck_axis 2 1 =
      .ok { shape := [2, 3], strides := [12, 4], offset := 1,
            broadcast_mask := [false, false], memory := 0 } := by
  refine ⟨?_, by decide, by decide⟩
  obtain ⟨v, hv, hmem, hshape, _, _, h1⟩ :=
    pluck_axis_view build_234_arange 1 2 rfl (by decide) (by decide) (by decide) (by decide)
  obtain ⟨hst, hoff⟩ := h1 (by decide)
  exact ⟨v, hv, hmem, hshape, hst, hoff⟩

/-- C16, as stated, fails: the view `x.pluck_axis(1,2)` of the `{2,3,4}`
array holding `0..23` sums to `8+9+10+11+20+21+22+23 = 124`, not to 134. -/
theorem pluck_axis_sum_counterexample :
    (build_234_arange.pluck_axis 1 2).map (fun v => v.sum arange_mem) = .ok 124 ∧
    (124 : Int) ≠ 134 := by
  decide

/-- C16, amended: for `x` of shape `[2,3,4]` holding `0..23` in row-major
order, `x.pluck_axis(1,2).sum() == 124` and `x.pluck_axis(2,1).sum() == 66`;
each plucked view shares the memory of `x` and, whatever the memory holds, its
sum is the sum of the elements of `x` whose coordinate on the plucked axis
equals the index. -/
theorem pluck_axis_sum (mem : Nat → Int) :
    ∃ v1 v2, build_234_arange.pluck_axis 1 2 = .ok v1 ∧
      build_234_arange.pluck_axis 2 1 = .ok v2 ∧
      v1.memory = build_234_arange.memory ∧ v2.memory = build_234_arange.memory ∧
      v1.sum mem = expected_sum mem (fun _ => true) (fun j => j == 2) (fun _ => true) ∧
      v2.sum mem = expected_sum mem (fun _ => true) (fun _ => true) (fun k => k == 1) ∧
      v1.sum arange_mem = 124 ∧ v2.sum arange_mem = 66 := by
  refine ⟨{ shape := [2, 4], strides := [12, 1], offset := 8,
            broadcast_mask := [false, false], memory := 0 },
          { shape := [2, 3], strides := [12, 4], offset := 1,
            broadcast_mask := [false, false], memory := 0 },
          by decide, by decide, rfl, rfl, ?_, ?_, by decide, by decide⟩
  · simp [Array.sum, expected_sum, all_indices, Array.at, Array.effective_strides,
      List.range_succ, List.range_zero]
    omega
  · simp [Array.sum, expected_sum, all_indices, Array.at, Array.effective_strides,
      List.range_succ, List.range_zero]
    omega

end ArrayViews2

/-! ## Theorems: reshape_broadcasted -/

section ReshapeBroadcasted

/-- The condition of `reshape_broadcasted` on one axis: the size is kept, or
the size is 1 and the axis is marked broadcastable. -/
theorem reshape_broadcasted_ok_iff (a : Array) (new_shape : List Nat)
    (hlen : new_shape.length = a.shape.length) :
    (∃ v, a.reshape_broadcasted new_shape = .ok v) ↔
      ∀ k < a.shape.length, a.shape.getD k 0 = new_shape.getD k 0 ∨
        (a.shape.getD k 0 = 1 ∧ a.broadcast_mask.getD k false = true) := by
  have hl : ¬ new_shape.length ≠ a.shape.length := fun h => h hlen
  simp only [Array.reshape_broadcasted, if_neg hl]
  split
  · rename_i h
    simp only [List.all_eq_true, List.mem_range, Bool.or_eq_true, Bool.and_eq_true,
      beq_iff_eq] at h
    exact ⟨fun _ => h, fun _ => ⟨_, rfl⟩⟩
  · rename_i h
    simp only [List.all_eq_true, List.mem_range, Bool.or_eq_true, Bool.and_eq_true,
      beq_iff_eq] at h
    constructor
    · rintro ⟨v, hv⟩; cases hv
    · intro h2; exact absurd h2 h

theorem reshape_broadcasted_ok (a : Array) (new_shape : List Nat)
    (hlen : new_shape.length = a.shape.length)
    (hok : ∀ k < a.shape.length, a.shape.getD k 0 = new_shape.getD k 0 ∨
        (a.shape.getD k 0 = 1 ∧ a.broadcast_mask.getD k false = true)) :
    a.reshape_broadcasted new_shape =
      .ok { shape := new_shape
            strides := a.effective_strides
            offset := a.offset
            broadcast_mask := (List.range a.shape.length).map fun k =>
              a.broadcast_mask.getD k false && new_shape.getD k 0 == 1
            memory := a.memory } := by
  have hl : ¬ new_shape.length ≠ a.shape.length := fun h => h hlen
  simp only [Array.reshape_broadcasted, if_neg hl]
  rw [if_pos]
  simp only [List.all_eq_true, List.mem_range, Bool.or_eq_true, Bool.and_eq_true, beq_iff_eq]
  exact hok

theorem reshape_broadcasted_err (a : Array) (new_shape : List Nat)
    (hlen : new_shape.length = a.shape.length)
    (hbad : ¬ ∀ k < a.shape.length, a.shape.getD k 0 = new_shape.getD k 0 ∨
        (a.shape.getD k 0 = 1 ∧ a.broadcast_mask.getD k false = true)) :
    a.reshape_broadcasted new_shape = .error .InvalidBroadcast := by
  have hl : ¬ new_shape.length ≠ a.shape.length := fun h => h hlen
  simp only [Array.reshape_broadcasted, if_neg hl]
  rw [if_neg]
  simp only [List.all_eq_true, List.mem_range, Bool.or_eq_true, Bool.and_eq_true, beq_iff_eq]
  exact hbad

theorem range_map_getD (n k : Nat) (f : Nat → Bool) (hk : k < n) :
    ((List.range n).map f).getD k false = f k := by
  simp [List.getD_eq_getElem?_getD, List.getElem?_range hk]

/-- C19: `reshape_broadcasted(new_shape)`, for a shape of the array's rank,
succeeds exactly when on every axis the current size equals the new size or
the current size is 1 and the axis is marked broadcastable, and raises the
broadcast error otherwise. When it succeeds the view has the new shape; an
axis stays broadcastable exactly when it was and its new size is 1, so a
broadcastable axis kept at size 1 stays broadcastable and an axis of new size
greater than 1 is not; reshaping the view again to the same shape succeeds and
changes nothing of shape and mask; and a later reshape that changes the size
of an axis of size greater than 1 raises. -/
theorem reshape_broadcasted_contract (a : Array) (new_shape : List Nat)
    (hlen : new_shape.length = a.shape.length) :
    ((∃ v, a.reshape_broadcasted new_shape = .ok v) ↔
      ∀ k < a.shape.length, a.shape.getD k 0 = new_shape.getD k 0 ∨
        (a.shape.getD k 0 = 1 ∧ a.broadcast_mask.getD k false = true)) ∧
    ((¬ ∀ k < a.shape.length, a.shape.getD k 0 = new_shape.getD k 0 ∨
        (a.shape.getD k 0 = 1 ∧ a.broadcast_mask.getD k false = true)) →
      a.reshape_broadcasted new_shape = .error .InvalidBroadcast) ∧
    (∀ v, a.reshape_broadcasted new_shape = .ok v →
      v.shape = new_shape ∧ v.memory = a.memory ∧ v.offset = a.offset ∧
      (∀ k < a.shape.length, v.broadcast_mask.getD k false =
        (a.broadcast_mask.getD k false && new_shape.getD k 0 == 1)) ∧
      (∀ k < a.shape.length, a.broadcast_mask.getD k false = true →
        new_shape.getD k 0 = 1 → v.broadcast_mask.getD k false = true) ∧
      (∀ k < a.shape.length, 1 < new_shape.getD k 0 →
        v.broadcast_mask.getD k false = false) ∧
      (∃ v2, v.reshape_broadcasted new_shape = .ok v2 ∧ v2.shape = v.shape ∧
        v2.broadcast_mask = v.broadcast_mask) ∧
      (∀ later : List Nat, later.length = new_shape.length →
        (∃ k < new_shape.length, 1 < new_shape.getD k 0 ∧
          later.getD k 0 ≠ new_shape.getD k 0) →
        v.reshape_broadcasted later = .error .InvalidBroadcast)) := by
  refine ⟨reshape_broadcasted_ok_iff a new_shape hlen, reshape_broadcasted_err a new_shape hlen,
    ?_⟩
  intro v hv
  have hok := (reshape_broadcasted_ok_iff a new_shape hlen).mp ⟨v, hv⟩
  rw [reshape_broadcasted_ok a new_shape hlen hok] at hv
  cases hv
  have hmask : ∀ k < a.shape.length,
      ((List.range a.shape.length).map fun k =>
        a.broadcast_mask.getD k false && new_shape.getD k 0 == 1).getD k false =
      (a.broadcast_mask.getD k false && new_shape.getD k 0 == 1) :=
    fun k hk => range_map_getD _ k _ hk
  refine ⟨rfl, rfl, rfl, hmask, ?_, ?_, ?_, ?_⟩
  · intro k hk hb h1
    simp only [hmask k hk, hb, h1, beq_self_eq_true, Bool.and_self]
  · intro k hk h1
    have hne : (new_shape.getD k 0 == 1) = false := by
      simp only [beq_eq_false_iff_ne, ne_eq]; omega
    simp only [hmask k hk, hne, Bool.and_false]
  · refine ⟨_, reshape_broadcasted_ok _ new_shape rfl (fun k _ => Or.inl rfl), rfl, ?_⟩
    simp only [hlen]
    apply List.map_congr_left
    intro k hk
    rw [range_map_getD _ k _ (List.mem_range.mp hk)]
    simp only [Bool.and_assoc, Bool.and_self]
  · intro later hl ⟨k, hk, h1, hne⟩
    apply reshape_broadcasted_err _ later hl
    intro hall
    rcases hall k hk with h | ⟨h, _⟩
    · exact hne h.symm
    · simp only at h; omega

/-- C19 at the array `B` of the test `reshape_broadcasted2`, of broadcast
shape `[bcast,3,bcast]`: the reshapes to `{2,3,1}`, `{2,3,1}`, `{2,3,5}` and
`{2,3,5}` succeed in turn, and from the result each of `{5,3,5}`, `{1,3,5}`
and `{2,3,1}` raises. -/
theorem reshape_broadcasted_contract_witness :
    [2, 3, 5].length = broadcast_b.shape.length ∧
    (∃ v, broadcast_b.reshape_broadcasted [2, 3, 5] = .ok v ∧ v.shape = [2, 3, 5] ∧
      v.reshape_broadcasted [5, 3, 5] = .error .InvalidBroadcast ∧
      v.reshape_broadcasted [1, 3, 5] = .error .InvalidBroadcast ∧
      v.reshape_broadcasted [2, 3, 1] = .error .InvalidBroadcast) ∧
    (∃ v1 v2 v3 v4, broadcast_b.reshape_broadcasted [2, 3, 1] = .ok v1 ∧
      v1.reshape_broadcasted [2, 3, 1] = .ok v2 ∧
      v2.reshape_broadcasted [2, 3, 5] = .ok v3 ∧
      v3.reshape_broadcasted [2, 3, 5] = .ok v4 ∧
      v4.reshape_broadcasted [5, 3, 5] = .error .InvalidBroadcast ∧
      v4.reshape_broadcasted [1, 3, 5] = .error .InvalidBroadcast ∧
      v4.reshape_broadcasted [2, 3, 1] = .error .InvalidBroadcast) ∧
    (∃ v, broadcast_b.reshape_broadcasted [2, 3, 4] = .ok v ∧
      v.sum (fun _ => 1) = 2 * 3 * 4) := by
  have h := reshape_broadcasted_contract broadcast_b [2, 3, 5] rfl
  obtain ⟨v, hv⟩ := h.1.mpr (by decide)
  obtain ⟨hshape, _, _, _, _, _, _, hlater⟩ := h.2.2 v hv
  refine ⟨rfl, ⟨v, hv, hshape, hlater [5, 3, 5] rfl ⟨0, by decide⟩,
    hlater [1, 3, 5] rfl ⟨0, by decide⟩, hlater [2, 3, 1] rfl ⟨2, by decide⟩⟩, ?_, ?_⟩
  · exact ⟨{ shape := [2, 3, 1], strides := [0, 1, 0], offset := 0,
             broadcast_mask := [false, false, true], memory := 0 },
           { shape := [2, 3, 1], strides := [0, 1, 0], offset := 0,
             broadcast_mask := [false, false, true], memory := 0 },
           { shape := [2, 3, 5], strides := [0, 1, 0], offset := 0,
             broadcast_mask := [false, false, false], memory := 0 },
           { shape := [2, 3, 5], strides := [0, 1, 0], offset := 0,
             broadcast_mask := [false, false, false], memory := 0 },
           by decide, by decide, by decide, by decide, by decide, by decide, by decide⟩
  · exact ⟨{ shape := [2, 3, 4], strides := [0, 1, 0], offset := 0,
             broadcast_mask := [false, false, false], memory := 0 }, by decide, by decide⟩

end ReshapeBroadcasted

/-! ## Theorems: slicing -/

section Slicing

theorem list_range_sum_eq (n : Nat) (f : Nat → Int) :
    ((List.range n).map f).sum = ∑ i in Finset.range n, f i := by
  induction n with
  | zero => simp
  | succ n ih =>
    rw [List.range_succ, List.map_append, List.sum_append, ih, Finset.sum_range_succ]
    simp

theorem slice_contains_iff (s : Slice) (i : Int) :
    s.contains i = true ↔
      s.start ≤ i ∧ i < s.end_ ∧
        (if 0 < s.step then (i - s.start) % s.step = 0 else (s.end_ - 1 - i) % |s.step| = 0) := by
  unfold Slice.contains
  split <;> simp [and_assoc]

/-- The `a`-th element of a sliced axis, for `a` below the size of the slice,
sits at an index the slice contains. -/
theorem slice_visit_contains (s : Slice) (hs : s.step ≠ 0) (a : Nat)
    (ha : (a : Int) < s.size) : s.contains (s.first + (a : Int) * s.step) = true := by
  have habs : 0 < |s.step| := abs_pos.mpr hs
  obtain ⟨hlo, _⟩ := ceil_div_bounds (s.end_ - s.start) |s.step| habs
  have hsz : s.size = (s.end_ - s.start + |s.step| - 1) / |s.step| := rfl
  rw [← hsz] at hlo
  have hak : (a : Int) * |s.step| < s.end_ - s.start := by
    have ha2 : (a : Int) ≤ s.size - 1 := by omega
    have := mul_le_mul_of_nonneg_right ha2 habs.le
    omega
  have hnn : (0 : Int) ≤ (a : Int) * |s.step| := mul_nonneg (Int.ofNat_nonneg a) habs.le
  rw [slice_contains_iff]
  unfold Slice.first
  by_cases hp : 0 < s.step
  · rw [abs_of_pos hp] at hak hnn
    simp only [if_pos hp]
    refine ⟨by omega, by omega, ?_⟩
    simp
  · have hneg : s.step < 0 := by omega
    rw [abs_of_neg hneg, mul_neg] at hak hnn
    simp only [if_neg hp, abs_of_neg hneg]
    refine ⟨by omega, by omega, ?_⟩
    have : s.end_ - 1 - (s.end_ - 1 + (a : Int) * s.step) = (a : Int) * (-s.step) := by ring
    rw [this]
    exact Int.mul_emod_left _ _

/-- An index a slice contains is the `a`-th element of the sliced axis for
some `a` below the size of the slice. -/
theorem slice_contains_visit (s : Slice) (hs : s.step ≠ 0) (i : Int)
    (hi : s.contains i = true) :
    ∃ a : Nat, (a : Int) < s.size ∧ s.first + (a : Int) * s.step = i := by
  have habs : 0 < |s.step| := abs_pos.mpr hs
  obtain ⟨_, hhi⟩ := ceil_div_bounds (s.end_ - s.start) |s.step| habs
  have hsz : s.size = (s.end_ - s.start + |s.step| - 1) / |s.step| := rfl
  rw [← hsz] at hhi
  rw [slice_contains_iff] at hi
  obtain ⟨hib, hie, hmod⟩ := hi
  by_cases hp : 0 < s.step
  · rw [if_pos hp] at hmod
    have hdiv := Int.ediv_add_emod (i - s.start) s.step
    rw [hmod, add_zero] at hdiv
    have hq0 : 0 ≤ (i - s.start) / s.step := Int.ediv_nonneg (by omega) hp.le
    rw [abs_of_pos hp] at hhi
    have hqn : (i - s.start) / s.step < s.size := by
      by_contra hcon
      have := mul_le_mul_of_nonneg_left (not_lt.mp hcon) hp.le
      rw [mul_comm] at hhi
      omega
    refine ⟨((i - s.start) / s.step).toNat, by omega, ?_⟩
    rw [Int.toNat_of_nonneg hq0]
    unfold Slice.first
    rw [if_pos hp, mul_comm, hdiv]
    omega
  · have hneg : s.step < 0 := by omega
    rw [if_neg hp, abs_of_neg hneg] at hmod
    have hk : 0 < -s.step := by omega
    have hdiv := Int.ediv_add_emod (s.end_ - 1 - i) (-s.step)
    rw [hmod, add_zero] at hdiv
    have hq0 : 0 ≤ (s.end_ - 1 - i) / (-s.step) := Int.ediv_nonneg (by omega) hk.le
    rw [abs_of_neg hneg] at hhi
    have hqn : (s.end_ - 1 - i) / (-s.step) < s.size := by
      by_contra hcon
      have := mul_le_mul_of_nonneg_left (not_lt.mp hcon) hk.le
      rw [mul_comm] at hhi
      omega
    refine ⟨((s.end_ - 1 - i) / (-s.step)).toNat, by omega, ?_⟩
    rw [Int.toNat_of_nonneg hq0]
    unfold Slice.first
    rw [if_neg hp]
    have h6 : (s.end_ - 1 - i) / (-s.step) * s.step =
        -((-s.step) * ((s.end_ - 1 - i) / (-s.step))) := by ring
    rw [h6, hdiv]; ring

/-- The positions a slice visits are the indices it contains, once each: a
sum over the elements of the sliced axis is the sum over the contained
indices of the axis. -/
theorem slice_sum_reindex (s : Slice) (d : Nat) (G : Int → Int)
    (h0 : 0 ≤ s.start) (h1 : s.start < s.end_) (h2 : s.end_ ≤ (d : Int)) (hs : s.step ≠ 0) :
    (List.map (fun (a : Nat) => G (s.first + (a : Int) * s.step))
        (List.range s.size.toNat)).sum =
      (List.map (fun (i : Nat) => if s.contains (i : Int) then G (i : Int) else 0)
        (List.range d)).sum := by
  rw [list_range_sum_eq, list_range_sum_eq, ← Finset.sum_filter]
  have hin : ∀ a : Nat, a < s.size.toNat →
      s.start ≤ s.first + (a : Int) * s.step ∧ s.first + (a : Int) * s.step < s.end_ ∧
      s.contains (s.first + (a : Int) * s.step) = true := by
    intro a ha
    have hc := slice_visit_contains s hs a (by omega)
    have hc2 := (slice_contains_iff s _).mp hc
    exact ⟨hc2.1, hc2.2.1, hc⟩
  refine Finset.sum_bij (fun (a : Nat) _ => (s.first + (a : Int) * s.step).toNat) ?_ ?_ ?_ ?_
  · intro a ha
    dsimp only
    rw [Finset.mem_range] at ha
    obtain ⟨hb, he, hc⟩ := hin a ha
    rw [Finset.mem_filter, Finset.mem_range, Int.toNat_of_nonneg (by omega)]
    exact ⟨by omega, hc⟩
  · intro a ha a' ha' heq
    dsimp only at heq
    rw [Finset.mem_range] at ha ha'
    have hnn := (hin a ha).1
    have hnn' := (hin a' ha').1
    have h3 : s.first + (a : Int) * s.step = s.first + (a' : Int) * s.step := by
      have := congrArg (fun (x : Nat) => (x : Int)) heq
      simp only at this
      rw [Int.toNat_of_nonneg (by omega), Int.toNat_of_nonneg (by omega)] at this
      exact this
    have h4 : (a : Int) * s.step = (a' : Int) * s.step := by omega
    have h5 := mul_right_cancel₀ hs h4
    exact_mod_cast h5
  · intro i hi
    rw [Finset.mem_filter, Finset.mem_range] at hi
    obtain ⟨a, ha, hai⟩ := slice_contains_visit s hs (i : Int) hi.2
    refine ⟨a, ?_, ?_⟩
    · rw [Finset.mem_range]; omega
    · dsimp only
      rw [hai]; simp
  · intro a ha
    dsimp only
    rw [Finset.mem_range] at ha
    have hnn := (hin a ha).1
    rw [Int.toNat_of_nonneg (by omega)]

end Slicing

section SlicingViews

theorem sum_flatMap_map {α : Type} (l : List α) (f : α → List Int) :
    (l.flatMap f).sum = (l.map fun a => (f a).sum).sum := by
  induction l with
  | nil => rfl
  | cons a l ih => simp [List.flatMap_cons, List.sum_append, ih]

theorem sum_all_indices3 (n0 n1 n2 : Nat) (F : List Nat → Int) :
    ((all_indices [n0, n1, n2]).map F).sum =
      (List.map (fun (a : Nat) =>
        (List.map (fun (b : Nat) =>
          (List.map (fun (c : Nat) => F [a, b, c]) (List.range n2)).sum)
          (List.range n1)).sum)
        (List.range n0)).sum := by
  simp only [all_indices, List.map_flatMap, sum_flatMap_map, List.map_map, List.flatMap_singleton,
    List.map_cons, List.map_nil, Function.comp_def, List.sum_singleton]

theorem slice_normalize_eq (s : Slice) (dim : Int) (h0 : 0 ≤ s.start) (h1 : s.start < s.end_) :
    s.normalize dim = s := by
  have h2 : ¬ s.start < 0 := by omega
  have h3 : ¬ s.end_ < 0 := by omega
  simp only [Slice.normalize, if_neg h2, if_neg h3]

theorem ite_sum_map (c : Bool) (l : List Nat) (f : Nat → Int) :
    (if c = true then (l.map f).sum else 0) =
      (l.map fun j => if c = true then f j else 0).sum := by
  cases c <;> simp

theorem ite_ite_and (c d : Bool) (x : Int) :
    (if c = true then (if d = true then x else 0) else 0) =
      if (c && d) = true then x else 0 := by
  cases c <;> cases d <;> rfl

theorem mask_getD_false (mask : List Bool) (hm : ∀ b ∈ mask, b = false) (k : Nat) :
    mask.getD k false = false := by
  rw [List.getD_eq_getElem?_getD]
  cases hk : mask[k]? with
  | none => rfl
  | some b => exact hm b (List.mem_iff_getElem?.mpr ⟨k, hk⟩)

theorem effective_strides_recorded (a : Array) (hne : a.strides ≠ [])
    (hlen : a.strides.length = a.shape.length) (hm : ∀ b ∈ a.broadcast_mask, b = false) :
    a.effective_strides = a.strides := by
  apply List.ext_getElem
  · simp [Array.effective_strides, hlen]
  · intro k h1 h2
    have hk := mask_getD_false a.broadcast_mask hm k
    rw [List.getD_eq_getElem?_getD] at hk
    simp [Array.effective_strides, hne, hk, List.getD_eq_getElem?_getD, h2]

theorem slice_ok (a : Array) (axis : Nat) (s : Slice) (hs : s.step ≠ 0)
    (hax : axis < a.shape.length) (h0 : 0 ≤ s.start) (h1 : s.start < s.end_)
    (h2 : s.end_ ≤ ((a.shape.getD axis 0 : Nat) : Int)) :
    a.slice axis s =
      .ok { shape := a.shape.set axis s.size.toNat
            strides := a.effective_strides.set axis (a.effective_strides.getD axis 0 * s.step)
            offset := a.offset + s.first * a.effective_strides.getD axis 0
            broadcast_mask := a.broadcast_mask
            memory := a.memory } := by
  have hc : ¬ (s.start < 0 ∨ s.end_ ≤ s.start ∨ ((a.shape.getD axis 0 : Nat) : Int) < s.end_) := by
    omega
  simp only [Array.slice, if_neg hs, if_neg (Nat.not_le.mpr hax), slice_normalize_eq s _ h0 h1,
    if_neg hc]

theorem slice3_eq (x : Array) (s0 s1 s2 : Slice)
    (hshape : x.shape = [2, 3, 4]) (hstr : x.strides = [])
    (hmask : ∀ b ∈ x.broadcast_mask, b = false)
    (h0 : 0 ≤ s0.start ∧ s0.start < s0.end_ ∧ s0.end_ ≤ 2 ∧ s0.step ≠ 0)
    (h1 : 0 ≤ s1.start ∧ s1.start < s1.end_ ∧ s1.end_ ≤ 3 ∧ s1.step ≠ 0)
    (h2 : 0 ≤ s2.start ∧ s2.start < s2.end_ ∧ s2.end_ ≤ 4 ∧ s2.step ≠ 0) :
    x.slice3 s0 s1 s2 =
      .ok { shape := [s0.size.toNat, s1.size.toNat, s2.size.toNat]
            strides := [12 * s0.step, 4 * s1.step, 1 * s2.step]
            offset := x.offset + s0.first * 12 + s1.first * 4 + s2.first * 1
            broadcast_mask := x.broadcast_mask
            memory := x.memory } := by
  have heff : x.effective_strides = [12, 4, 1] := by
    rw [effective_strides_contiguous x hstr hmask, hshape]; rfl
  have e0 : x.slice 0 s0 =
      .ok { shape := [s0.size.toNat, 3, 4], strides := [12 * s0.step, 4, 1],
            offset := x.offset + s0.first * 12, broadcast_mask := x.broadcast_mask,
            memory := x.memory } := by
    rw [slice_ok x 0 s0 h0.2.2.2 (by rw [hshape]; decide) h0.1 h0.2.1
      (by rw [hshape]; exact h0.2.2.1)]
    simp only [heff, hshape, List.set_cons_zero, List.getD_cons_zero]
  have hy0 : Array.effective_strides
      { shape := [s0.size.toNat, 3, 4], strides := [12 * s0.step, 4, 1],
        offset := x.offset + s0.first * 12, broadcast_mask := x.broadcast_mask,
        memory := x.memory } = [12 * s0.step, 4, 1] :=
    effective_strides_recorded _ (by simp) (by simp) hmask
  have e1 : Array.slice
      { shape := [s0.size.toNat, 3, 4], strides := [12 * s0.step, 4, 1],
        offset := x.offset + s0.first * 12, broadcast_mask := x.broadcast_mask,
        memory := x.memory } 1 s1 =
      .ok { shape := [s0.size.toNat, s1.size.toNat, 4], strides := [12 * s0.step, 4 * s1.step, 1],
            offset := x.offset + s0.first * 12 + s1.first * 4,
            broadcast_mask := x.broadcast_mask, memory := x.memory } := by
    rw [slice_ok _ 1 s1 h1.2.2.2 (by simp) h1.1 h1.2.1 (by simpa using h1.2.2.1)]
    simp only [hy0, List.set_cons_succ, List.set_cons_zero, List.getD_cons_succ,
      List.getD_cons_zero]
  have hy1 : Array.effective_strides
      { shape := [s0.size.toNat, s1.size.toNat, 4], strides := [12 * s0.step, 4 * s1.step, 1],
        offset := x.offset + s0.first * 12 + s1.first * 4,
        broadcast_mask := x.broadcast_mask, memory := x.memory } =
      [12 * s0.step, 4 * s1.step, 1] :=
    effective_strides_recorded _ (by simp) (by simp) hmask
  have e2 : Array.slice
      { shape := [s0.size.toNat, s1.size.toNat, 4], strides := [12 * s0.step, 4 * s1.step, 1],
        offset := x.offset + s0.first * 12 + s1.first * 4,
        broadcast_mask := x.broadcast_mask, memory := x.memory } 2 s2 =
      .ok { shape := [s0.size.toNat, s1.size.toNat, s2.size.toNat]
            strides := [12 * s0.step, 4 * s1.step, 1 * s2.step]
            offset := x.offset + s0.first * 12 + s1.first * 4 + s2.first * 1
            broadcast_mask := x.broadcast_mask
            memory := x.memory } := by
    rw [slice_ok _ 2 s2 h2.2.2.2 (by simp) h2.1 h2.2.1 (by simpa using h2.2.2.1)]
    simp only [hy1, List.set_cons_succ, List.set_cons_zero, List.getD_cons_succ,
      List.getD_cons_zero]
  unfold Array.slice3
  rw [e0]
  simp only [Except.bind]
  rw [e1]
  simp only [Except.bind]
  exact e2

end SlicingViews

section SlicingSums

theorem slice3_sum_eq (x : Array) (mem : Nat → Int) (s0 s1 s2 : Slice)
    (hshape : x.shape = [2, 3, 4]) (hstr : x.strides = []) (hoff : x.offset = 0)
    (hmask : ∀ b ∈ x.broadcast_mask, b = false)
    (h0 : 0 ≤ s0.start ∧ s0.start < s0.end_ ∧ s0.end_ ≤ 2 ∧ s0.step ≠ 0)
    (h1 : 0 ≤ s1.start ∧ s1.start < s1.end_ ∧ s1.end_ ≤ 3 ∧ s1.step ≠ 0)
    (h2 : 0 ≤ s2.start ∧ s2.start < s2.end_ ∧ s2.end_ ≤ 4 ∧ s2.step ≠ 0) :
    ∃ v, x.slice3 s0 s1 s2 = .ok v ∧ v.memory = x.memory ∧
      v.shape = [s0.size.toNat, s1.size.toNat, s2.size.toNat] ∧
      v.sum mem = expected_sum mem (fun (i : Nat) => s0.contains (i : Int))
        (fun (j : Nat) => s1.contains (j : Int)) (fun (k : Nat) => s2.contains (k : Int)) := by
  refine ⟨_, slice3_eq x s0 s1 s2 hshape hstr hmask h0 h1 h2, rfl, rfl, ?_⟩
  have hv : Array.effective_strides
      { shape := [s0.size.toNat, s1.size.toNat, s2.size.toNat]
        strides := [12 * s0.step, 4 * s1.step, 1 * s2.step]
        offset := x.offset + s0.first * 12 + s1.first * 4 + s2.first * 1
        broadcast_mask := x.broadcast_mask
        memory := x.memory } = [12 * s0.step, 4 * s1.step, 1 * s2.step] :=
    effective_strides_recorded _ (by simp) (by simp) hmask
  have hat : ∀ a b c : Nat, Array.at
      { shape := [s0.size.toNat, s1.size.toNat, s2.size.toNat]
        strides := [12 * s0.step, 4 * s1.step, 1 * s2.step]
        offset := x.offset + s0.first * 12 + s1.first * 4 + s2.first * 1
        broadcast_mask := x.broadcast_mask
        memory := x.memory } [a, b, c] =
      (s0.first + (a : Int) * s0.step) * 12 + (s1.first + (b : Int) * s1.step) * 4 +
        (s2.first + (c : Int) * s2.step) := by
    intro a b c
    unfold Array.at
    rw [hv]
    simp only [hoff, List.zipWith_cons_cons, List.zipWith_nil_right, List.sum_cons,
      List.sum_nil]
    ring
  have e2 : ∀ I J : Int,
      (List.map (fun (c : Nat) => element_234 mem I J (s2.first + (c : Int) * s2.step))
        (List.range s2.size.toNat)).sum =
      (List.map (fun (k : Nat) => if s2.contains (k : Int) then element_234 mem I J (k : Int)
        else 0) (List.range 4)).sum :=
    fun I J => slice_sum_reindex s2 4 (fun K => element_234 mem I J K) h2.1 h2.2.1 h2.2.2.1
      h2.2.2.2
  have e1 : ∀ I : Int,
      (List.map (fun (b : Nat) =>
        (List.map (fun (k : Nat) => if s2.contains (k : Int) then
          element_234 mem I (s1.first + (b : Int) * s1.step) (k : Int) else 0)
          (List.range 4)).sum) (List.range s1.size.toNat)).sum =
      (List.map (fun (j : Nat) => if s1.contains (j : Int) then
        (List.map (fun (k : Nat) => if s2.contains (k : Int) then
          element_234 mem I (j : Int) (k : Int) else 0) (List.range 4)).sum else 0)
        (List.range 3)).sum :=
    fun I => slice_sum_reindex s1 3 (fun J =>
      (List.map (fun (k : Nat) => if s2.contains (k : Int) then
        element_234 mem I J (k : Int) else 0) (List.range 4)).sum) h1.1 h1.2.1 h1.2.2.1 h1.2.2.2
  have e0 :
      (List.map (fun (a : Nat) =>
        (List.map (fun (j : Nat) => if s1.contains (j : Int) then
          (List.map (fun (k : Nat) => if s2.contains (k : Int) then
            element_234 mem (s0.first + (a : Int) * s0.step) (j : Int) (k : Int) else 0)
            (List.range 4)).sum else 0) (List.range 3)).sum) (List.range s0.size.toNat)).sum =
      (List.map (fun (i : Nat) => if s0.contains (i : Int) then
        (List.map (fun (j : Nat) => if s1.contains (j : Int) then
          (List.map (fun (k : Nat) => if s2.contains (k : Int) then
            element_234 mem (i : Int) (j : Int) (k : Int) else 0)
            (List.range 4)).sum else 0) (List.range 3)).sum else 0) (List.range 2)).sum :=
    slice_sum_reindex s0 2 (fun I =>
      (List.map (fun (j : Nat) => if s1.contains (j : Int) then
        (List.map (fun (k : Nat) => if s2.contains (k : Int) then
          element_234 mem I (j : Int) (k : Int) else 0)
          (List.range 4)).sum else 0) (List.range 3)).sum) h0.1 h0.2.1 h0.2.2.1 h0.2.2.2
  have hel : ∀ i j k : Nat, element_234 mem (i : Int) (j : Int) (k : Int) =
      mem (i * 12 + j * 4 + k) := by
    intro i j k
    unfold element_234
    congr 1
  have key : Array.sum
      { shape := [s0.size.toNat, s1.size.toNat, s2.size.toNat]
        strides := [12 * s0.step, 4 * s1.step, 1 * s2.step]
        offset := x.offset + s0.first * 12 + s1.first * 4 + s2.first * 1
        broadcast_mask := x.broadcast_mask
        memory := x.memory } mem =
      (List.map (fun (a : Nat) =>
        (List.map (fun (b : Nat) =>
          (List.map (fun (c : Nat) => element_234 mem (s0.first + (a : Int) * s0.step)
            (s1.first + (b : Int) * s1.step) (s2.first + (c : Int) * s2.step))
            (List.range s2.size.toNat)).sum)
          (List.range s1.size.toNat)).sum)
        (List.range s0.size.toNat)).sum := by
    simp only [Array.sum, sum_all_indices3, hat, element_234]
  rw [key]
  simp only [e2, e1]
  rw [e0]
  simp only [expected_sum, ite_sum_map, ite_ite_and, hel, Bool.and_assoc]

/-- C18: for a contiguous `{2,3,4}` `Array` `x` and three slices `s0`, `s1`,
`s2` with `0 <= begin < end <=` the dimension and a step other than 0 (so for
every step in `{-2,-1,1,2}`), the view `x[s0][s1][s2]` exists, shares the
memory of `x`, and its sum is the sum of the elements of `x` at the positions
`(i,j,k)` with `s0.contains(i)`, `s1.contains(j)` and `s2.contains(k)`. A slice
with positive step contains `begin, begin+step, ...` and a slice with negative
step contains `end-1, end-1-|step|, ...`, as many as its size. For
`x = arange([2,3,4])` the view `x[Slice(0,-1)][2][Slice(0,4,-2)]` sums to 20. -/
theorem slicing_sum_contains (x : Array) (mem : Nat → Int) (s0 s1 s2 : Slice)
    (hshape : x.shape = [2, 3, 4]) (hstr : x.strides = []) (hoff : x.offset = 0)
    (hmask : ∀ b ∈ x.broadcast_mask, b = false)
    (h0 : 0 ≤ s0.start ∧ s0.start < s0.end_ ∧ s0.end_ ≤ 2 ∧ s0.step ≠ 0)
    (h1 : 0 ≤ s1.start ∧ s1.start < s1.end_ ∧ s1.end_ ≤ 3 ∧ s1.step ≠ 0)
    (h2 : 0 ≤ s2.start ∧ s2.start < s2.end_ ∧ s2.end_ ≤ 4 ∧ s2.step ≠ 0) :
    (∃ v, x.slice3 s0 s1 s2 = .ok v ∧ v.memory = x.memory ∧
      v.sum mem = expected_sum mem (fun (i : Nat) => s0.contains (i : Int))
        (fun (j : Nat) => s1.contains (j : Int)) (fun (k : Nat) => s2.contains (k : Int))) ∧
    (∀ s ∈ [s0, s1, s2], ∀ i : Int, s.contains i = true ↔
      ∃ a : Nat, (a : Int) < s.size ∧
        i = if 0 < s.step then s.start + (a : Int) * s.step
            else s.end_ - 1 - (a : Int) * |s.step|) ∧
    proper_slicing_view.map (fun v => v.sum arange_mem) = .ok 20 := by
  obtain ⟨v, hv, hm, _, hsum⟩ := slice3_sum_eq x mem s0 s1 s2 hshape hstr hoff hmask h0 h1 h2
  refine ⟨⟨v, hv, hm, hsum⟩, ?_, by decide⟩
  intro s hs i
  have hstep : s.step ≠ 0 := by
    simp only [List.mem_cons, List.mem_singleton, List.not_mem_nil, or_false] at hs
    rcases hs with h | h | h
    · rw [h]; exact h0.2.2.2
    · rw [h]; exact h1.2.2.2
    · rw [h]; exact h2.2.2.2
  have hfirst : ∀ a : Nat, s.first + (a : Int) * s.step =
      if 0 < s.step then s.start + (a : Int) * s.step
      else s.end_ - 1 - (a : Int) * |s.step| := by
    intro a
    unfold Slice.first
    by_cases hp : 0 < s.step
    · simp only [if_pos hp]
    · have hneg : s.step < 0 := by omega
      simp only [if_neg hp, abs_of_neg hneg]
      ring
  constructor
  · intro hc
    obtain ⟨a, ha, hai⟩ := slice_contains_visit s hstep i hc
    exact ⟨a, ha, by rw [← hfirst a, hai]⟩
  · rintro ⟨a, ha, hai⟩
    rw [hai, ← hfirst a]
    exact slice_visit_contains s hstep a ha

/-- C18 at `x = arange([2,3,4])` and the slices `Slice(0,2,-1)`,
`Slice(1,3,2)` and `Slice(0,4,-2)`: the view sums the elements at
`i ∈ {0,1}`, `j = 1`, `k ∈ {1,3}`, which is `5 + 7 + 17 + 19 = 48`; and the
slices of the test `slice_contains` contain what the test expects. -/
theorem slicing_sum_contains_witness :
    (∃ v, build_234_arange.slice3 { start := 0, end_ := 2, step := -1 }
        { start := 1, end_ := 3, step := 2 } { start := 0, end_ := 4, step := -2 } = .ok v ∧
      v.sum arange_mem = 48) ∧
    Slice.contains { start := 0, end_ := 12, step := 2 } 0 = true ∧
    Slice.contains { start := 0, end_ := 12, step := 2 } 1 = false ∧
    Slice.contains { start := 0, end_ := 12, step := -2 } 0 = false ∧
    Slice.contains { start := 0, end_ := 12, step := -2 } 1 = true := by
  obtain ⟨⟨v, hv, _, hsum⟩, _, _⟩ :=
    slicing_sum_contains build_234_arange arange_mem { start := 0, end_ := 2, step := -1 }
      { start := 1, end_ := 3, step := 2 } { start := 0, end_ := 4, step := -2 } rfl rfl rfl
      (by decide) (by decide) (by decide) (by decide)
  refine ⟨⟨v, hv, ?_⟩, by decide, by decide, by decide, by decide⟩
  rw [hsum]
  decide

end SlicingSums

/-! ## Theorems: the character-prediction driver -/

section CharacterSequences

theorem get_character_sequences_loop_line (prepad postpad vocab_size : Int) (l : List Nat)
    (hl : ∀ b ∈ l, b < 255 ∧ b ≠ 10) (rest : List Nat) (s : List (List Int) × List Int) :
    get_character_sequences_loop prepad postpad vocab_size (l ++ 10 :: rest) s =
      get_character_sequences_loop prepad postpad vocab_size rest
        (s.1 ++ [s.2 ++ List.map (fun (b : Nat) => min (vocab_size - 1) (to_char (b : Int))) l ++ [postpad]],
          [0, 0, prepad]) := by
  induction l generalizing s with
  | nil =>
    simp [get_character_sequences_loop, to_char, linebreak]
  | cons b l ih =>
    obtain ⟨hb1, hb2⟩ := hl b (by simp)
    have h1 : to_char (b : Int) ≠ linebreak := by
      unfold to_char linebreak; omega
    have h2 : to_char (b : Int) ≠ EOF := by
      unfold to_char EOF; omega
    rw [List.cons_append, get_character_sequences_loop]
    simp only [if_neg h1, if_neg h2]
    rw [ih (fun c hc => hl c (by simp [hc]))]
    simp

/-- What `get_character_sequences` returns for a file of newline-terminated
lines without a byte `0xFF`: one sequence per line, which is `0, 0, prepad`,
the codes of the line and `postpad`, and one more sequence `0, 0, prepad`
after them. -/
theorem get_character_sequences_text_file (prepad postpad vocab_size : Int)
    (lines : List (List Nat)) (hl : ∀ l ∈ lines, ∀ b ∈ l, b < 255 ∧ b ≠ 10) :
    get_character_sequences (some (text_file lines)) prepad postpad vocab_size =
      lines.map (fun l => [0, 0, prepad] ++
        List.map (fun (b : Nat) => min (vocab_size - 1) (to_char (b : Int))) l ++ [postpad]) ++
      [[0, 0, prepad]] := by
  have key : ∀ (ls : List (List Nat)), (∀ l ∈ ls, ∀ b ∈ l, b < 255 ∧ b ≠ 10) →
      ∀ done : List (List Int),
      get_character_sequences_loop prepad postpad vocab_size (text_file ls)
          (done, [0, 0, prepad]) =
        (done ++ ls.map (fun l => [0, 0, prepad] ++
          List.map (fun (b : Nat) => min (vocab_size - 1) (to_char (b : Int))) l ++ [postpad]), [0, 0, prepad]) := by
    intro ls
    induction ls with
    | nil => intro _ done; simp [text_file, get_character_sequences_loop]
    | cons l ls ih =>
      intro h done
      have e : text_file (l :: ls) = l ++ 10 :: text_file ls := by
        simp [text_file]
      rw [e, get_character_sequences_loop_line _ _ _ l (h l (by simp))]
      rw [ih (fun l2 h2 => h l2 (by simp [h2]))]
      simp
  simp only [get_character_sequences, key lines hl, List.nil_append]

/-- C22: `get_character_sequences` on the file `"ab\n"` (one newline-terminated
line) with `prepad = 7`, `postpad = 9` and `vocab_size = 300` returns the two
sequences `0, 0, 7, 97, 98, 9` and `0, 0, 7`: not one sequence, and the
sequence of the line is not `7, 97, 98, 9` (its length is the line's length
plus 4 and its first element is 0). -/
theorem get_character_sequences_one_line :
    get_character_sequences (some (text_file [[97, 98]])) 7 9 300 =
      [[0, 0, 7, 97, 98, 9], [0, 0, 7]] ∧
    (get_character_sequences (some (text_file [[97, 98]])) 7 9 300).length ≠ 1 ∧
    (get_character_sequences (some (text_file [[97, 98]])) 7 9 300).head? ≠
      some [7, 97, 98, 9] := by
  decide

/-- The code stored for a byte `0x80 <= b < 0xFF`, whatever `vocab_size >= 1`
is: `std::min(vocab_size-1, (int)ch)` is `b - 256`, a negative number. -/
theorem get_character_sequences_high_byte (b : Nat) (vocab_size prepad postpad : Int)
    (hb1 : 128 ≤ b) (hb2 : b < 255) (hv : 1 ≤ vocab_size) :
    get_character_sequences (some (text_file [[b]])) prepad postpad vocab_size =
      [[0, 0, prepad, (b : Int) - 256, postpad], [0, 0, prepad]] ∧
    (b : Int) - 256 < 0 := by
  have h := get_character_sequences_text_file prepad postpad vocab_size [[b]] (by
    intro l hl c hc
    simp only [List.mem_singleton] at hl
    subst hl
    simp only [List.mem_singleton] at hc
    subst hc
    omega)
  have hc : min (vocab_size - 1) (to_char (b : Int)) = (b : Int) - 256 := by
    unfold to_char
    omega
  rw [h]
  simp only [List.map_cons, List.map_nil, hc]
  exact ⟨rfl, by omega⟩

/-- C23: on the file `"é\n"` in UTF-8 (bytes `0xC3 0xA9 0x0A`) with
`prepad = 0`, `postpad = 299` and `vocab_size = 300`, as `main` sets them,
`get_character_sequences` stores the codes `-61` and `-87` for the two bytes
of the character: they are not in `[0, vocab_size-1]`. -/
theorem get_character_sequences_negative_code :
    get_character_sequences (some (text_file [[195, 169]])) 0 299 300 =
      [[0, 0, 0, -61, -87, 299], [0, 0, 0]] ∧
    ¬ ((0 : Int) ≤ -61 ∧ (-61 : Int) ≤ 300 - 1) := by
  decide

end CharacterSequences

/-! ## Theorems: the strided path on row-major strides -/

section RowMajorPlan

theorem row_major_strides_append (L : List Nat) (s : Nat) :
    row_major_strides (L ++ [s]) =
      List.map (fun (t : Int) => t * (s : Int)) (row_major_strides L) ++ [1] := by
  induction L with
  | nil => simp [row_major_strides]
  | cons a L ih =>
    show (((L ++ [s]).prod : Nat) : Int) :: row_major_strides (L ++ [s]) = _
    rw [ih]
    simp [row_major_strides]

theorem dot_map_mul (xs : List Nat) (ys : List Int) (s : Int) :
    dot xs (List.map (fun (t : Int) => t * s) ys) = dot xs ys * s := by
  induction xs generalizing ys with
  | nil => simp [dot]
  | cons x xs ih =>
    cases ys with
    | nil => simp [dot]
    | cons y ys =>
      have h := ih ys
      simp only [dot, List.map_cons, List.zipWith_cons_cons, List.sum_cons] at h ⊢
      rw [h]; ring

theorem dot_row_major (L xs : List Nat) (h : xs.length = L.length) :
    dot xs (row_major_strides L) = (ravel L xs : Nat) := by
  induction L generalizing xs with
  | nil =>
    cases xs with
    | nil => simp [dot, ravel, row_major_strides]
    | cons x xs => simp at h
  | cons a L ih =>
    cases xs with
    | nil => simp at h
    | cons x xs =>
      have h2 := ih xs (by simpa using h)
      simp only [dot, row_major_strides, List.zipWith_cons_cons, List.sum_cons, ravel] at h2 ⊢
      rw [h2]; push_cast; ring

theorem mem_le_prod (L : List Nat) (hpos : ∀ s ∈ L, 0 < s) (s : Nat) (hs : s ∈ L) :
    s ≤ L.prod := by
  have hp : 0 < L.prod := List.prod_pos (fun a ha => hpos a ha)
  exact Nat.le_of_dvd hp (List.dvd_prod hs)

theorem map_indices_row_major (lead : List Nat) (last i j : Nat)
    (hpos : ∀ s ∈ lead ++ [last], 0 < s) (hsize : (lead ++ [last]).prod < 2 ^ 32)
    (hi : i < lead.prod) (hj : j < last) :
    (strided_plan (lead ++ [last]) (row_major_strides (lead ++ [last]))).map_indices_using_stride
      i j = some (i, j) := by
  have hpos32 : ∀ s ∈ lead ++ [last], 0 < s ∧ s < 2 ^ 32 := fun s hs =>
    ⟨hpos s hs, lt_of_le_of_lt (mem_le_prod _ hpos s hs) hsize⟩
  have hlen : (row_major_strides (lead ++ [last])).length = (lead ++ [last]).length :=
    row_major_strides_length _
  have hn : (lead ++ [last]).length = lead.length + 1 := by simp
  obtain ⟨off, hloop, hofflt, hoffmod⟩ :=
    stride_loop_spec (lead ++ [last]) (row_major_strides (lead ++ [last])) hlen hpos32
      lead.length (by omega) 0 i (by norm_num)
  have htake : (lead ++ [last]).take lead.length = lead := List.take_left' rfl
  have hstake : (row_major_strides (lead ++ [last])).take lead.length =
      List.map (fun (t : Int) => t * (last : Int)) (row_major_strides lead) := by
    rw [row_major_strides_append]
    exact List.take_left' (by simp [row_major_strides_length])
  rw [htake, hstake, dot_map_mul, dot_row_major _ _ (unravel_length lead i), ravel_unravel,
    Nat.mod_eq_of_lt hi] at hoffmod
  rw [htake, Nat.div_eq_of_lt hi] at hloop
  have hprod : (lead ++ [last]).prod = lead.prod * last := by simp
  have hil : i * last < 2 ^ 32 := by
    have : i * last < lead.prod * last := Nat.mul_lt_mul_of_pos_right hi (by omega)
    omega
  have hoffmod2 : (off : Int) ≡ ((i * last : Nat) : Int) [ZMOD 2 ^ 32] := by
    simpa using hoffmod
  have hoff : off = i * last := by
    have h := modEq_eq_of_bounds hoffmod2 (by omega) (by exact_mod_cast hofflt)
      (by omega) (by exact_mod_cast hil)
    exact_mod_cast h
  have hlast32 : last < 2 ^ 32 := (hpos32 last (by simp)).2
  obtain ⟨hsh, _⟩ := strided_plan_shape_getD (lead ++ [last])
    (row_major_strides (lead ++ [last])) lead.length (by omega) hpos32
  have hbound : lead.length < (lead ++ [last]).length := by omega
  have hget : (lead ++ [last])[lead.length] = last := by simp
  rw [hget] at hsh
  have hst : (strided_plan (lead ++ [last]) (row_major_strides (lead ++ [last]))).strides.getD
      lead.length 0 = 1 := by
    simp [strided_plan, row_major_strides_append, List.getD_eq_getElem?_getD,
      row_major_strides_length]
  have hnd : (strided_plan (lead ++ [last]) (row_major_strides (lead ++ [last]))).ndim =
      lead.length + 1 := hn
  have h1 : to_index_t 1 = 1 := by decide
  rw [Plan.map_indices_using_stride, hnd, if_neg (by omega)]
  simp only [Nat.add_sub_cancel, hloop, hsh, hst, h1, hoff]
  rw [if_neg (by omega), Nat.mul_div_cancel _ (by omega : 0 < last), Nat.mul_mod_left,
    Nat.zero_add, Nat.mul_one, Nat.mod_eq_of_lt (by omega)]

/-- C25: when the recorded strides of an `Array` are the row-major strides of
its shape (every size positive, the number of elements within `index_t`),
`map_indices_using_stride` maps every position `(i, j)` of the 2-D collapsed
view to itself, so that `Eval` and `REval` return the element the stride-free
path returns, the one at index `i * s_last + j` of the wrapped tensor. -/
theorem map_indices_row_major_identity (shape : List Nat) (i j : Nat) (hne : shape ≠ [])
    (hpos : ∀ s ∈ shape, 0 < s) (hsize : shape.prod < 2 ^ 32)
    (hi : i < shape.dropLast.prod) (hj : j < shape.getLast hne) :
    (strided_plan shape (row_major_strides shape)).map_indices_using_stride i j = some (i, j) ∧
    (strided_plan shape (row_major_strides shape)).Eval i j =
      Plan.Eval { strided_plan shape (row_major_strides shape) with has_strides := false } i j ∧
    (strided_plan shape (row_major_strides shape)).Eval i j =
      some (i * shape.getLast hne + j) := by
  obtain ⟨lead, last, rfl⟩ : ∃ lead last, shape = lead ++ [last] :=
    ⟨shape.dropLast, shape.getLast hne, (List.dropLast_append_getLast hne).symm⟩
  have hl : (lead ++ [last]).getLast hne = last := by simp
  have hd : (lead ++ [last]).dropLast = lead := by simp
  rw [hd] at hi
  rw [hl] at hj
  have hmap := map_indices_row_major lead last i j hpos hsize hi hj
  have hprod : (lead ++ [last]).prod = lead.prod * last := by simp
  have hlt : i * last + j < 2 ^ 32 := by
    have h1 : (i + 1) * last ≤ lead.prod * last := Nat.mul_le_mul_right _ hi
    have h2 : (i + 1) * last = i * last + last := by ring
    omega
  have hstride : (strided_plan (lead ++ [last]) (row_major_strides (lead ++ [last]))).stride_ =
      last := by
    simp [strided_plan]
  have hE : (strided_plan (lead ++ [last]) (row_major_strides (lead ++ [last]))).Eval i j =
      some (i * last + j) := by
    simp only [Plan.Eval, hmap, hstride, Nat.mod_eq_of_lt hlt]
    rfl
  refine ⟨hmap, ?_, by rw [hE, hl]⟩
  rw [hE]
  simp only [Plan.Eval, hstride, Nat.mod_eq_of_lt hlt]
  rfl

/-- C25 at the shape `{2,3,4}` with the strides `{12,4,1}`: the position
`(5, 3)` of the `6 x 4` collapsed view is mapped to itself and is the element
at index 23. -/
theorem map_indices_row_major_identity_witness :
    (strided_plan [2, 3, 4] [12, 4, 1]).map_indices_using_stride 5 3 = some (5, 3) ∧
    (strided_plan [2, 3, 4] [12, 4, 1]).Eval 5 3 = some 23 := by
  have h := map_indices_row_major_identity [2, 3, 4] 5 3 (by decide) (by decide) (by decide)
    (by decide) (by decide)
  exact ⟨h.1, h.2.2⟩

end RowMajorPlan

/-! ## Theorems: fresh sides are allocated, allocated memories have a fresh side -/

namespace SynchronizedMemory

section FreshAllocated

variable {R : Type} [Zero R]

theorem step_reachable {w w' : World R} {m m' : SynchronizedMemory} (h : Reachable w m)
    (hs : Step (w, m) (w', m')) : Reachable w' m' := by
  cases hs with
  | cpu_data hstep => exact Reachable.cpu_data h hstep
  | gpu_data hstep => exact Reachable.gpu_data h hstep
  | mutable_cpu_data f hstep => exact Reachable.mutable_cpu_data f h hstep
  | mutable_gpu_data f hstep => exact Reachable.mutable_gpu_data f h hstep
  | clear hstep => exact Reachable.clear h hstep
  | lazy_clear hstep => exact Reachable.lazy_clear h hstep

theorem clear_some_fresh {w w' : World R} {m m' : SynchronizedMemory} (hc : Consistent m)
    (hstep : m.clear w = some (w', m')) : m'.cpu_fresh = true ∨ m'.gpu_fresh = true := by
  obtain ⟨w2, m2, p2, heq, -, -, -, -, -, hg, hcpu⟩ := clear_spec m w hc
  rw [heq] at hstep
  simp only [Option.some.injEq, Prod.mk.injEq] at hstep
  obtain ⟨rfl, rfl⟩ := hstep
  cases hdev : m.preferred_device
  · exact Or.inr (hg hdev).2.2.1
  · exact Or.inl (hcpu hdev).2.2.1

/-- After any call that returns, some side is fresh, provided some side was
fresh before (only `lazy_clear` on a memory without host buffer keeps the flags
as they were). -/
theorem step_some_fresh {w w' : World R} {m m' : SynchronizedMemory} (hc : Consistent m)
    (hf : m.cpu_fresh = true ∨ m.gpu_fresh = true)
    (hs : Step (w, m) (w', m')) : m'.cpu_fresh = true ∨ m'.gpu_fresh = true := by
  cases hs with
  | cpu_data hstep =>
    obtain ⟨w2, m2, p2, heq, -, -, hcf, -⟩ := to_cpu_spec m w hc
    simp only [cpu_data, heq, Option.some.injEq, Prod.mk.injEq] at hstep
    obtain ⟨-, -, rfl⟩ := hstep
    exact Or.inl hcf
  | gpu_data hstep =>
    obtain ⟨w2, m2, p2, heq, -, -, hgf, -⟩ := to_gpu_spec m w hc
    simp only [gpu_data, heq, Option.some.injEq, Prod.mk.injEq] at hstep
    obtain ⟨-, -, rfl⟩ := hstep
    exact Or.inr hgf
  | mutable_cpu_data f hstep =>
    obtain ⟨w2, m2, p2, heq, -, -, hcf, -⟩ := to_cpu_spec m w hc
    simp only [mutable_cpu_data, heq, Option.some.injEq, Prod.mk.injEq] at hstep
    obtain ⟨-, -, rfl⟩ := hstep
    exact Or.inl hcf
  | mutable_gpu_data f hstep =>
    obtain ⟨w2, m2, p2, heq, -, -, hgf, -⟩ := to_gpu_spec m w hc
    simp only [mutable_gpu_data, heq, Option.some.injEq, Prod.mk.injEq] at hstep
    obtain ⟨-, -, rfl⟩ := hstep
    exact Or.inr hgf
  | clear hstep => exact clear_some_fresh hc hstep
  | lazy_clear hstep =>
    rw [lazy_clear_eq] at hstep
    split at hstep
    · exact clear_some_fresh hc hstep
    · simp only [Option.some.injEq, Prod.mk.injEq] at hstep
      obtain ⟨-, rfl⟩ := hstep
      exact hf

theorem reachable_allocated_fresh {w : World R} {m : SynchronizedMemory} (h : Reachable w m) :
    (m.allocated_cpu = true ∨ m.allocated_gpu = true) →
      (m.cpu_fresh = true ∨ m.gpu_fresh = true) := by
  induction h with
  | construct w total inner dev clr m h =>
    have := consistent_construct h
    intro ha
    rcases ha with ha | ha
    · simp [this.2.2.2.1] at ha
    · simp [this.2.2.2.2.1] at ha
  | @copy w w' other m hprev hcopy _ =>
    obtain ⟨w2, m2, heq, -, -, -, -, -, -, hnone, hsome⟩ :=
      copy_construct_spec other w (reachable_inv hprev).1
    rw [heq] at hcopy
    simp only [Option.some.injEq, Prod.mk.injEq] at hcopy
    obtain ⟨rfl, rfl⟩ := hcopy
    intro ha
    by_cases hf : other.cpu_fresh = true ∨ other.gpu_fresh = true
    · obtain ⟨p, s, -, -, -, hcpu, hgpu⟩ := hsome hf
      cases hdev : other.preferred_device
      · exact Or.inr (hgpu hdev).2.2.2.1
      · exact Or.inl (hcpu hdev).2.2.2.1
    · have h1 : other.cpu_fresh = false := by
        cases hx : other.cpu_fresh
        · rfl
        · exact absurd (Or.inl hx) hf
      have h2 : other.gpu_fresh = false := by
        cases hx : other.gpu_fresh
        · rfl
        · exact absurd (Or.inr hx) hf
      obtain ⟨-, hac, hag, -⟩ := hnone h1 h2
      rcases ha with ha | ha
      · simp [hac] at ha
      · simp [hag] at ha
  | @cpu_data w w' m m' p hprev hstep _ =>
    intro _
    obtain ⟨w2, m2, p2, heq, -, -, hcf, -⟩ := to_cpu_spec m w (reachable_inv hprev).1
    simp only [cpu_data, heq, Option.some.injEq, Prod.mk.injEq] at hstep
    obtain ⟨-, -, rfl⟩ := hstep
    exact Or.inl hcf
  | @gpu_data w w' m m' p hprev hstep _ =>
    intro _
    obtain ⟨w2, m2, p2, heq, -, -, hgf, -⟩ := to_gpu_spec m w (reachable_inv hprev).1
    simp only [gpu_data, heq, Option.some.injEq, Prod.mk.injEq] at hstep
    obtain ⟨-, -, rfl⟩ := hstep
    exact Or.inr hgf
  | @mutable_cpu_data w w' m m' p f hprev hstep _ =>
    intro _
    obtain ⟨w2, m2, p2, heq, -, -, hcf, -⟩ := to_cpu_spec m w (reachable_inv hprev).1
    simp only [mutable_cpu_data, heq, Option.some.injEq, Prod.mk.injEq] at hstep
    obtain ⟨-, -, rfl⟩ := hstep
    exact Or.inl hcf
  | @mutable_gpu_data w w' m m' p f hprev hstep _ =>
    intro _
    obtain ⟨w2, m2, p2, heq, -, -, hgf, -⟩ := to_gpu_spec m w (reachable_inv hprev).1
    simp only [mutable_gpu_data, heq, Option.some.injEq, Prod.mk.injEq] at hstep
    obtain ⟨-, -, rfl⟩ := hstep
    exact Or.inr hgf
  | @clear w w' m m' hprev hstep _ =>
    intro _
    exact clear_some_fresh (reachable_inv hprev).1 hstep
  | @lazy_clear w w' m m' hprev hstep ih =>
    intro ha
    rw [lazy_clear_eq] at hstep
    split at hstep
    · exact clear_some_fresh (reachable_inv hprev).1 hstep
    · simp only [Option.some.injEq, Prod.mk.injEq] at hstep
      obtain ⟨-, rfl⟩ := hstep
      exact ih ha

theorem steps_reachable_fresh {s s' : World R × SynchronizedMemory}
    (hsteps : Relation.ReflTransGen Step s s') (h : Reachable s.1 s.2)
    (hf : s.2.cpu_fresh = true ∨ s.2.gpu_fresh = true) :
    Reachable s'.1 s'.2 ∧ (s'.2.cpu_fresh = true ∨ s'.2.gpu_fresh = true) := by
  induction hsteps with
  | refl => exact ⟨h, hf⟩
  | @tail b c _ hstep ih =>
    obtain ⟨wb, mb⟩ := b
    obtain ⟨wc, mc⟩ := c
    exact ⟨step_reachable ih.1 hstep, step_some_fresh (reachable_inv ih.1).1 ih.2 hstep⟩

/-- C26: in every state reachable from construction (plain or by copy)
through `cpu_data`, `gpu_data`, `mutable_cpu_data`, `mutable_gpu_data`, `clear`
and `lazy_clear`, a side marked fresh is allocated, and if a side is allocated
then a side is marked fresh; and once a side is fresh, some side is fresh
after any further sequence of these calls. -/
theorem fresh_allocated_invariant {w : World R} {m : SynchronizedMemory} (h : Reachable w m) :
    (m.cpu_fresh = true → m.allocated_cpu = true) ∧
    (m.gpu_fresh = true → m.allocated_gpu = true) ∧
    ((m.allocated_cpu = true ∨ m.allocated_gpu = true) →
      (m.cpu_fresh = true ∨ m.gpu_fresh = true)) ∧
    ((m.cpu_fresh = true ∨ m.gpu_fresh = true) →
      ∀ s', Relation.ReflTransGen Step (w, m) s' →
        (s'.2.cpu_fresh = true ∨ s'.2.gpu_fresh = true)) := by
  have hc := (reachable_inv h).1
  refine ⟨hc.2.2.2.1, hc.2.2.2.2.2, reachable_allocated_fresh h, ?_⟩
  intro hf s' hsteps
  exact (steps_reachable_fresh hsteps h hf).2

/-- C26 at the state reached by constructing a host-preferring memory, calling
`mutable_cpu_data()` and writing four elements: the host side is fresh and
allocated, and after a further `gpu_data()` a side is still fresh. -/
theorem fresh_allocated_invariant_witness :
    Reachable host_written.1 host_written.2 ∧
    host_written.2.cpu_fresh = true ∧ host_written.2.allocated_cpu = true ∧
    host_written.2.gpu_fresh = false ∧ host_written.2.allocated_gpu = false ∧
    (both_fresh.2.2.cpu_fresh = true ∨ both_fresh.2.2.gpu_fresh = true) :=
  have h0 : Reachable world0 mem_cpu0 :=
    Reachable.construct world0 4 2 DEVICE_CPU true mem_cpu0 rfl
  have h1 : Reachable host_written.1 host_written.2 :=
    @Reachable.mutable_cpu_data Int _ world0 host_mutable.2.1 mem_cpu0 host_mutable.2.2
      host_mutable.1 (fun i => (i : Int) + 10) h0 rfl
  have hs : Step (host_written.1, host_written.2) (both_fresh.2.1, both_fresh.2.2) :=
    @Step.gpu_data Int _ host_written.1 both_fresh.2.1 host_written.2 both_fresh.2.2
      both_fresh.1 rfl
  have h := fresh_allocated_invariant h1
  ⟨h1, rfl, h.1 rfl, rfl, rfl, h.2.2.2 (Or.inl rfl) _ (Relation.ReflTransGen.single hs)⟩

end FreshAllocated

end SynchronizedMemory

/-! ## Theorems: element access and views of TensorInternal -/

section TensorInternalAccess

theorem to_index_t_to_int_add (a d : Int) :
    to_index_t (to_int (to_index_t a) + d) = to_index_t (a + d) := by
  unfold to_int to_index_t
  have h0 : 0 ≤ a % (2 ^ 32 : Int) := Int.emod_nonneg _ (by norm_num)
  rw [Int.toNat_of_nonneg h0]
  congr 1
  omega

/-- C27: for a 2-D `TensorInternal` `t` of shape `(r, c)` whose elements lie
within the range of `int` and all `i < r`, `j < c`, the accesses `t(i, j)`,
`t[i](j)` and `t.ravel()(i*c + j)` return the same element of the same memory,
the one at index `offset + i*c + j` of its host buffer, so that reading them in
one state gives one value; and the row `t.Slice(b, e)[k]` is the same view
(same memory, shape and offset) as `t[b + k]`. -/
theorem tensor_internal_same_element (t : TensorInternal) (r c i j : Nat)
    (hshape : t.shape = [r, c]) (hoff : 0 ≤ t.offset)
    (hfit : t.offset + (r : Int) * (c : Int) < 2 ^ 31) (hi : i < r) (hj : j < c) :
    t.call2 i j = { memory_ := t.memory_, index := t.offset + (i : Int) * c + j } ∧
    (t.subscript i).call1 j = t.call2 i j ∧
    t.ravel.call1 ((i : Int) * c + j) = t.call2 i j ∧
    (t.subscript i).shape = [c] ∧ t.ravel.shape = [r * c] ∧
    (∀ (R : Type) [Zero R] (m : SynchronizedMemory) (w : World R),
      ((t.subscript i).call1 j).read m w = (t.call2 i j).read m w ∧
      (t.ravel.call1 ((i : Int) * c + j)).read m w = (t.call2 i j).read m w) ∧
    (∀ b e k : Nat, (t.Slice b e).subscript k = t.subscript (b + k)) := by
  have hic : (i : Int) * c + j < (r : Int) * c := by
    have h1 : ((i : Int) + 1) * c ≤ (r : Int) * c :=
      mul_le_mul_of_nonneg_right (by exact_mod_cast hi) (by positivity)
    have h2 : (j : Int) < c := by exact_mod_cast hj
    linarith
  have hic0 : (0 : Int) ≤ (i : Int) * c := by positivity
  have hrc : (r * c : Nat) < 2 ^ 32 := by
    have : ((r * c : Nat) : Int) < 2 ^ 32 := by push_cast; linarith
    exact_mod_cast this
  have h2 : t.call2 i j = { memory_ := t.memory_, index := t.offset + (i : Int) * c + j } := by
    simp only [TensorInternal.call2, hshape, List.getLastD_cons, List.getLastD_nil]
    rw [to_int_to_index_t _ (by positivity) (by linarith)]
    congr 1
    ring
  have h1 : (t.subscript i).call1 j = t.call2 i j := by
    rw [h2]
    simp only [TensorInternal.call1, TensorInternal.subscript, hshape, List.drop_succ_cons,
      List.drop_zero, List.prod_cons, List.prod_nil, mul_one]
    rw [to_int_to_index_t _ (by positivity) (by nlinarith)]
    congr 1
    ring
  have h3 : t.ravel.call1 ((i : Int) * c + j) = t.call2 i j := by
    rw [h2]
    simp only [TensorInternal.call1, TensorInternal.ravel]
    congr 1
    ring
  refine ⟨h2, h1, h3, ?_, ?_, ?_, ?_⟩
  · simp [TensorInternal.subscript, hshape]
  · simp only [TensorInternal.ravel, hshape, List.prod_cons, List.prod_nil, mul_one,
      Nat.mod_eq_of_lt hrc]
  · intro R _ m w
    rw [h1, h3]
    exact ⟨rfl, rfl⟩
  · intro b e k
    simp only [TensorInternal.subscript, TensorInternal.Slice, List.drop_set_of_lt _ _
      (by norm_num : 0 < 1), to_index_t_to_int_add]
    congr 3
    push_cast
    ring_nf

/-- C27 at the `3 x 4` tensor at offset 5 and `(i, j) = (2, 3)`: the three
accesses return the element at index `5 + 2*4 + 3 = 16`, and `Slice(1, 3)[1]`
is `t[2]`. -/
theorem tensor_internal_same_element_witness :
    tensor_3x4_at5.call2 2 3 = { memory_ := 0, index := 16 } ∧
    (tensor_3x4_at5.subscript 2).call1 3 = { memory_ := 0, index := 16 } ∧
    tensor_3x4_at5.ravel.call1 11 = { memory_ := 0, index := 16 } ∧
    (tensor_3x4_at5.Slice 1 3).subscript 1 = tensor_3x4_at5.subscript 2 := by
  have h := tensor_internal_same_element tensor_3x4_at5 3 4 2 3 rfl (by decide) (by decide)
    (by decide) (by decide)
  refine ⟨h.1, h.2.1.trans h.1, ?_, h.2.2.2.2.2.2 1 3 1⟩
  exact h.2.2.1.trans h.1

end TensorInternalAccess

/-! ## Theorems: constructing a TensorInternal -/

section TensorInternalConstruct

/-- For a shape whose last size is positive the constructor of
`TensorInternal` returns: the size of the shape is a multiple of its last
size. -/
theorem tensor_internal_construct_ok (shape : List Nat) (handle : Ptr) (dev : Device)
    (clr : Bool) (hne : shape ≠ []) (hlast : 0 < shape.getLast hne) :
    ∃ m, TensorInternal.construct shape handle dev clr =
        some ({ shape := shape, memory_ := handle, offset := 0 }, m) ∧
      m.total_memory = shape.prod ∧ m.inner_dimension = shape.getLast hne ∧
      (m.dummy_cpu).isSome = true := by
  have hl : shape.getLastD 0 = shape.getLast hne := by
    simp [List.getLastD_eq_getLast?, List.getLast?_eq_getLast _ hne]
  have hdvd : shape.getLast hne ∣ shape.prod := List.dvd_prod (List.getLast_mem hne)
  have hmod : shape.prod % shape.getLast hne = 0 := Nat.mod_eq_zero_of_dvd hdvd
  have h0 : shape.getLast hne ≠ 0 := by omega
  have hcon : ∃ m, SynchronizedMemory.construct shape.prod (shape.getLast hne) dev clr =
      some m ∧ m.total_memory = shape.prod ∧ m.inner_dimension = shape.getLast hne := by
    simp only [SynchronizedMemory.construct, if_neg h0, hmod, ne_eq, not_true_eq_false,
      if_false]
    exact ⟨_, rfl, rfl, rfl⟩
  obtain ⟨m, hm, ht, hi⟩ := hcon
  refine ⟨m, ?_, ht, hi, ?_⟩
  · simp only [TensorInternal.construct, hl, hm]
  · simp [SynchronizedMemory.dummy_cpu, hi, h0]

/-- C30: for the empty matrix of shape `(3, 0)` the constructor of
`TensorInternal` calls `SynchronizedMemory(0, 0)`, whose
`assert(total_memory % inner_dimension == 0)` divides by zero: the
construction fails, whatever the device and the clearing flag. In a build
without assertions the object has `inner_dimension = 0`, and `dummy_cpu()`,
which the first `cpu_data()` of a memory that clears on allocation calls,
divides `total_memory` by it. -/
theorem tensor_internal_construct_empty_matrix :
    (∀ (handle : Ptr) (dev : Device) (clr : Bool),
      TensorInternal.construct [3, 0] handle dev clr = none) ∧
    (∀ (dev : Device) (clr : Bool), SynchronizedMemory.construct 0 0 dev clr = none) ∧
    (∀ (dev : Device) (clr : Bool), (empty_matrix_memory dev clr).dummy_cpu = none) ∧
    (∀ dev : Device, (empty_matrix_memory dev true).cpu_data world0 = none) := by
  refine ⟨fun _ _ _ => rfl, fun _ _ => rfl, fun _ _ => rfl, ?_⟩
  intro dev
  cases dev <;> rfl

end TensorInternalConstruct

/-! ## Theorems: the two means, and the amount the cached allocator requests -/

section MeanAndAllocator

/-- C28: for the rank-1 `int32` array `x = [0,1,2,3,4,5]` the axis reduction
`op::mean(x, 0)` is `15 / 6 = 2`, the sum divided once by `n`, while the flat
reduction `op::mean(x)` divides every element by `n` before it sums and
returns `0`. -/
theorem mean_flat_differs_from_mean_axis :
    op.mean_axis [0, 1, 2, 3, 4, 5] 0 = some 2 ∧
    op.mean [0, 1, 2, 3, 4, 5] = some 0 ∧
    op.mean [0, 1, 2, 3, 4, 5] ≠ op.mean_axis [0, 1, 2, 3, 4, 5] 0 := by
  decide

/-- For the element types of 4 and 8 bytes (`float`, `int`, `uint`, `double`)
the floats requested hold the `n` elements. -/
theorem cached_allocator_amount_wide (sizeof_R n : Nat) (hs : sizeof_R = 4 ∨ sizeof_R = 8)
    (hn : n * sizeof_R < 2 ^ 33) :
    ((n * sizeof_R : Nat) : Int) ≤
      cached_allocator.amount sizeof_R n * cached_allocator.sizeof_float := by
  unfold cached_allocator.amount cached_allocator.sizeof_float
  have h64 : (n * sizeof_R) % 2 ^ 64 = n * sizeof_R := Nat.mod_eq_of_lt (by omega)
  rw [h64]
  have hd : (n * sizeof_R) / 4 * 4 = n * sizeof_R := by
    rcases hs with h | h <;> subst h <;> omega
  have hlt : (((n * sizeof_R) / 4 : Nat) : Int) < 2 ^ 31 := by
    have : (n * sizeof_R) / 4 < 2 ^ 31 := by omega
    exact_mod_cast this
  have hti : to_int (((n * sizeof_R) / 4 : Nat) : Int) = (((n * sizeof_R) / 4 : Nat) : Int) := by
    unfold to_int
    omega
  rw [hti]
  have : ((((n * sizeof_R) / 4 * 4 : Nat)) : Int) = ((n * sizeof_R : Nat) : Int) := by
    rw [hd]
  push_cast at this ⊢
  omega

/-- C29: `cached_allocator<char>::allocate(5)` asks the bank for
`5 * 1 / 4 = 1` float, a buffer of 4 bytes for 5 elements of one byte; for
`n = 1` it asks for 0 floats. -/
theorem cached_allocator_char_amount :
    cached_allocator.amount 1 5 = 1 ∧
    cached_allocator.amount 1 5 * cached_allocator.sizeof_float < 5 * 1 ∧
    cached_allocator.amount 1 1 = 0 ∧
    (cached_allocator.allocate 1 memory_bank.empty { cpu_next := 0, gpu_next := 0 }
      5).2.1.total_gpu_memory = 1 := by
  decide

end MeanAndAllocator

/-! ## Theorems: buffers in use and the frame of the member functions -/

section BankFrame

theorem nodup_getLast_not_mem_dropLast (box : List Ptr) (p : Ptr) (hn : box.Nodup)
    (hp : box.getLast? = some p) : p ∉ box.dropLast := by
  have h := List.dropLast_append_getLast? p hp
  rw [← h] at hn
  have := (List.nodup_append.mp hn).2.2
  intro hmem
  exact this hmem (by simp) 

theorem memory_bank_allocate_cpu_frame (b : memory_bank) (rt : memory_operations)
    (amount d : Int) :
    rt.cpu_next ≤ (b.allocate_cpu rt amount d).2.2.cpu_next ∧
    (b.allocate_cpu rt amount d).2.2.gpu_next = rt.gpu_next ∧
    (b.allocate_cpu rt amount d).2.1.gpu_memory_bank = b.gpu_memory_bank ∧
    ∀ k box', (b.allocate_cpu rt amount d).2.1.cpu_memory_bank k = some box' →
      ∃ box, b.cpu_memory_bank k = some box ∧ ∀ p ∈ box', p ∈ box := by
  unfold memory_bank.allocate_cpu
  split
  · rename_i box hbox
    split
    · rename_i q hq
      refine ⟨le_refl _, rfl, rfl, ?_⟩
      intro k box' hk
      by_cases hka : k = amount
      · subst hka
        simp only [Function.update_same, Option.some.injEq] at hk
        subst hk
        exact ⟨box, hbox, fun p hp => List.mem_of_mem_dropLast hp⟩
      · simp only [Function.update_noteq hka] at hk
        exact ⟨box', hk, fun p hp => hp⟩
    · refine ⟨Nat.le_succ _, rfl, rfl, ?_⟩
      intro k box' hk
      exact ⟨box', hk, fun p hp => hp⟩
  · refine ⟨Nat.le_succ _, rfl, rfl, ?_⟩
    intro k box' hk
    exact ⟨box', hk, fun p hp => hp⟩

theorem memory_bank_allocate_gpu_frame (b : memory_bank) (rt : memory_operations)
    (amount d : Int) :
    rt.gpu_next ≤ (b.allocate_gpu rt amount d).2.2.gpu_next ∧
    (b.allocate_gpu rt amount d).2.2.cpu_next = rt.cpu_next ∧
    (b.allocate_gpu rt amount d).2.1.cpu_memory_bank = b.cpu_memory_bank ∧
    ∀ k box', (b.allocate_gpu rt amount d).2.1.gpu_memory_bank k = some box' →
      ∃ box, b.gpu_memory_bank k = some box ∧ ∀ p ∈ box', p ∈ box := by
  unfold memory_bank.allocate_gpu
  split
  · rename_i box hbox
    split
    · rename_i q hq
      refine ⟨le_refl _, rfl, rfl, ?_⟩
      intro k box' hk
      by_cases hka : k = amount
      · subst hka
        simp only [Function.update_same, Option.some.injEq] at hk
        subst hk
        exact ⟨box, hbox, fun p hp => List.mem_of_mem_dropLast hp⟩
      · simp only [Function.update_noteq hka] at hk
        exact ⟨box', hk, fun p hp => hp⟩
    · refine ⟨Nat.le_succ _, rfl, rfl, ?_⟩
      intro k box' hk
      exact ⟨box', hk, fun p hp => hp⟩
  · refine ⟨Nat.le_succ _, rfl, rfl, ?_⟩
    intro k box' hk
    exact ⟨box', hk, fun p hp => hp⟩

end BankFrame

namespace SynchronizedMemory

section MemberFrame

variable {R : Type}

theorem in_use_le_refl (w : World R) : w.in_use_le w := ⟨fun _ h => h, fun _ h => h⟩

theorem in_use_le_trans {w1 w2 w3 : World R} (h12 : w1.in_use_le w2) (h23 : w2.in_use_le w3) :
    w1.in_use_le w3 :=
  ⟨fun c h => h23.1 c (h12.1 c h), fun g h => h23.2 g (h12.2 g h)⟩

theorem in_use_le_of_bank {w w' : World R} (hb : w'.bank = w.bank)
    (hr : w'.runtime = w.runtime) : w.in_use_le w' := by
  constructor
  · intro c h
    unfold World.cpu_in_use at h ⊢
    rw [hb, hr]; exact h
  · intro g h
    unfold World.gpu_in_use at h ⊢
    rw [hb, hr]; exact h

theorem Copy_frame {hd hs c : Heap R} {dst src : Tensor} (h : Copy hd hs dst src = some c)
    (q : Ptr) (hq : dst.dptr_ ≠ some q) : c q = hd q := by
  unfold Copy at h
  split at h
  · cases h
  · split at h
    · rename_i p s hp hs
      simp only [Option.some.injEq] at h
      subst h
      funext i
      have : q ≠ p := fun e => hq (by rw [hp, e])
      simp [this]
    · cases h

theorem fill_frame {hp c : Heap R} {t : Tensor} {v : R} (h : t.fill hp v = some c)
    (q : Ptr) (hq : t.dptr_ ≠ some q) : c q = hp q := by
  unfold Tensor.fill at h
  split at h
  · cases h
  · rename_i p hpq
    simp only [Option.some.injEq] at h
    subst h
    funext i
    have : q ≠ p := fun e => hq (by rw [hpq, e])
    simp [this]

theorem allocate_cpu_frame (m : SynchronizedMemory) (w : World R) :
    (m.allocate_cpu w).2.1.cpu = w.cpu ∧ (m.allocate_cpu w).2.1.gpu = w.gpu ∧
    w.in_use_le (m.allocate_cpu w).2.1 ∧
    (m.allocate_cpu w).2.2.gpu_ptr = m.gpu_ptr ∧
    (∀ c, w.cpu_in_use c → m.cpu_ptr ≠ some c → (m.allocate_cpu w).2.2.cpu_ptr ≠ some c) := by
  unfold allocate_cpu
  split
  · exact ⟨rfl, rfl, in_use_le_refl w, rfl, fun _ _ h => h⟩
  · obtain ⟨h1, h2, h3, h4⟩ :=
      memory_bank_allocate_cpu_frame w.bank w.runtime m.total_memory m.inner_dimension
    refine ⟨rfl, rfl, ⟨?_, ?_⟩, rfl, ?_⟩
    · intro c hc
      refine ⟨lt_of_lt_of_le hc.1 h1, ?_⟩
      intro k box' hk hmem
      obtain ⟨box, hbox, hsub⟩ := h4 k box' hk
      exact hc.2 k box hbox (hsub c hmem)
    · intro g hg
      refine ⟨?_, ?_⟩
      · show g < _
        rw [h2]; exact hg.1
      · intro k box hk
        simp only at hk
        rw [h3] at hk
        exact hg.2 k box hk
    · intro c hc _ heq
      simp only [Option.some.injEq] at heq
      exact allocate_cpu_ne_of_in_use w c hc _ _ heq.symm

theorem allocate_gpu_frame (m : SynchronizedMemory) (w : World R) :
    (m.allocate_gpu w).2.1.cpu = w.cpu ∧ (m.allocate_gpu w).2.1.gpu = w.gpu ∧
    w.in_use_le (m.allocate_gpu w).2.1 ∧
    (m.allocate_gpu w).2.2.cpu_ptr = m.cpu_ptr ∧
    (∀ g, w.gpu_in_use g → m.gpu_ptr ≠ some g → (m.allocate_gpu w).2.2.gpu_ptr ≠ some g) := by
  unfold allocate_gpu
  split
  · exact ⟨rfl, rfl, in_use_le_refl w, rfl, fun _ _ h => h⟩
  · obtain ⟨h1, h2, h3, h4⟩ :=
      memory_bank_allocate_gpu_frame w.bank w.runtime m.total_memory m.inner_dimension
    refine ⟨rfl, rfl, ⟨?_, ?_⟩, rfl, ?_⟩
    · intro c hc
      refine ⟨?_, ?_⟩
      · show c < _
        rw [h2]; exact hc.1
      · intro k box hk
        simp only at hk
        rw [h3] at hk
        exact hc.2 k box hk
    · intro g hg
      refine ⟨lt_of_lt_of_le hg.1 h1, ?_⟩
      intro k box' hk hmem
      obtain ⟨box, hbox, hsub⟩ := h4 k box' hk
      exact hg.2 k box hbox (hsub g hmem)
    · intro g hg _ heq
      simp only [Option.some.injEq] at heq
      exact allocate_gpu_ne_of_in_use w g hg _ _ heq.symm

theorem dummy_cpu_dptr {m : SynchronizedMemory} {t : Tensor} (h : m.dummy_cpu = some t) :
    t.dptr_ = m.cpu_ptr := by
  unfold dummy_cpu at h
  split at h
  · cases h
  · simp only [Option.some.injEq] at h
    subst h; rfl

theorem dummy_gpu_dptr {m : SynchronizedMemory} {t : Tensor} (h : m.dummy_gpu = some t) :
    t.dptr_ = m.gpu_ptr := by
  unfold dummy_gpu at h
  split at h
  · cases h
  · simp only [Option.some.injEq] at h
    subst h; rfl

end MemberFrame

end SynchronizedMemory

namespace SynchronizedMemory

section SyncFrame

variable {R : Type} [Zero R]

theorem to_cpu_frame {m m' : SynchronizedMemory} {w w' : World R}
    (h : m.to_cpu w = some (w', m')) :
    w'.gpu = w.gpu ∧ m'.gpu_ptr = m.gpu_ptr ∧ w.in_use_le w' ∧
    (∀ c, w.cpu_in_use c → m.cpu_ptr ≠ some c → m'.cpu_ptr ≠ some c) ∧
    (∀ q, m'.cpu_ptr ≠ some q → w'.cpu q = w.cpu q) := by
  obtain ⟨a1, a2, a3, a4, a5⟩ := allocate_cpu_frame m w
  unfold to_cpu at h
  split at h
  · simp only at h
    split at h
    · split at h
      · rename_i mem_gpu mem_cpu hg hc
        split at h
        · rename_i c hcopy
          simp only [Option.some.injEq, Prod.mk.injEq] at h
          obtain ⟨rfl, rfl⟩ := h
          refine ⟨a2, a4, a3, a5, ?_⟩
          intro q hq
          rw [← a1]
          exact Copy_frame hcopy q (by rw [dummy_cpu_dptr hc]; exact hq)
        · cases h
      · cases h
    · split at h
      · split at h
        · rename_i t ht
          split at h
          · rename_i c hfill
            simp only [Option.some.injEq, Prod.mk.injEq] at h
            obtain ⟨rfl, rfl⟩ := h
            refine ⟨a2, a4, a3, a5, ?_⟩
            intro q hq
            rw [← a1]
            exact fill_frame hfill q (by rw [dummy_cpu_dptr ht]; exact hq)
          · cases h
        · cases h
      · simp only [Option.some.injEq, Prod.mk.injEq] at h
        obtain ⟨rfl, rfl⟩ := h
        exact ⟨a2, a4, a3, a5, fun q _ => by rw [a1]⟩
  · simp only [Option.some.injEq, Prod.mk.injEq] at h
    obtain ⟨rfl, rfl⟩ := h
    exact ⟨rfl, rfl, in_use_le_refl _, fun _ _ hne => hne, fun _ _ => rfl⟩

theorem to_gpu_frame {m m' : SynchronizedMemory} {w w' : World R}
    (h : m.to_gpu w = some (w', m')) :
    w'.cpu = w.cpu ∧ m'.cpu_ptr = m.cpu_ptr ∧ w.in_use_le w' ∧
    (∀ g, w.gpu_in_use g → m.gpu_ptr ≠ some g → m'.gpu_ptr ≠ some g) ∧
    (∀ q, m'.gpu_ptr ≠ some q → w'.gpu q = w.gpu q) := by
  obtain ⟨a1, a2, a3, a4, a5⟩ := allocate_gpu_frame m w
  unfold to_gpu at h
  split at h
  · simp only at h
    split at h
    · split at h
      · rename_i mem_gpu mem_cpu hg hc
        split at h
        · rename_i c hcopy
          simp only [Option.some.injEq, Prod.mk.injEq] at h
          obtain ⟨rfl, rfl⟩ := h
          refine ⟨a1, a4, a3, a5, ?_⟩
          intro q hq
          rw [← a2]
          exact Copy_frame hcopy q (by rw [dummy_gpu_dptr hg]; exact hq)
        · cases h
      · cases h
    · split at h
      · split at h
        · rename_i t ht
          split at h
          · rename_i c hfill
            simp only [Option.some.injEq, Prod.mk.injEq] at h
            obtain ⟨rfl, rfl⟩ := h
            refine ⟨a1, a4, a3, a5, ?_⟩
            intro q hq
            rw [← a2]
            exact fill_frame hfill q (by rw [dummy_gpu_dptr ht]; exact hq)
          · cases h
        · cases h
      · simp only [Option.some.injEq, Prod.mk.injEq] at h
        obtain ⟨rfl, rfl⟩ := h
        exact ⟨a1, a4, a3, a5, fun q _ => by rw [a2]⟩
  · simp only [Option.some.injEq, Prod.mk.injEq] at h
    obtain ⟨rfl, rfl⟩ := h
    exact ⟨rfl, rfl, in_use_le_refl _, fun _ _ hne => hne, fun _ _ => rfl⟩

end SyncFrame

end SynchronizedMemory

namespace SynchronizedMemory

section StepFrame

variable {R : Type} [Zero R]

theorem to_cpu_framed {m m' : SynchronizedMemory} {w w' : World R}
    (h : m.to_cpu w = some (w', m')) : Framed w m w' m' := by
  obtain ⟨h1, h2, h3, h4, h5⟩ := to_cpu_frame h
  exact ⟨h3, h4, fun g _ hne => by rw [h2]; exact hne, h5, fun q _ => by rw [h1]⟩

theorem to_gpu_framed {m m' : SynchronizedMemory} {w w' : World R}
    (h : m.to_gpu w = some (w', m')) : Framed w m w' m' := by
  obtain ⟨h1, h2, h3, h4, h5⟩ := to_gpu_frame h
  exact ⟨h3, fun c _ hne => by rw [h2]; exact hne, h4, fun q _ => by rw [h1], h5⟩

theorem clear_framed {m m' : SynchronizedMemory} {w w' : World R}
    (h : m.clear w = some (w', m')) : Framed w m w' m' := by
  unfold clear at h
  simp only at h
  split at h
  · obtain ⟨a1, a2, a3, a4, a5⟩ :=
      allocate_gpu_frame { m with clear_on_allocation := true } w
    split at h
    · rename_i t ht
      split at h
      · rename_i g hfill
        simp only [Option.some.injEq, Prod.mk.injEq] at h
        obtain ⟨rfl, rfl⟩ := h
        refine ⟨a3, fun c _ hne => by rw [a4]; exact hne, a5, fun q _ => by rw [a1], ?_⟩
        intro q hq
        rw [← a2]
        exact fill_frame hfill q (by rw [dummy_gpu_dptr ht]; exact hq)
      · cases h
    · cases h
  · split at h
    · obtain ⟨a1, a2, a3, a4, a5⟩ :=
        allocate_cpu_frame { m with clear_on_allocation := true } w
      split at h
      · rename_i t ht
        split at h
        · rename_i c hfill
          simp only [Option.some.injEq, Prod.mk.injEq] at h
          obtain ⟨rfl, rfl⟩ := h
          refine ⟨a3, a5, fun g _ hne => by rw [a4]; exact hne, ?_, fun q _ => by rw [a2]⟩
          intro q hq
          rw [← a1]
          exact fill_frame hfill q (by rw [dummy_cpu_dptr ht]; exact hq)
        · cases h
      · cases h
    · simp only [Option.some.injEq, Prod.mk.injEq] at h
      obtain ⟨rfl, rfl⟩ := h
      exact ⟨in_use_le_refl _, fun _ _ hne => hne, fun _ _ hne => hne, fun _ _ => rfl,
        fun _ _ => rfl⟩

/-- Every call frames the world: it writes only to buffers the memory holds
afterwards, and it takes new buffers only from those not in use. -/
theorem step_framed {w w' : World R} {m m' : SynchronizedMemory}
    (hs : Step (w, m) (w', m')) : Framed w m w' m' := by
  cases hs with
  | @cpu_data _ _ _ _ p hstep =>
    unfold cpu_data at hstep
    split at hstep
    · rename_i w1 m1 h1
      simp only [Option.some.injEq, Prod.mk.injEq] at hstep
      obtain ⟨-, rfl, rfl⟩ := hstep
      exact to_cpu_framed h1
    · cases hstep
  | @gpu_data _ _ _ _ p hstep =>
    unfold gpu_data at hstep
    split at hstep
    · rename_i w1 m1 h1
      simp only [Option.some.injEq, Prod.mk.injEq] at hstep
      obtain ⟨-, rfl, rfl⟩ := hstep
      exact to_gpu_framed h1
    · cases hstep
  | @mutable_cpu_data _ w0 _ _ p f hstep =>
    unfold mutable_cpu_data at hstep
    split at hstep
    · rename_i w1 m1 h1
      simp only [Option.some.injEq, Prod.mk.injEq] at hstep
      obtain ⟨rfl, rfl, rfl⟩ := hstep
      obtain ⟨f1, f2, f3, f4, f5⟩ := to_cpu_framed h1
      refine ⟨?_, f2, f3, ?_, ?_⟩
      · refine in_use_le_trans f1 (in_use_le_of_bank ?_ ?_) <;>
          (unfold World.write_cpu; split <;> rfl)
      · intro q hq
        rw [← f4 q hq]
        unfold World.write_cpu
        split
        · rfl
        · rename_i a ha
          funext i
          have : q ≠ a := fun e => hq (by simpa [e] using ha)
          simp [this]
      · intro q hq
        rw [← f5 q hq]
        unfold World.write_cpu
        split <;> rfl
    · cases hstep
  | @mutable_gpu_data _ w0 _ _ p f hstep =>
    unfold mutable_gpu_data at hstep
    split at hstep
    · rename_i w1 m1 h1
      simp only [Option.some.injEq, Prod.mk.injEq] at hstep
      obtain ⟨rfl, rfl, rfl⟩ := hstep
      obtain ⟨f1, f2, f3, f4, f5⟩ := to_gpu_framed h1
      refine ⟨?_, f2, f3, ?_, ?_⟩
      · refine in_use_le_trans f1 (in_use_le_of_bank ?_ ?_) <;>
          (unfold World.write_gpu; split <;> rfl)
      · intro q hq
        rw [← f4 q hq]
        unfold World.write_gpu
        split <;> rfl
      · intro q hq
        rw [← f5 q hq]
        unfold World.write_gpu
        split
        · rfl
        · rename_i a ha
          funext i
          have : q ≠ a := fun e => hq (by simpa [e] using ha)
          simp [this]
    · cases hstep
  | clear hstep => exact clear_framed hstep
  | lazy_clear hstep =>
    rw [lazy_clear_eq] at hstep
    split at hstep
    · exact clear_framed hstep
    · simp only [Option.some.injEq, Prod.mk.injEq] at hstep
      obtain ⟨rfl, rfl⟩ := hstep
      exact ⟨in_use_le_refl _, fun _ _ hne => hne, fun _ _ hne => hne, fun _ _ => rfl,
        fun _ _ => rfl⟩

/-- A buffer in use that the memory does not hold keeps its contents, stays
in use and stays out of the memory through any sequence of calls. -/
theorem steps_frame {s s' : World R × SynchronizedMemory}
    (hsteps : Relation.ReflTransGen Step s s') :
    (∀ c, s.1.cpu_in_use c → s.2.cpu_ptr ≠ some c →
      s'.1.cpu_in_use c ∧ s'.2.cpu_ptr ≠ some c ∧ s'.1.cpu c = s.1.cpu c) ∧
    (∀ g, s.1.gpu_in_use g → s.2.gpu_ptr ≠ some g →
      s'.1.gpu_in_use g ∧ s'.2.gpu_ptr ≠ some g ∧ s'.1.gpu g = s.1.gpu g) := by
  induction hsteps with
  | refl => exact ⟨fun _ h1 h2 => ⟨h1, h2, rfl⟩, fun _ h1 h2 => ⟨h1, h2, rfl⟩⟩
  | @tail b c _ hstep ih =>
    obtain ⟨wb, mb⟩ := b
    obtain ⟨wc, mc⟩ := c
    obtain ⟨f1, f2, f3, f4, f5⟩ := step_framed hstep
    constructor
    · intro q hq hne
      obtain ⟨i1, i2, i3⟩ := ih.1 q hq hne
      have hne2 := f2 q i1 i2
      exact ⟨f1.1 q i1, hne2, (f4 q hne2).trans i3⟩
    · intro q hq hne
      obtain ⟨i1, i2, i3⟩ := ih.2 q hq hne
      have hne2 := f3 q i1 i2
      exact ⟨f1.2 q i1, hne2, (f5 q hne2).trans i3⟩

end StepFrame

end SynchronizedMemory


section CopyFrame

variable {R : Type}

theorem memory_bank_allocate_cpu_in_use (w : World R) (hs : w.bank_sound) (amount d : Int) :
    (w.bank.allocate_cpu w.runtime amount d).1 <
        (w.bank.allocate_cpu w.runtime amount d).2.2.cpu_next ∧
    ∀ k box', (w.bank.allocate_cpu w.runtime amount d).2.1.cpu_memory_bank k = some box' →
      (w.bank.allocate_cpu w.runtime amount d).1 ∉ box' := by
  obtain ⟨s1, s2, -, -⟩ := hs
  unfold memory_bank.allocate_cpu
  split
  · rename_i box hbox
    split
    · rename_i q hq
      have hqmem : q ∈ box := List.mem_of_getLast?_eq_some hq
      refine ⟨(s1 amount box hbox).2 q hqmem, ?_⟩
      intro k box' hk
      by_cases hka : k = amount
      · subst hka
        simp only [Function.update_same, Option.some.injEq] at hk
        subst hk
        exact nodup_getLast_not_mem_dropLast box q (s1 k box hbox).1 hq
      · simp only [Function.update_noteq hka] at hk
        exact s2 amount k box box' (fun e => hka e.symm) hbox hk q hqmem
    · refine ⟨Nat.lt_succ_self _, ?_⟩
      intro k box' hk hmem
      exact Nat.lt_irrefl _ ((s1 k box' hk).2 _ hmem)
  · refine ⟨Nat.lt_succ_self _, ?_⟩
    intro k box' hk hmem
    exact Nat.lt_irrefl _ ((s1 k box' hk).2 _ hmem)

theorem memory_bank_allocate_gpu_in_use (w : World R) (hs : w.bank_sound) (amount d : Int) :
    (w.bank.allocate_gpu w.runtime amount d).1 <
        (w.bank.allocate_gpu w.runtime amount d).2.2.gpu_next ∧
    ∀ k box', (w.bank.allocate_gpu w.runtime amount d).2.1.gpu_memory_bank k = some box' →
      (w.bank.allocate_gpu w.runtime amount d).1 ∉ box' := by
  obtain ⟨-, -, s1, s2⟩ := hs
  unfold memory_bank.allocate_gpu
  split
  · rename_i box hbox
    split
    · rename_i q hq
      have hqmem : q ∈ box := List.mem_of_getLast?_eq_some hq
      refine ⟨(s1 amount box hbox).2 q hqmem, ?_⟩
      intro k box' hk
      by_cases hka : k = amount
      · subst hka
        simp only [Function.update_same, Option.some.injEq] at hk
        subst hk
        exact nodup_getLast_not_mem_dropLast box q (s1 k box hbox).1 hq
      · simp only [Function.update_noteq hka] at hk
        exact s2 amount k box box' (fun e => hka e.symm) hbox hk q hqmem
    · refine ⟨Nat.lt_succ_self _, ?_⟩
      intro k box' hk hmem
      exact Nat.lt_irrefl _ ((s1 k box' hk).2 _ hmem)
  · refine ⟨Nat.lt_succ_self _, ?_⟩
    intro k box' hk hmem
    exact Nat.lt_irrefl _ ((s1 k box' hk).2 _ hmem)

open SynchronizedMemory

/-- The frame of `copy_data_from` on a memory that holds no buffer yet: it
takes one buffer, which is in use afterwards, and writes to no other. -/
theorem copy_data_from_framed {m m' : SynchronizedMemory} {w w' : World R} {src : Tensor}
    {on_gpu : Bool} (h : m.copy_data_from w src on_gpu = some (w', m'))
    (hs : w.bank_sound) (hac : m.allocated_cpu = false) (hag : m.allocated_gpu = false)
    (hcp : m.cpu_ptr = none) (hgp : m.gpu_ptr = none) :
    Framed w m w' m' ∧ (∀ p, m'.cpu_ptr = some p → w'.cpu_in_use p) ∧
      (∀ p, m'.gpu_ptr = some p → w'.gpu_in_use p) := by
  unfold copy_data_from at h
  split at h
  · obtain ⟨a1, a2, a3, a4, a5⟩ := allocate_cpu_frame m w
    have hin := memory_bank_allocate_cpu_in_use w hs m.total_memory m.inner_dimension
    simp only at h
    split at h
    · rename_i t ht
      split at h
      · rename_i c hcopy
        simp only [Option.some.injEq, Prod.mk.injEq] at h
        obtain ⟨rfl, rfl⟩ := h
        refine ⟨⟨a3, a5, fun g _ hne => by rw [a4]; exact hne, ?_, fun q _ => by rw [a2]⟩,
          ?_, ?_⟩
        · intro q hq
          rw [← a1]
          exact Copy_frame hcopy q (by rw [dummy_cpu_dptr ht]; exact hq)
        · intro p hp
          simp only [allocate_cpu, hac, Bool.false_eq_true, if_false, Option.some.injEq] at hp
          subst hp
          simp only [allocate_cpu, hac, Bool.false_eq_true, if_false]
          exact hin
        · intro p hp
          simp only [a4, hgp] at hp
          cases hp
      · cases h
    · cases h
  · obtain ⟨a1, a2, a3, a4, a5⟩ := allocate_gpu_frame m w
    have hin := memory_bank_allocate_gpu_in_use w hs m.total_memory m.inner_dimension
    simp only at h
    split at h
    · rename_i t ht
      split at h
      · rename_i c hcopy
        simp only [Option.some.injEq, Prod.mk.injEq] at h
        obtain ⟨rfl, rfl⟩ := h
        refine ⟨⟨a3, fun g _ hne => by rw [a4]; exact hne, a5, fun q _ => by rw [a1], ?_⟩,
          ?_, ?_⟩
        · intro q hq
          rw [← a2]
          exact Copy_frame hcopy q (by rw [dummy_gpu_dptr ht]; exact hq)
        · intro p hp
          simp only [a4, hcp] at hp
          cases hp
        · intro p hp
          simp only [allocate_gpu, hag, Bool.false_eq_true, if_false, Option.some.injEq] at hp
          subst hp
          simp only [allocate_gpu, hag, Bool.false_eq_true, if_false]
          exact hin
      · cases h
    · cases h

/-- The frame of the copy constructor of `SynchronizedMemory`: the new object
holds buffers that were not in use and are in use afterwards, and no other
buffer is written. -/
theorem copy_construct_framed {other m' : SynchronizedMemory} {w w' : World R}
    (h : other.copy_construct w = some (w', m')) (hs : w.bank_sound) :
    w.in_use_le w' ∧
    (∀ c, w.cpu_in_use c → m'.cpu_ptr ≠ some c) ∧
    (∀ g, w.gpu_in_use g → m'.gpu_ptr ≠ some g) ∧
    (∀ q, m'.cpu_ptr ≠ some q → w'.cpu q = w.cpu q) ∧
    (∀ q, m'.gpu_ptr ≠ some q → w'.gpu q = w.gpu q) ∧
    (∀ p, m'.cpu_ptr = some p → w'.cpu_in_use p) ∧
    (∀ p, m'.gpu_ptr = some p → w'.gpu_in_use p) := by
  unfold copy_construct at h
  split at h
  · cases h
  · rename_i m0 hm0
    obtain ⟨-, -, -, hac, hag, hcp, hgp, -⟩ := consistent_construct hm0
    have key : ∀ {src : Tensor} {on_gpu : Bool},
        m0.copy_data_from w src on_gpu = some (w', m') →
        w.in_use_le w' ∧
        (∀ c, w.cpu_in_use c → m'.cpu_ptr ≠ some c) ∧
        (∀ g, w.gpu_in_use g → m'.gpu_ptr ≠ some g) ∧
        (∀ q, m'.cpu_ptr ≠ some q → w'.cpu q = w.cpu q) ∧
        (∀ q, m'.gpu_ptr ≠ some q → w'.gpu q = w.gpu q) ∧
        (∀ p, m'.cpu_ptr = some p → w'.cpu_in_use p) ∧
        (∀ p, m'.gpu_ptr = some p → w'.gpu_in_use p) := by
      intro src on_gpu hcd
      obtain ⟨⟨f1, f2, f3, f4, f5⟩, u1, u2⟩ := copy_data_from_framed hcd hs hac hag hcp hgp
      exact ⟨f1, fun c hc => f2 c hc (by simp [hcp]), fun g hg => f3 g hg (by simp [hgp]),
        f4, f5, u1, u2⟩
    split at h
    · split at h
      · exact key h
      · cases h
    · split at h
      · split at h
        · exact key h
        · cases h
      · simp only [Option.some.injEq, Prod.mk.injEq] at h
        obtain ⟨rfl, rfl⟩ := h
        exact ⟨in_use_le_refl _, fun c _ => by simp [hcp], fun g _ => by simp [hgp],
          fun _ _ => rfl, fun _ _ => rfl, fun p hp => by simp [hcp] at hp,
          fun p hp => by simp [hgp] at hp⟩

end CopyFrame


namespace TensorInternal

section CopyMemory

variable {R : Type}

open SynchronizedMemory

theorem elements_congr (m : SynchronizedMemory) (w1 w2 : World R) (i : Nat)
    (hc : ∀ c, m.cpu_ptr = some c → w1.cpu c = w2.cpu c)
    (hg : ∀ g, m.gpu_ptr = some g → w1.gpu g = w2.gpu g) :
    m.elements w1 i = m.elements w2 i := by
  unfold elements
  split
  · cases hp : m.cpu_ptr with
    | none => rfl
    | some c => simp only [Option.map_some', hc c hp]
  · split
    · cases hp : m.gpu_ptr with
      | none => rfl
      | some g => simp only [Option.map_some', hg g hp]
    · rfl

/-- The elements the copy holds are those of the source. -/
theorem copy_construct_elements (m : SynchronizedMemory) (w : World R) (hc : Consistent m)
    {w' : World R} {m' : SynchronizedMemory} (h : m.copy_construct w = some (w', m')) :
    ∀ i, i < m.total_memory → m'.elements w' i = m.elements w i := by
  obtain ⟨w2, m2, heq, -, -, -, -, -, hex, hnone, hsome⟩ := copy_construct_spec m w hc
  rw [heq] at h
  simp only [Option.some.injEq, Prod.mk.injEq] at h
  obtain ⟨rfl, rfl⟩ := h
  intro i hi
  by_cases hf : m.cpu_fresh = true ∨ m.gpu_fresh = true
  · obtain ⟨p, s, hs1, hs2, -, hcpu, hgpu⟩ := hsome hf
    have hsrc : m.elements w i = some ((if m.cpu_fresh = true then w.cpu else w.gpu) s i) := by
      unfold elements
      by_cases hcf : m.cpu_fresh = true
      · simp [hcf, hs1 hcf]
      · have hcf' : m.cpu_fresh = false := by simpa using hcf
        have hgf : m.gpu_fresh = true := by
          rcases hf with h | h
          · exact absurd h hcf
          · exact h
        simp [hcf', hgf, hs2 hcf']
    rw [hsrc]
    cases hdev : m.preferred_device
    · obtain ⟨-, hp, -, hgf, -, -, hcf, -, -, hall⟩ := hgpu hdev
      unfold elements
      simp only [hcf, hgf, hp, Bool.false_eq_true, if_false, if_true, Option.map_some',
        hall i hi]
    · obtain ⟨-, hp, -, hcf, -, -, hgf, -, -, hall⟩ := hcpu hdev
      unfold elements
      simp only [hcf, hp, if_true, Option.map_some', hall i hi]
  · have h1 : m.cpu_fresh = false := by
      cases hx : m.cpu_fresh
      · rfl
      · exact absurd (Or.inl hx) hf
    have h2 : m.gpu_fresh = false := by
      cases hx : m.gpu_fresh
      · rfl
      · exact absurd (Or.inr hx) hf
    obtain ⟨-, -, -, -, -, hcf, hgf⟩ := hnone h1 h2
    unfold elements
    simp [h1, h2, hcf, hgf]

variable [Zero R]

/-- C21: a copy of a `TensorInternal` made with `copy_memory = false` is the
same view: same memory, shape and offset, so that every access through either
one is an access to the same element of the one memory. A copy made with
`copy_memory = true` has a memory of its own (a new handle and buffers the
source does not hold) with the shape and offset of the source and the same
elements; whatever calls are later made on the memory of the copy, with
arbitrary writes, the elements of the source stay as they are, and whatever
calls are later made on the memory of the source, the elements of the copy
stay as they are. The source memory is in a consistent state and holds its
buffers in use, the bank holding each recycled buffer once. -/
theorem copy_construct_memory (other : TensorInternal) (store : List SynchronizedMemory)
    (w : World R) (m : SynchronizedMemory) (hm : store[other.memory_]? = some m)
    (hc : Consistent m) (hs : w.bank_sound)
    (hcu : ∀ c, m.cpu_ptr = some c → w.cpu_in_use c)
    (hgu : ∀ g, m.gpu_ptr = some g → w.gpu_in_use g) :
    other.copy_construct false store w = some (other, store, w) ∧
    ∃ m' w', other.copy_construct true store w =
        some ({ shape := other.shape, memory_ := store.length, offset := other.offset },
          store ++ [m'], w') ∧
      store.length ≠ other.memory_ ∧
      (store ++ [m'])[other.memory_]? = some m ∧
      (store ++ [m'])[store.length]? = some m' ∧
      Consistent m' ∧ m'.total_memory = m.total_memory ∧
      (∀ c, m.cpu_ptr = some c → m'.cpu_ptr ≠ some c) ∧
      (∀ g, m.gpu_ptr = some g → m'.gpu_ptr ≠ some g) ∧
      (∀ i, i < m.total_memory →
        m'.elements w' i = m.elements w i ∧ m.elements w' i = m.elements w i) ∧
      (∀ s', Relation.ReflTransGen Step (w', m') s' →
        ∀ i, m.elements s'.1 i = m.elements w' i) ∧
      (∀ s', Relation.ReflTransGen Step (w', m) s' →
        ∀ i, m'.elements s'.1 i = m'.elements w' i) := by
  refine ⟨rfl, ?_⟩
  obtain ⟨w', m', heq, hcon, htot, -⟩ := copy_construct_spec m w hc
  obtain ⟨f1, f2, f3, f4, f5, u1, u2⟩ := copy_construct_framed heq hs
  have hlt : other.memory_ < store.length := by
    by_contra hge
    rw [List.getElem?_eq_none (Nat.le_of_not_lt hge)] at hm
    cases hm
  have hnc : ∀ c, m.cpu_ptr = some c → m'.cpu_ptr ≠ some c := fun c hp => f2 c (hcu c hp)
  have hng : ∀ g, m.gpu_ptr = some g → m'.gpu_ptr ≠ some g := fun g hp => f3 g (hgu g hp)
  refine ⟨m', w', ?_, Nat.ne_of_gt hlt, ?_, ?_, hcon, htot, hnc, hng, ?_, ?_, ?_⟩
  · simp only [copy_construct, if_true, hm, heq]
  · rw [List.getElem?_append_left hlt]; exact hm
  · simp
  · intro i hi
    refine ⟨copy_construct_elements m w hc heq i hi, ?_⟩
    exact elements_congr m w' w i (fun c hp => f4 c (hnc c hp)) (fun g hp => f5 g (hng g hp))
  · intro s' hsteps i
    obtain ⟨g1, g2⟩ := steps_frame hsteps
    exact elements_congr m s'.1 w' i
      (fun c hp => (g1 c (f1.1 c (hcu c hp)) (hnc c hp)).2.2)
      (fun g hp => (g2 g (f1.2 g (hgu g hp)) (hng g hp)).2.2)
  · intro s' hsteps i
    obtain ⟨g1, g2⟩ := steps_frame hsteps
    exact elements_congr m' s'.1 w' i
      (fun c hp => (g1 c (u1 c hp) (fun hmc => hnc c hmc hp)).2.2)
      (fun g hp => (g2 g (u2 g hp) (fun hmg => hng g hmg hp)).2.2)

end CopyMemory

theorem world0_bank_sound : world0.bank_sound := by
  refine ⟨?_, ?_, ?_, ?_⟩
  · intro k box hk
    simp only [world0, bank0] at hk
    split at hk
    · simp only [Option.some.injEq] at hk
      subst hk
      exact ⟨by simp, by simp [world0]⟩
    · cases hk
  · intro k k' box box' hne hk hk'
    simp only [world0, bank0] at hk hk'
    split at hk
    · split at hk'
      · rename_i h1 h2
        exact absurd (h1.trans h2.symm) hne
      · cases hk'
    · cases hk
  · intro k box hk
    simp only [world0, bank0] at hk
    split at hk
    · simp only [Option.some.injEq] at hk
      subst hk
      exact ⟨by simp, by simp [world0]⟩
    · cases hk
  · intro k k' box box' hne hk hk'
    simp only [world0, bank0] at hk hk'
    split at hk
    · split at hk'
      · rename_i h1 h2
        exact absurd (h1.trans h2.symm) hne
      · cases hk'
    · cases hk

theorem world0_cpu_in_use_3 : world0.cpu_in_use 3 := by
  refine ⟨by simp [world0], ?_⟩
  intro k box hk
  simp only [world0, bank0] at hk
  split at hk
  · simp only [Option.some.injEq] at hk
    subst hk
    simp
  · cases hk

/-- C21 at the `2 x 2` tensor over the memory `host_fresh` (host side fresh at
address 3, device-preferring) in `world0`: the copy without `copy_memory` is
the tensor itself; the copy with `copy_memory` has the new handle 1 and its
memory holds the elements `4, 5, 6, 7` of the source. -/
theorem copy_construct_memory_witness :
    tensor_2x2.copy_construct false [host_fresh] world0 =
      some (tensor_2x2, [host_fresh], world0) ∧
    ∃ m' w', tensor_2x2.copy_construct true [host_fresh] world0 =
        some ({ shape := [2, 2], memory_ := 1, offset := 0 }, [host_fresh, m'], w') ∧
      ∀ i, i < 4 → m'.elements w' i = some ((3 : Int) + i + 1) := by
  obtain ⟨h1, m', w', h2, -, -, -, -, -, -, -, h3, -⟩ :=
    copy_construct_memory tensor_2x2 [host_fresh] world0 host_fresh rfl (by decide)
      world0_bank_sound
      (fun c hc => by
        simp only [host_fresh, Option.some.injEq] at hc
        subst hc
        exact world0_cpu_in_use_3)
      (fun g hg => by simp [host_fresh] at hg)
  refine ⟨h1, m', w', h2, fun i hi => ?_⟩
  rw [(h3 i hi).1]
  rfl

end TensorInternal

/-! ## Theorems: the RNN cell and the stacked-input layer -/

section LayerGradients

variable {R : Type} [CommRing R]

theorem rnn_activate_eq (input hidden N : Nat) (wx wh b xw hw : Nat → Nat → R) :
    (RNN.create input hidden wx wh b).activate { n := input, d := N, w := xw }
        { n := hidden, d := N, w := hw } =
      some { n := hidden, d := N
             w := fun i j =>
               ((List.range input).map fun k => wx i k * xw k j).sum +
                 ((List.range hidden).map fun k => wh i k * hw k j).sum + b i 0 } := by
  simp [RNN.activate, RNN.create, Mat.add_broadcast, Mat.add, Mat.dot]

theorem stacked_activate_eq (input hidden N : Nat) (wx wh b xw hw : Nat → Nat → R) :
    (StackedInputLayer.create [input, hidden] hidden [wx, wh] b).activate
        [{ n := input, d := N, w := xw }, { n := hidden, d := N, w := hw }] =
      some { n := hidden, d := N
             w := fun i j =>
               ((List.range input).map fun k => wx i k * xw k j).sum +
                 ((List.range hidden).map fun k => wh i k * hw k j).sum + b i 0 } := by
  simp [StackedInputLayer.activate, StackedInputLayer.create,
    StackedInputLayer.mul_add_mul_with_bias, Mat.dot, add_assoc]

theorem rnn_stacked_backward_eq (input hidden : Nat) (wx wh b : Nat → Nat → R)
    (x h dY : Mat R) :
    ((StackedInputLayer.create [input, hidden] hidden [wx, wh] b).backward [x, h] dY).dW =
      [((RNN.create input hidden wx wh b).backward x h dY).dWx,
        ((RNN.create input hidden wx wh b).backward x h dY).dWh] ∧
    ((StackedInputLayer.create [input, hidden] hidden [wx, wh] b).backward [x, h] dY).db =
      ((RNN.create input hidden wx wh b).backward x h dY).db ∧
    ((StackedInputLayer.create [input, hidden] hidden [wx, wh] b).backward [x, h] dY).dX =
      [((RNN.create input hidden wx wh b).backward x h dY).dX,
        ((RNN.create input hidden wx wh b).backward x h dY).dH] := by
  refine ⟨?_, ?_, ?_⟩ <;>
    simp [StackedInputLayer.backward, RNN.backward, StackedInputLayer.create, RNN.create,
      Mat.accumulate, Mat.zeros, Mat.dot, Mat.transpose, Mat.sum_cols]

/-- C24: for an input `x` of shape `[input, N]`, a hidden `h` of shape
`[hidden, N]` and parameter values `(Wx, Wh, b)`, the `RNN(input, hidden)` and
the `StackedInputLayer([input, hidden], hidden)` holding these values have
parameter lists of the same shapes in the same order (and of the same
values), give the same activation, and for the loss
`sum((tanh(y) - 1)^2)` the gradients `backward()` leaves on the three
parameters and on both inputs are equal, over any commutative ring with any
function for `tanh`. -/
theorem rnn_stacked_gradients (tanh : R → R) (input hidden N : Nat)
    (wx wh b : Nat → Nat → R) (x h : Mat R) (hx : x.dims = (input, N))
    (hh : h.dims = (hidden, N)) :
    (RNN.create input hidden wx wh b).parameters.map Mat.dims =
      [(hidden, input), (hidden, hidden), (hidden, 1)] ∧
    (StackedInputLayer.create [input, hidden] hidden [wx, wh] b).parameters.map Mat.dims =
      [(hidden, input), (hidden, hidden), (hidden, 1)] ∧
    (RNN.create input hidden wx wh b).parameters =
      (StackedInputLayer.create [input, hidden] hidden [wx, wh] b).parameters ∧
    ∃ y g1 g2,
      (RNN.create input hidden wx wh b).activate x h = some y ∧
      (StackedInputLayer.create [input, hidden] hidden [wx, wh] b).activate [x, h] = some y ∧
      y.dims = (hidden, N) ∧
      (RNN.create input hidden wx wh b).gradients tanh x h = some g1 ∧
      (StackedInputLayer.create [input, hidden] hidden [wx, wh] b).gradients tanh [x, h] =
        some g2 ∧
      g2.dW = [g1.dWx, g1.dWh] ∧ g2.db = g1.db ∧ g2.dX = [g1.dX, g1.dH] ∧
      [g1.dWx.dims, g1.dWh.dims, g1.db.dims, g1.dX.dims, g1.dH.dims] =
        [(hidden, input), (hidden, hidden), (hidden, 1), (input, N), (hidden, N)] := by
  obtain ⟨Y, hY1, hY2, hY3⟩ : ∃ Y,
      (RNN.create input hidden wx wh b).activate x h = some Y ∧
      (StackedInputLayer.create [input, hidden] hidden [wx, wh] b).activate [x, h] = some Y ∧
      Y.dims = (hidden, N) := by
    obtain ⟨xn, xd, xw⟩ := x
    obtain ⟨hn, hd, hw⟩ := h
    simp only [Mat.dims, Prod.mk.injEq] at hx hh
    obtain ⟨h1, h2⟩ := hx
    obtain ⟨h3, h4⟩ := hh
    subst h1 h2 h3 h4
    exact ⟨_, rnn_activate_eq _ _ _ wx wh b xw hw, stacked_activate_eq _ _ _ wx wh b xw hw, rfl⟩
  obtain ⟨b1, b2, b3⟩ :=
    rnn_stacked_backward_eq input hidden wx wh b x h (Mat.loss_gradient tanh Y)
  simp only [Mat.dims, Prod.mk.injEq] at hx hh
  refine ⟨rfl, rfl, rfl, Y,
    (RNN.create input hidden wx wh b).backward x h (Mat.loss_gradient tanh Y),
    (StackedInputLayer.create [input, hidden] hidden [wx, wh] b).backward [x, h]
      (Mat.loss_gradient tanh Y), hY1, hY2, hY3, ?_, ?_, b1, b2, b3, ?_⟩
  · simp only [RNN.gradients, hY1, Option.map_some']
  · simp only [StackedInputLayer.gradients, hY2, Option.map_some']
  · simp [RNN.backward, RNN.create, Mat.accumulate, Mat.zeros, Mat.dims, hx.1, hx.2, hh.1, hh.2]

end LayerGradients

/-- C24 at an `RNN(2, 1)` and a `StackedInputLayer({2, 1}, 1)` over the
integers holding `Wx = (1 2)`, `Wh = (3)`, `b = (1)`, with the input column
`(1, -1)`, the hidden element `2` and the identity in the place of `tanh`: the
activation is 6, the gradient on it is `(1 - 36) · 2 · 5 = -350`, and the
gradients of both layers are `-350·xᵀ`, `-350·hᵀ`, `-350`, `Wxᵀ·(-350)` and
`Whᵀ·(-350)`. -/
theorem rnn_stacked_gradients_witness :
    input_2x1.dims = (2, 1) ∧ hidden_1x1.dims = (1, 1) ∧
    ∃ g1 g2, rnn_2_1.gradients (fun v => v) input_2x1 hidden_1x1 = some g1 ∧
      stacked_2_1.gradients (fun v => v) [input_2x1, hidden_1x1] = some g2 ∧
      g2.dW = [g1.dWx, g1.dWh] ∧ g2.db = g1.db ∧ g2.dX = [g1.dX, g1.dH] ∧
      (g1.dWx.w 0 0, g1.dWx.w 0 1, g1.dWh.w 0 0, g1.db.w 0 0, g1.dX.w 0 0, g1.dX.w 1 0,
        g1.dH.w 0 0) = (-350, 350, -700, -350, -350, -700, -1050) := by
  obtain ⟨-, -, -, y, g1, g2, -, -, -, hg1, hg2, e1, e2, e3, -⟩ :=
    rnn_stacked_gradients (fun (v : Int) => v) 2 1 1 (fun _ k => (k : Int) + 1) (fun _ _ => 3)
      (fun _ _ => 1) input_2x1 hidden_1x1 rfl rfl
  refine ⟨rfl, rfl, g1, g2, hg1, hg2, e1, e2, e3, ?_⟩
  have hv : (rnn_2_1.gradients (fun v => v) input_2x1 hidden_1x1).map
      (fun g => (g.dWx.w 0 0, g.dWx.w 0 1, g.dWh.w 0 0, g.db.w 0 0, g.dX.w 0 0, g.dX.w 1 0,
        g.dH.w 0 0)) = some (-350, 350, -700, -350, -350, -700, -1050) := by
    rfl
  have hg1b : rnn_2_1.gradients (fun v => v) input_2x1 hidden_1x1 = some g1 := hg1
  rw [hg1b] at hv
  simpa using hv

end Dali
